import Mathlib

/-!
Verification of strconvert.

A shallow embedding of the Go package `github.com/nahojer/strconvert`
(`parse.go`, `stringify.go`, `options.go`, `interface.go`) together with the
parts of the Go standard library the package calls (`strconv`, `strings`,
`sort`, `errors`, `reflect`), followed by theorems about `Stringify` and
`Parse`.

Conventions of the embedding:

* a Go `string` is the list of its bytes, each byte a natural number below 256;
* a `rune` is an integer; `string(rune)` is its UTF-8 encoding;
* machine integers are unbounded integers with explicit wrap-around where the
  Go code can overflow; `int` and `uint` are 64 bits wide;
* a `reflect.Value` is a type (`Typ`), a content (`Val`) and the flag that
  tells whether it is addressable; a write through a `reflect.Value` is
  modelled by returning the new content;
* a pointer is the content of its pointee, so two pointers to equal contents
  are not told apart; the keys of a map are compared with Go's `==` (`keyEq`),
  for which a floating-point NaN is not equal to itself;
* a call returns normally, returns a non-nil `error`, or panics (`Fault`);
* the functions of the standard library that are not modelled (floating-point
  and duration formatting and parsing, quoting) and the marshal and unmarshal
  methods of user types are the fields of a `Host`;
* defined types are modelled for the leaf kinds only (a defined slice, array,
  map or pointer type is identified with its underlying type), a nil slice or
  map is identified with the empty one, and every value can be interfaced and,
  when it is addressable, set (no value comes from an unexported field).
-/

namespace Strconvert

/-- A Go string, as the sequence of its bytes. -/
abbrev GoString := List Nat

/-- The conversion `string(r)` of a rune: the UTF-8 encoding of `r`, and the
encoding of U+FFFD for a value that is not a valid code point. -/
def runeToString (r : Int) : GoString :=
  if r < 0 then [0xEF, 0xBF, 0xBD]
  else
    let i := r.toNat
    if i ≤ 0x7F then [i]
    else if i ≤ 0x7FF then [0xC0 + i / 64, 0x80 + i % 64]
    else if i > 0x10FFFF ∨ (0xD800 ≤ i ∧ i ≤ 0xDFFF) then [0xEF, 0xBF, 0xBD]
    else if i ≤ 0xFFFF then [0xE0 + i / 4096, 0x80 + i / 64 % 64, 0x80 + i % 64]
    else [0xF0 + i / 262144, 0x80 + i / 4096 % 64, 0x80 + i / 64 % 64, 0x80 + i % 64]

/-- The bytes of a string literal. -/
def str (s : String) : GoString :=
  s.toList.flatMap (fun c => runeToString (Int.ofNat c.toNat))

namespace strings

/-- Worker of `Split`: `skip` counts the bytes of a matched separator that
are still to be passed over. -/
def splitAux (sep : GoString) : GoString → Nat → List GoString
  | [], _ => [[]]
  | _ :: cs, skip + 1 => splitAux sep cs skip
  | c :: cs, 0 =>
    if sep.isPrefixOf (c :: cs) then
      [] :: splitAux sep cs (sep.length - 1)
    else
      match splitAux sep cs 0 with
      | p :: ps => (c :: p) :: ps
      | [] => [[c]]

/-- Go `strings.Split(s, sep)` for a non-empty separator: the pieces of `s`
between the leftmost non-overlapping occurrences of `sep`. (The package only
ever passes `string(rune)`, which is never empty.) -/
def Split (s sep : GoString) : List GoString :=
  splitAux sep s 0

/-- Go `strings.Join(elems, sep)`. -/
def Join : List GoString → GoString → GoString
  | [], _ => []
  | [a], _ => a
  | a :: b :: rest, sep => a ++ sep ++ Join (b :: rest) sep

/-- The ASCII white space bytes: tab, line feed, vertical tab, form feed,
carriage return and space. -/
def asciiSpace (c : Nat) : Bool :=
  decide (c = 9 ∨ c = 10 ∨ c = 11 ∨ c = 12 ∨ c = 13 ∨ c = 32)

/-- The two-byte UTF-8 encodings of white space (`unicode.IsSpace`): U+0085
and U+00A0. -/
def isSpace2 (b0 b1 : Nat) : Bool :=
  decide (b0 = 0xC2 ∧ (b1 = 0x85 ∨ b1 = 0xA0))

/-- The three-byte UTF-8 encodings of white space (`unicode.IsSpace`):
U+1680, U+2000 to U+200A, U+2028, U+2029, U+202F, U+205F and U+3000. -/
def isSpace3 (b0 b1 b2 : Nat) : Bool :=
  decide ((b0 = 0xE1 ∧ b1 = 0x9A ∧ b2 = 0x80)
    ∨ (b0 = 0xE2 ∧ b1 = 0x80 ∧ ((0x80 ≤ b2 ∧ b2 ≤ 0x8A) ∨ b2 = 0xA8 ∨ b2 = 0xA9 ∨ b2 = 0xAF))
    ∨ (b0 = 0xE2 ∧ b1 = 0x81 ∧ b2 = 0x9F)
    ∨ (b0 = 0xE3 ∧ b1 = 0x80 ∧ b2 = 0x80))

/-- Removes leading white space from a byte sequence: the runes are decoded
from the start, and a byte sequence that does not encode a white space rune
stops the removal. -/
def trimLeftSpace : GoString → GoString
  | [] => []
  | c :: cs =>
    if asciiSpace c then trimLeftSpace cs
    else
      match cs with
      | [] => c :: cs
      | c1 :: rest1 =>
        if isSpace2 c c1 then trimLeftSpace rest1
        else
          match rest1 with
          | [] => c :: cs
          | c2 :: rest2 => if isSpace3 c c1 c2 then trimLeftSpace rest2 else c :: cs

/-- Removes trailing white space from a byte sequence given in reverse
order: the last rune is decoded backwards from the end. -/
def trimRightSpaceRev : GoString → GoString
  | [] => []
  | c :: cs =>
    if asciiSpace c then trimRightSpaceRev cs
    else
      match cs with
      | [] => c :: cs
      | c1 :: rest1 =>
        if isSpace2 c1 c then trimRightSpaceRev rest1
        else
          match rest1 with
          | [] => c :: cs
          | c2 :: rest2 => if isSpace3 c2 c1 c then trimRightSpaceRev rest2 else c :: cs

/-- Go `strings.TrimSpace(s)`: `s` without leading and trailing white
space. -/
def TrimSpace (s : GoString) : GoString :=
  (trimRightSpaceRev (trimLeftSpace s).reverse).reverse

end strings

namespace sort

/-- Byte-wise lexicographic comparison `a <= b` of two Go strings. -/
def le : GoString → GoString → Bool
  | [], _ => true
  | _ :: _, [] => false
  | a :: as, b :: bs => decide (a < b) || (decide (a = b) && le as bs)

/-- Go `sort.Strings(x)`: `x` in increasing byte-wise lexicographic
order. -/
def Strings (x : List GoString) : List GoString :=
  List.insertionSort (fun a b => le a b = true) x

end sort

namespace strconv

/-- The error kinds carried by a `*strconv.NumError`. -/
inductive NumErrKind where
  | ErrSyntax
  | ErrRange
  | ErrBase (base : Nat)
  | ErrBitSize (bitSize : Nat)
  deriving DecidableEq, Repr

/-- Go `strconv.NumError`: the failing function, the input and the cause. -/
structure NumError where
  Func : String
  Num : GoString
  Err : NumErrKind
  deriving DecidableEq, Repr

/-- Go `lower(c)`, that is `c | ('x' - 'X')`: sets bit 5 of a byte. -/
def lower (c : Nat) : Nat :=
  if c / 32 % 2 = 0 then c + 32 else c

/-- Outcome of the digit loop of `ParseUint`. -/
inductive Scan where
  | syntaxErr
  | rangeErr
  | done (n : Nat) (underscores : Bool)
  deriving DecidableEq, Repr

/-- The digit loop of `ParseUint` over the bytes that remain, from the
accumulated value `n` (a `uint64`). -/
def scanDigits (base0 : Bool) (base cutoff maxVal : Nat) : GoString → Nat → Bool → Scan
  | [], n, us => .done n us
  | c :: cs, n, us =>
    if c = 95 ∧ base0 = true then scanDigits base0 base cutoff maxVal cs n true
    else
      let d : Option Nat :=
        if 48 ≤ c ∧ c ≤ 57 then some (c - 48)
        else if 97 ≤ lower c ∧ lower c ≤ 122 then some (lower c - 97 + 10)
        else none
      match d with
      | none => .syntaxErr
      | some d =>
        if d ≥ base then .syntaxErr
        else if n ≥ cutoff then .rangeErr
        else
          let n := n * base % 2 ^ 64
          let n1 := (n + d) % 2 ^ 64
          if n1 < n ∨ n1 > maxVal then .rangeErr
          else scanDigits base0 base cutoff maxVal cs n1 us

/-- The loop of `underscoreOK`; `saw` is the last character class seen:
`94` at the start, `48` after a digit or base marker, `95` after an
underscore, `33` after anything else. -/
def underscoreLoop (hex : Bool) : GoString → Nat → Bool
  | [], saw => saw != 95
  | c :: cs, saw =>
    if (48 ≤ c ∧ c ≤ 57) ∨ (hex = true ∧ 97 ≤ lower c ∧ lower c ≤ 102) then
      underscoreLoop hex cs 48
    else if c = 95 then
      if saw != 48 then false else underscoreLoop hex cs 95
    else if saw = 95 then false
    else underscoreLoop hex cs 33

/-- Go `underscoreOK(s)`: underscores appear only between digits or between
a base marker and a digit. -/
def underscoreOK (s : GoString) : Bool :=
  let s := match s with
    | c :: cs => if c = 45 ∨ c = 43 then cs else s
    | [] => s
  match s with
  | 48 :: m :: rest =>
    if lower m = 98 ∨ lower m = 111 ∨ lower m = 120 then
      underscoreLoop (lower m = 120) rest 48
    else underscoreLoop false s 94
  | _ => underscoreLoop false s 94

/-- The base selection of `ParseUint`: the base and the digits that remain
after the base marker; `none` for an invalid base. With base 0 the base is
taken from the marker `0b`, `0o`, `0x` (which needs a digit after it) or `0`,
and is 10 without a marker. -/
def detectBase (s : GoString) (base : Nat) : Option (Nat × GoString) :=
  if 2 ≤ base ∧ base ≤ 36 then some (base, s)
  else if base = 0 then
    match s with
    | 48 :: m :: c :: rest =>
      if lower m = 98 then some (2, c :: rest)
      else if lower m = 111 then some (8, c :: rest)
      else if lower m = 120 then some (16, c :: rest)
      else some (8, m :: c :: rest)
    | 48 :: rest => some (8, rest)
    | _ => some (10, s)
  else none

/-- Go `strconv.ParseUint(s, base, bitSize)`: the value and the error, as
Go returns them (the value is 0 on a syntax error and the largest value of
the bit size on a range error). -/
def ParseUint (s : GoString) (base bitSize : Nat) : Nat × Option NumError :=
  if s = [] then (0, some ⟨"ParseUint", s, .ErrSyntax⟩)
  else
    match detectBase s base with
    | none => (0, some ⟨"ParseUint", s, .ErrBase base⟩)
    | some (b, digits) =>
      if bitSize > 64 then (0, some ⟨"ParseUint", s, .ErrBitSize bitSize⟩)
      else
        let bitSize := if bitSize = 0 then 64 else bitSize
        let cutoff := (2 ^ 64 - 1) / b + 1
        let maxVal := 2 ^ bitSize - 1
        match scanDigits (decide (base = 0)) b cutoff maxVal digits 0 false with
        | .syntaxErr => (0, some ⟨"ParseUint", s, .ErrSyntax⟩)
        | .rangeErr => (maxVal, some ⟨"ParseUint", s, .ErrRange⟩)
        | .done n underscores =>
          if underscores = true ∧ underscoreOK s = false then
            (0, some ⟨"ParseUint", s, .ErrSyntax⟩)
          else (n, none)

/-- The conversion `int64(x)`: wrap-around to 64 bits, two's complement. -/
def toInt64 (x : Int) : Int :=
  (x + 2 ^ 63) % 2 ^ 64 - 2 ^ 63

/-- Go `strconv.ParseInt(s, base, bitSize)`. -/
def ParseInt (s : GoString) (base bitSize : Nat) : Int × Option NumError :=
  match s with
  | [] => (0, some ⟨"ParseInt", s, .ErrSyntax⟩)
  | c :: cs =>
    let neg := decide (c = 45)
    let body := if c = 43 ∨ c = 45 then cs else s
    match ParseUint body base bitSize with
    | (un, err) =>
      match (match err with
             | some e => if e.Err ≠ .ErrRange then some e else none
             | none => none) with
      | some e => (0, some ⟨"ParseInt", s, e.Err⟩)
      | none =>
        let bitSize := if bitSize = 0 then 64 else bitSize
        let cutoff := 2 ^ (bitSize - 1)
        if neg = false ∧ un ≥ cutoff then
          (Int.ofNat cutoff - 1, some ⟨"ParseInt", s, .ErrRange⟩)
        else if neg = true ∧ un > cutoff then
          (- Int.ofNat cutoff, some ⟨"ParseInt", s, .ErrRange⟩)
        else
          let n := toInt64 (Int.ofNat un)
          (if neg then toInt64 (-n) else n, none)

/-- The digit loop of `formatBits` in base 10: the decimal digits of `u`
in front of `acc`. The first argument bounds the number of iterations. -/
def formatBits : Nat → Nat → GoString → GoString
  | 0, _, acc => acc
  | fuel + 1, u, acc =>
    if u < 10 then (48 + u) :: acc
    else formatBits fuel (u / 10) ((48 + u % 10) :: acc)

/-- Go `strconv.FormatUint(u, 10)`. -/
def FormatUint (u : Nat) : GoString :=
  formatBits (u + 1) u []

/-- Go `strconv.FormatInt(i, 10)`. -/
def FormatInt (i : Int) : GoString :=
  if i < 0 then 45 :: formatBits (i.natAbs + 1) i.natAbs []
  else formatBits (i.natAbs + 1) i.natAbs []

/-- Go `strconv.ParseBool(s)`. -/
def ParseBool (s : GoString) : Bool × Option NumError :=
  if s = str "1" ∨ s = str "t" ∨ s = str "T" ∨ s = str "TRUE" ∨ s = str "true"
      ∨ s = str "True" then (true, none)
  else if s = str "0" ∨ s = str "f" ∨ s = str "F" ∨ s = str "FALSE" ∨ s = str "false"
      ∨ s = str "False" then (false, none)
  else (false, some ⟨"ParseBool", s, .ErrSyntax⟩)

/-- Go `strconv.FormatBool(b)`. -/
def FormatBool (b : Bool) : GoString :=
  if b then str "true" else str "false"

end strconv

/-- Go `reflect.Kind`. -/
inductive Kind where
  | Invalid | Bool | Int | Int8 | Int16 | Int32 | Int64
  | Uint | Uint8 | Uint16 | Uint32 | Uint64 | Uintptr
  | Float32 | Float64 | Complex64 | Complex128
  | Array | Chan | Func | Interface | Map | Pointer | Slice | String | Struct
  | UnsafePointer
  deriving DecidableEq, Repr

/-- Go `Kind.String()`: the name of a kind. -/
def Kind.name : Kind → GoString
  | .Invalid => str "invalid" | .Bool => str "bool" | .Int => str "int"
  | .Int8 => str "int8" | .Int16 => str "int16" | .Int32 => str "int32"
  | .Int64 => str "int64" | .Uint => str "uint" | .Uint8 => str "uint8"
  | .Uint16 => str "uint16" | .Uint32 => str "uint32" | .Uint64 => str "uint64"
  | .Uintptr => str "uintptr" | .Float32 => str "float32" | .Float64 => str "float64"
  | .Complex64 => str "complex64" | .Complex128 => str "complex128"
  | .Array => str "array" | .Chan => str "chan" | .Func => str "func"
  | .Interface => str "interface" | .Map => str "map" | .Pointer => str "ptr"
  | .Slice => str "slice" | .String => str "string" | .Struct => str "struct"
  | .UnsafePointer => str "unsafe.Pointer"

/-- The kinds of the types whose structure the package never looks into:
every kind other than pointer, slice, array and map. -/
inductive LeafKind where
  | Bool | Int | Int8 | Int16 | Int32 | Int64
  | Uint | Uint8 | Uint16 | Uint32 | Uint64 | Uintptr
  | Float32 | Float64 | Complex64 | Complex128
  | Chan | Func | Interface | String | Struct | UnsafePointer
  deriving DecidableEq, Repr

/-- The `reflect.Kind` of a leaf kind. -/
def LeafKind.toKind : LeafKind → Kind
  | .Bool => .Bool | .Int => .Int | .Int8 => .Int8 | .Int16 => .Int16
  | .Int32 => .Int32 | .Int64 => .Int64 | .Uint => .Uint | .Uint8 => .Uint8
  | .Uint16 => .Uint16 | .Uint32 => .Uint32 | .Uint64 => .Uint64
  | .Uintptr => .Uintptr | .Float32 => .Float32 | .Float64 => .Float64
  | .Complex64 => .Complex64 | .Complex128 => .Complex128 | .Chan => .Chan
  | .Func => .Func | .Interface => .Interface | .String => .String
  | .Struct => .Struct | .UnsafePointer => .UnsafePointer

/-- Go `Type.Bits()` for the sized kinds (`int` and `uint` are 64 bits
wide); 0 for the others. -/
def LeafKind.Bits : LeafKind → Nat
  | .Int8 | .Uint8 => 8
  | .Int16 | .Uint16 => 16
  | .Int32 | .Uint32 | .Float32 => 32
  | .Int | .Int64 | .Uint | .Uint64 | .Uintptr | .Float64 | .Complex64 => 64
  | .Complex128 => 128
  | _ => 0

/-- A Go type, as `reflect.Type` identifies it: a leaf type is identified by
its package path, its name and its kind (`leaf "" "int64" .Int64` is `int64`,
`leaf "time" "Duration" .Int64` is `time.Duration`); the composite types are
identified by their element types. -/
inductive Typ where
  | leaf (pkgPath name : String) (kind : LeafKind)
  | ptr (elem : Typ)
  | slice (elem : Typ)
  | array (len : Nat) (elem : Typ)
  | map (key elem : Typ)
  deriving DecidableEq, Repr

/-- Go `Type.Kind()`. -/
def Typ.Kind : Typ → Kind
  | .leaf _ _ k => k.toKind
  | .ptr _ => .Pointer
  | .slice _ => .Slice
  | .array _ _ => .Array
  | .map _ _ => .Map

/-- The content of a Go value. A pointer is its pointee's content (or nil),
a slice or an array is the list of its elements (a nil slice is the empty
list), a map is the list of its entries in the order `MapKeys` enumerates
them (a nil map is the empty list), and `other` stands for the content of a
struct, channel, function, interface or unsafe pointer. Floating-point
numbers are kept as the IEEE 754 binary64 bit patterns of the `float64` that
`v.Float()` returns (for a complex number, of its two parts). -/
inductive Val where
  | string (s : GoString)
  | int (i : Int)
  | uint (u : Nat)
  | float (bits : Nat)
  | complex (re im : Nat)
  | bool (b : Bool)
  | nil
  | ptr (elem : Val)
  | list (elems : List Val)
  | map (entries : List (Val × Val))
  | other (id : Nat)

mutual
/-- Decidable equality of value contents. -/
def Val.decEq : (a b : Val) → Decidable (a = b)
  | .string a, .string b => decidable_of_iff (a = b) (by simp)
  | .int a, .int b => decidable_of_iff (a = b) (by simp)
  | .uint a, .uint b => decidable_of_iff (a = b) (by simp)
  | .float a, .float b => decidable_of_iff (a = b) (by simp)
  | .complex a c, .complex b d => decidable_of_iff (a = b ∧ c = d) (by simp)
  | .bool a, .bool b => decidable_of_iff (a = b) (by simp)
  | .nil, .nil => isTrue rfl
  | .ptr a, .ptr b =>
    match Val.decEq a b with
    | isTrue h => isTrue (by rw [h])
    | isFalse h => isFalse (by simpa using h)
  | .list a, .list b =>
    match Val.decEqList a b with
    | isTrue h => isTrue (by rw [h])
    | isFalse h => isFalse (by simpa using h)
  | .map a, .map b =>
    match Val.decEqEntries a b with
    | isTrue h => isTrue (by rw [h])
    | isFalse h => isFalse (by simpa using h)
  | .other a, .other b => decidable_of_iff (a = b) (by simp)
  | .string _, .int _ | .string _, .uint _ | .string _, .float _ | .string _, .complex _ _
  | .string _, .bool _ | .string _, .nil | .string _, .ptr _ | .string _, .list _
  | .string _, .map _ | .string _, .other _ => isFalse (by simp)
  | .int _, .string _ | .int _, .uint _ | .int _, .float _ | .int _, .complex _ _
  | .int _, .bool _ | .int _, .nil | .int _, .ptr _ | .int _, .list _
  | .int _, .map _ | .int _, .other _ => isFalse (by simp)
  | .uint _, .string _ | .uint _, .int _ | .uint _, .float _ | .uint _, .complex _ _
  | .uint _, .bool _ | .uint _, .nil | .uint _, .ptr _ | .uint _, .list _
  | .uint _, .map _ | .uint _, .other _ => isFalse (by simp)
  | .float _, .string _ | .float _, .int _ | .float _, .uint _ | .float _, .complex _ _
  | .float _, .bool _ | .float _, .nil | .float _, .ptr _ | .float _, .list _
  | .float _, .map _ | .float _, .other _ => isFalse (by simp)
  | .complex _ _, .string _ | .complex _ _, .int _ | .complex _ _, .uint _
  | .complex _ _, .float _ | .complex _ _, .bool _ | .complex _ _, .nil
  | .complex _ _, .ptr _ | .complex _ _, .list _ | .complex _ _, .map _
  | .complex _ _, .other _ => isFalse (by simp)
  | .bool _, .string _ | .bool _, .int _ | .bool _, .uint _ | .bool _, .float _
  | .bool _, .complex _ _ | .bool _, .nil | .bool _, .ptr _ | .bool _, .list _
  | .bool _, .map _ | .bool _, .other _ => isFalse (by simp)
  | .nil, .string _ | .nil, .int _ | .nil, .uint _ | .nil, .float _ | .nil, .complex _ _
  | .nil, .bool _ | .nil, .ptr _ | .nil, .list _ | .nil, .map _ | .nil, .other _ =>
    isFalse (by simp)
  | .ptr _, .string _ | .ptr _, .int _ | .ptr _, .uint _ | .ptr _, .float _
  | .ptr _, .complex _ _ | .ptr _, .bool _ | .ptr _, .nil | .ptr _, .list _
  | .ptr _, .map _ | .ptr _, .other _ => isFalse (by simp)
  | .list _, .string _ | .list _, .int _ | .list _, .uint _ | .list _, .float _
  | .list _, .complex _ _ | .list _, .bool _ | .list _, .nil | .list _, .ptr _
  | .list _, .map _ | .list _, .other _ => isFalse (by simp)
  | .map _, .string _ | .map _, .int _ | .map _, .uint _ | .map _, .float _
  | .map _, .complex _ _ | .map _, .bool _ | .map _, .nil | .map _, .ptr _
  | .map _, .list _ | .map _, .other _ => isFalse (by simp)
  | .other _, .string _ | .other _, .int _ | .other _, .uint _ | .other _, .float _
  | .other _, .complex _ _ | .other _, .bool _ | .other _, .nil | .other _, .ptr _
  | .other _, .list _ | .other _, .map _ => isFalse (by simp)
/-- Decidable equality of lists of value contents. -/
def Val.decEqList : (a b : List Val) → Decidable (a = b)
  | [], [] => isTrue rfl
  | [], _ :: _ => isFalse (by simp)
  | _ :: _, [] => isFalse (by simp)
  | x :: xs, y :: ys =>
    match Val.decEq x y, Val.decEqList xs ys with
    | isTrue h, isTrue h2 => isTrue (by rw [h, h2])
    | isFalse h, _ => isFalse (by simp [h])
    | _, isFalse h => isFalse (by simp [h])
/-- Decidable equality of lists of map entries. -/
def Val.decEqEntries : (a b : List (Val × Val)) → Decidable (a = b)
  | [], [] => isTrue rfl
  | [], _ :: _ => isFalse (by simp)
  | _ :: _, [] => isFalse (by simp)
  | (k, x) :: xs, (l, y) :: ys =>
    match Val.decEq k l, Val.decEq x y, Val.decEqEntries xs ys with
    | isTrue h, isTrue h1, isTrue h2 => isTrue (by rw [h, h1, h2])
    | isFalse h, _, _ => isFalse (by simp [h])
    | _, isFalse h, _ => isFalse (by simp [h])
    | _, _, isFalse h => isFalse (by simp [h])
end

instance : DecidableEq Val := Val.decEq

/-- A Go `error` value: `new` is a value made by `errors.New` (the number
tells apart values made by different calls), `errorf` and `wrap` are made by
`fmt.Errorf` without and with the verb `%w` (the message is formatted when the
error is made), `join1` and `join2` are made by `errors.Join` from one and from
two non-nil errors, and `num` is a `*strconv.NumError`. -/
inductive Err where
  | new (id : Nat) (text : GoString)
  | errorf (msg : GoString)
  | wrap (msg : GoString) (inner : Err)
  | join1 (e : Err)
  | join2 (a b : Err)
  | num (e : strconv.NumError)
  deriving DecidableEq

/-- The sentinel `ErrInvalidParseArgument = errors.New("")`. -/
def ErrInvalidParseArgument : Err := .new 0 []

namespace errors

/-- Go `errors.Join(a, b)`: nil values are discarded, and the result is nil
when nothing remains. -/
def Join : Option Err → Option Err → Option Err
  | none, none => none
  | some a, none => some (.join1 a)
  | none, some b => some (.join1 b)
  | some a, some b => some (.join2 a b)

end errors

/-- The message of the cause of a `*strconv.NumError`. -/
def strconv.NumErrKind.Error : strconv.NumErrKind → GoString
  | .ErrSyntax => str "invalid syntax"
  | .ErrRange => str "value out of range"
  | .ErrBase b => str "invalid base " ++ strconv.FormatUint b
  | .ErrBitSize b => str "invalid bit size " ++ strconv.FormatUint b

/-- Go `err.Error()`; `quote` is `strconv.Quote`. -/
def Err.Error (quote : GoString → GoString) : Err → GoString
  | .new _ text => text
  | .errorf msg => msg
  | .wrap msg _ => msg
  | .join1 e => e.Error quote
  | .join2 a b => a.Error quote ++ [10] ++ b.Error quote
  | .num e =>
    str "strconv." ++ str e.Func ++ str ": parsing " ++ quote e.Num ++ str ": " ++ e.Err.Error

/-- How a call ends other than by returning normally: with a non-nil
`error`, or in a run-time panic. -/
inductive Fault where
  | error (e : Err)
  | panic (msg : String)
  deriving DecidableEq

/-- Decidable equality of results. -/
instance {ε α : Type} [DecidableEq ε] [DecidableEq α] : DecidableEq (Except ε α)
  | .ok a, .ok b => decidable_of_iff (a = b) (by simp)
  | .error a, .error b => decidable_of_iff (a = b) (by simp)
  | .ok _, .error _ => isFalse (by simp)
  | .error _, .ok _ => isFalse (by simp)

/-- The library functions and the user-defined methods that the package
calls and that are not part of it: `strconv.Quote`, the formatting of a
`reflect.Value` by `%v`, `time.Duration.String`, `time.ParseDuration`,
`strconv.FormatFloat(f, 102, -1, bitSize)`, `strconv.ParseFloat`,
`strconv.FormatComplex(c, 102, -1, bitSize)`, `strconv.ParseComplex`, and for
every type the methods `MarshalText`, `MarshalBinary`, `UnmarshalText` and
`UnmarshalBinary` in its method set, if any. A method is a function of the
content of its receiver; an unmarshal method also returns the content of the
receiver after the call. The field `equal` is Go's `==` on the contents that
stand behind `Val.other` (structs, interfaces, channels), which is not
reflexive when a floating-point part is a NaN. -/
structure Host where
  equal : Nat → Nat → Bool
  quote : GoString → GoString
  formatValue : Val → GoString
  durationString : Int → GoString
  parseDuration : GoString → Int × Option Err
  formatFloat : Nat → Nat → GoString
  parseFloat : GoString → Nat → Nat × Option Err
  formatComplex : Nat → Nat → Nat → GoString
  parseComplex : GoString → Nat → (Nat × Nat) × Option Err
  marshalText : Typ → Option (Val → GoString × Option Err)
  marshalBinary : Typ → Option (Val → GoString × Option Err)
  unmarshalText : Typ → Option (GoString → Val → Val × Option Err)
  unmarshalBinary : Typ → Option (GoString → Val → Val × Option Err)

/-- A function in the registry: one given to `WithStringifier`, of type
`func(T) (string, error)`, or one given to `WithParser`, of type
`func(string) (T, error)`. -/
inductive Fn where
  | stringifier (fn : Val → GoString × Option Err)
  | parser (fn : GoString → Val × Option Err)

/-- Go `Options` (options.go): the two separators, the registry `funcs`
(a nil map and an empty map are both the function that finds nothing) and the
saved registration error. -/
structure Options where
  elemSep : Int
  keySep : Int
  funcs : Typ → Option Fn
  savedErr : Option Err

/-- Go `WithParser[T](fn)` (options.go). -/
def WithParser (T : Typ) (fn : GoString → Val × Option Err) : Options → Options :=
  fun o =>
    match T.Kind with
    | .Interface | .Chan | .Func | .Uintptr | .UnsafePointer | .Map =>
      { o with
        savedErr := errors.Join o.savedErr
          (some (.errorf (T.Kind.name ++ str " is not a valid parser return type"))) }
    | _ => { o with funcs := fun t => if t = T then some (.parser fn) else o.funcs t }

/-- Go `WithStringifier[T](fn)` (options.go). -/
def WithStringifier (T : Typ) (fn : Val → GoString × Option Err) : Options → Options :=
  fun o =>
    match T.Kind with
    | .Interface | .Chan | .Func | .Uintptr | .UnsafePointer | .Map =>
      { o with
        savedErr := errors.Join o.savedErr
          (some (.errorf (T.Kind.name ++ str " is not a valid stringifier argument type"))) }
    | _ => { o with funcs := fun t => if t = T then some (.stringifier fn) else o.funcs t }

/-- Go `WithElementSeparator(r)` (options.go). -/
def WithElementSeparator (r : Int) : Options → Options :=
  fun o => { o with elemSep := r }

/-- Go `WithKeySeparator(r)` (options.go). -/
def WithKeySeparator (r : Int) : Options → Options :=
  fun o => { o with keySep := r }

/-- Go `buildOptions(optFns)` (options.go). -/
def buildOptions (optFns : List (Options → Options)) : Options :=
  optFns.foldl (fun opts fn => fn opts)
    { elemSep := 59, keySep := 58, funcs := fun _ => none, savedErr := none }

/-- Go `interfaceFrom` (interface.go), for a value that can be interfaced:
the method is looked up in the method set of the value's type and, when it
is not found there and the value is addressable, in the method set of the
pointer type. The flag tells that the receiver is the address of the
value. -/
def interfaceFrom {α : Type} (methods : Typ → Option α) (typ : Typ) (canAddr : Bool) :
    Option (α × Bool) :=
  match methods typ with
  | some m => some (m, false)
  | none =>
    if canAddr then
      match methods (.ptr typ) with
      | some m => some (m, true)
      | none => none
    else none

/-- Go `textMarshaler` (interface.go). -/
def textMarshaler (h : Host) (typ : Typ) (canAddr : Bool) :=
  interfaceFrom h.marshalText typ canAddr

/-- Go `binaryMarshaler` (interface.go). -/
def binaryMarshaler (h : Host) (typ : Typ) (canAddr : Bool) :=
  interfaceFrom h.marshalBinary typ canAddr

/-- Go `textUnmarshaler` (interface.go). -/
def textUnmarshaler (h : Host) (typ : Typ) (canAddr : Bool) :=
  interfaceFrom h.unmarshalText typ canAddr

/-- Go `binaryUnmarshaler` (interface.go). -/
def binaryUnmarshaler (h : Host) (typ : Typ) (canAddr : Bool) :=
  interfaceFrom h.unmarshalBinary typ canAddr

/-- The predeclared type `string`. -/
def Typ.string : Typ := .leaf "" "string" .String

/-- The predeclared type `int64`. -/
def Typ.int64 : Typ := .leaf "" "int64" .Int64

/-- The predeclared type `int`. -/
def Typ.int : Typ := .leaf "" "int" .Int

/-- The predeclared type `bool`. -/
def Typ.bool : Typ := .leaf "" "bool" .Bool

/-- The predeclared type `uint8`, also named `byte`. -/
def Typ.uint8 : Typ := .leaf "" "uint8" .Uint8

/-- The error `fmt.Errorf("unsupported field type %s", kind.String())`. -/
def unsupported (k : Kind) : Err :=
  .errorf (str "unsupported field type " ++ k.name)

/-- The call of a marshal method and the use `stringify` makes of its
results. -/
def callMarshal (m : Val → GoString × Option Err) (viaAddr : Bool) (v : Val) :
    Except Fault GoString :=
  match m (if viaAddr then .ptr v else v) with
  | (_, some err) => .error (.error err)
  | (b, none) => .ok b

/-- The first part of `stringify` (stringify.go, lines 44-70): the registry,
then `MarshalText`, then `MarshalBinary`. The result is `none` when none of
them applies. A registered function is called through `reflect`, which panics
when the argument does not have the function's parameter type: a function
registered by `WithParser` takes a `string`. -/
def stringifyPre (h : Host) (opts : Options) (typ : Typ) (canAddr : Bool) (v : Val) :
    Option (Except Fault GoString) :=
  match opts.funcs typ with
  | some (.stringifier fn) =>
    match fn v with
    | (_, some err) => some (.error (.error err))
    | (out, none) => some (.ok out)
  | some (.parser fn) =>
    match decide (typ = Typ.string), v with
    | true, .string s =>
      match fn s with
      | (_, some err) => some (.error (.error err))
      | (.string out, none) => some (.ok out)
      | (_, none) => some (.error (.panic "reflect: ill-typed result"))
    | _, _ => some (.error (.panic "reflect: Call using value as type string"))
  | none =>
    match textMarshaler h typ canAddr with
    | some (m, viaAddr) => some (callMarshal m viaAddr v)
    | none =>
      match binaryMarshaler h typ canAddr with
      | some (m, viaAddr) => some (callMarshal m viaAddr v)
      | none => none

/-- The scalar cases and the default case of the `switch typ.Kind()` of
`stringify` (stringify.go, lines 79-106 and 145). -/
def stringifyLeaf (h : Host) (pkgPath name : String) (k : LeafKind) (v : Val) :
    Except Fault GoString :=
  match k, v with
  | .String, .string s => .ok s
  | .Int, .int i | .Int8, .int i | .Int16, .int i | .Int32, .int i | .Int64, .int i =>
    if k = .Int64 ∧ pkgPath = "time" ∧ name = "Duration" then .ok (h.durationString i)
    else .ok (strconv.FormatInt i)
  | .Uint, .uint u | .Uint8, .uint u | .Uint16, .uint u | .Uint32, .uint u
  | .Uint64, .uint u => .ok (strconv.FormatUint u)
  | .Float32, .float f => .ok (h.formatFloat f 32)
  | .Float64, .float f => .ok (h.formatFloat f 64)
  | .Complex64, .complex re im => .ok (h.formatComplex re im 64)
  | .Complex128, .complex re im => .ok (h.formatComplex re im 128)
  | .Bool, .bool b => .ok (strconv.FormatBool b)
  | .Uintptr, _ | .Chan, _ | .Func, _ | .Interface, _ | .Struct, _ | .UnsafePointer, _ =>
    .error (.error (unsupported k.toKind))
  | _, _ => .error (.panic "reflect: content does not match the kind")

/-- The loop over the elements of a slice or array in `stringify`
(stringify.go, lines 113-120); `i` is the index of the first element of the
list. -/
def stringifySeq (h : Host) (f : Val → Except Fault GoString) :
    List Val → Nat → Except Fault (List GoString)
  | [], _ => .ok []
  | x :: xs, i =>
    match f x with
    | .error (.error err) =>
      .error (.error (.wrap (str "error stringifying slice item of index "
        ++ strconv.FormatInt (Int.ofNat i) ++ str ": " ++ err.Error h.quote) err))
    | .error (.panic msg) => .error (.panic msg)
    | .ok s =>
      match stringifySeq h f xs (i + 1) with
      | .ok ss => .ok (s :: ss)
      | .error e => .error e

/-- The bit pattern is a NaN of IEEE 754 binary64: the eleven exponent
bits are set and the mantissa is not zero. -/
def isNaN (bits : Nat) : Bool :=
  decide (bits / 2 ^ 52 % 2 ^ 11 = 2047 ∧ bits % 2 ^ 52 ≠ 0)

/-- Go `==` on two floating-point numbers, given by their bit patterns: a
NaN is equal to nothing, not even to itself, and the two zeros are equal. -/
def floatEq (a b : Nat) : Bool :=
  !isNaN a && !isNaN b
    && (decide (a = b) || (decide (a % 2 ^ 63 = 0) && decide (b % 2 ^ 63 = 0)))

mutual
/-- Go `==` on the contents of two values of the same comparable type, as a
map compares its keys: strings, integers and booleans by value,
floating-point and complex numbers by `floatEq`, arrays element by element,
and pointers, which are kept as the content of their pointee, by that
content. A map is not comparable. -/
def keyEq (h : Host) : Val → Val → Bool
  | .string a, .string b => decide (a = b)
  | .int a, .int b => decide (a = b)
  | .uint a, .uint b => decide (a = b)
  | .float a, .float b => floatEq a b
  | .complex a c, .complex b d => floatEq a b && floatEq c d
  | .bool a, .bool b => decide (a = b)
  | .nil, .nil => true
  | .ptr a, .ptr b => decide (a = b)
  | .list a, .list b => keyEqList h a b
  | .other a, .other b => h.equal a b
  | _, _ => false
/-- Go `==` on the elements of two arrays. -/
def keyEqList (h : Host) : List Val → List Val → Bool
  | [], [] => true
  | x :: xs, y :: ys => keyEq h x y && keyEqList h xs ys
  | _, _ => false
end

/-- Go `v.MapIndex(k)` on the entries of a map: the value of the entry
whose key is equal to `k`; `none` is the zero Value that `MapIndex` returns
when the map has no such entry, which is the case for every key that is not
equal to itself. -/
def mapaccess (h : Host) : List (Val × Val) → Val → Option Val
  | [], _ => none
  | (k1, x1) :: rest, k => if keyEq h k1 k then some x1 else mapaccess h rest k

/-- The loop over the keys of a map in `stringify` (stringify.go, lines
125-138): `keys` is what remains of `v.MapKeys()` and `m` holds the entries
of the map, in which `v.MapIndex(k)` looks up the value of each key. The
recursive call of `stringify` on the zero Value panics in `v.Type()`. -/
def stringifyEntries (h : Host) (keySep : Int) (fk fv : Val → Except Fault GoString)
    (m : List (Val × Val)) : List Val → Except Fault (List GoString)
  | [] => .ok []
  | k :: keys =>
    match fk k with
    | .error (.error err) =>
      .error (.error (.wrap (str "error stringifying key " ++ h.formatValue k
        ++ str " of map: " ++ err.Error h.quote) err))
    | .error (.panic msg) => .error (.panic msg)
    | .ok sk =>
      match mapaccess h m k with
      | none => .error (.panic "reflect: call of reflect.Value.Type on zero Value")
      | some x =>
        match fv x with
        | .error (.error err) =>
          .error (.error (.wrap (str "error stringifying map value with key " ++ sk
            ++ str ": " ++ err.Error h.quote) err))
        | .error (.panic msg) => .error (.panic msg)
        | .ok sv =>
          match stringifyEntries h keySep fk fv m keys with
          | .ok ss => .ok ((sk ++ runeToString keySep ++ sv) :: ss)
          | .error e => .error e

/-- Go `string(v.Bytes())` for the elements of a byte slice or array. -/
def bytesToString (xs : List Val) : GoString :=
  xs.map (fun x => match x with
    | .uint b => b
    | _ => 0)

/-- Go `stringify` (stringify.go). The value is given by its type, by
whether it is addressable and by its content. With `full = true` this is the
whole function; with `full = false` it is the function from the
`switch typ.Kind()` on, which is where the function continues, with the
pointee, after it has dereferenced a pointer. -/
def stringifyAt (h : Host) (opts : Options) : Typ → Bool → Bool → Val → Except Fault GoString
  | .leaf pkgPath name k, full, canAddr, v =>
    match (if full then stringifyPre h opts (.leaf pkgPath name k) canAddr v else none) with
    | some r => r
    | none => stringifyLeaf h pkgPath name k v
  | .ptr e, full, canAddr, v =>
    match (if full then stringifyPre h opts (.ptr e) canAddr v else none) with
    | some r => r
    | none =>
      if full then
        match v with
        | .nil => .ok []
        | .ptr x => stringifyAt h opts e false true x
        | _ => .error (.panic "reflect: content does not match the kind")
      else .error (.error (unsupported .Pointer))
  | .slice e, full, canAddr, v =>
    match (if full then stringifyPre h opts (.slice e) canAddr v else none) with
    | some r => r
    | none =>
      match v with
      | .list xs =>
        if e.Kind = .Uint8 then .ok (bytesToString xs)
        else
          match stringifySeq h (fun x => stringifyAt h opts e true true x) xs 0 with
          | .ok ss => .ok (strings.Join ss (runeToString opts.elemSep))
          | .error err => .error err
      | _ => .error (.panic "reflect: content does not match the kind")
  | .array n e, full, canAddr, v =>
    match (if full then stringifyPre h opts (.array n e) canAddr v else none) with
    | some r => r
    | none =>
      match v with
      | .list xs =>
        if e.Kind = .Uint8 then
          if canAddr then .ok (bytesToString xs)
          else .error (.panic "reflect.Value.Bytes of unaddressable byte array")
        else
          match stringifySeq h (fun x => stringifyAt h opts e true canAddr x) xs 0 with
          | .ok ss => .ok (strings.Join ss (runeToString opts.elemSep))
          | .error err => .error err
      | _ => .error (.panic "reflect: content does not match the kind")
  | .map kt e, full, canAddr, v =>
    match (if full then stringifyPre h opts (.map kt e) canAddr v else none) with
    | some r => r
    | none =>
      match v with
      | .map entries =>
        match stringifyEntries h opts.keySep (fun x => stringifyAt h opts kt true false x)
            (fun x => stringifyAt h opts e true false x) entries (entries.map Prod.fst) with
        | .ok ss => .ok (strings.Join (sort.Strings ss) (runeToString opts.elemSep))
        | .error err => .error err
      | _ => .error (.panic "reflect: content does not match the kind")

/-- Go `stringify(v, opts)` (stringify.go). -/
def stringify (h : Host) (opts : Options) (typ : Typ) (canAddr : Bool) (v : Val) :
    Except Fault GoString :=
  stringifyAt h opts typ true canAddr v

/-- Go `Stringify(v, optFns...)` (stringify.go) for a value `v` of dynamic
type `typ`: `reflect.ValueOf(v)` is not addressable. The result is the
returned string when the returned error is nil (the string returned with a
non-nil error is always empty). -/
def Stringify (h : Host) (typ : Typ) (v : Val) (optFns : List (Options → Options)) :
    Except Fault GoString :=
  let opts := buildOptions optFns
  match opts.savedErr with
  | some err => .error (.error err)
  | none => stringify h opts typ false v

/-- The zero value of a type (`reflect.Zero`, and the content of the
storage made by `reflect.New` and `reflect.MakeSlice`). -/
def zero : Typ → Val
  | .leaf _ _ k =>
    match k with
    | .String => .string []
    | .Int | .Int8 | .Int16 | .Int32 | .Int64 => .int 0
    | .Uint | .Uint8 | .Uint16 | .Uint32 | .Uint64 | .Uintptr => .uint 0
    | .Float32 | .Float64 => .float 0
    | .Complex64 | .Complex128 => .complex 0 0
    | .Bool => .bool false
    | .Chan | .Func | .Interface | .Struct | .UnsafePointer => .other 0
  | .ptr _ => .nil
  | .slice _ => .list []
  | .array n e => .list (List.replicate n (zero e))
  | .map _ _ => .map []

/-- The conversion to a signed integer of the given width, as `SetInt`
applies it when it stores an `int64`. -/
def truncInt (bits : Nat) (x : Int) : Int :=
  (x + 2 ^ (bits - 1)) % 2 ^ bits - 2 ^ (bits - 1)

/-- The conversion to an unsigned integer of the given width, as `SetUint`
applies it when it stores a `uint64`. -/
def truncUint (bits : Nat) (x : Nat) : Nat :=
  x % 2 ^ bits

/-- Go `m.SetMapIndex(k, x)` on the entries of a map whose keys Go
compares by content (strings, integers, booleans): the value of an existing
key is replaced, a new key is added. For such keys this is `mapassign`. -/
def SetMapIndex : List (Val × Val) → Val → Val → List (Val × Val)
  | [], k, x => [(k, x)]
  | (k1, x1) :: rest, k, x =>
    if k1 = k then (k, x) :: rest else (k1, x1) :: SetMapIndex rest k x

/-- Go `m.SetMapIndex(k, x)` on the entries of a map, for every key type:
the entry whose key is equal to `k` under Go's `==` gets the key `k` and the
value `x`, and a new entry is added when there is none (which is always the
case for a key that is not equal to itself). -/
def mapassign (h : Host) : List (Val × Val) → Val → Val → List (Val × Val)
  | [], k, x => [(k, x)]
  | (k1, x1) :: rest, k, x =>
    if keyEq h k1 k then (k, x) :: rest else (k1, x1) :: mapassign h rest k x

/-- The call of an unmarshal method on the target and its effect on the
content of the target. -/
def callUnmarshal (m : GoString → Val → Val × Option Err) (viaAddr : Bool) (s : GoString)
    (v : Val) : Val × Option Fault :=
  if viaAddr then
    match m s (.ptr v) with
    | (.ptr v1, err) => (v1, err.map Fault.error)
    | (_, err) => (v, err.map Fault.error)
  else
    match m s v with
    | (v1, err) => (v1, err.map Fault.error)

/-- The first part of `parse` (parse.go, lines 53-68): the registry, then
`UnmarshalText`, then `UnmarshalBinary`. The result is `none` when none of
them applies. Every value that `parse` receives is addressable. A registered
function is called through `reflect` with a `string` argument, which panics
when the function's parameter type is not `string`. -/
def parsePre (h : Host) (opts : Options) (typ : Typ) (s : GoString) (v : Val) :
    Option (Val × Option Fault) :=
  match opts.funcs typ with
  | some (.parser fn) =>
    match fn s with
    | (_, some err) => some (v, some (.error err))
    | (out, none) => some (out, none)
  | some (.stringifier fn) =>
    if typ = Typ.string then
      match fn (.string s) with
      | (_, some err) => some (v, some (.error err))
      | (out, none) => some (.string out, none)
    else some (v, some (.panic "reflect: Call using string as another type"))
  | none =>
    match textUnmarshaler h typ true with
    | some (m, viaAddr) => some (callUnmarshal m viaAddr s v)
    | none =>
      match binaryUnmarshaler h typ true with
      | some (m, viaAddr) => some (callUnmarshal m viaAddr s v)
      | none => none

/-- The scalar cases of the `switch typ.Kind()` of `parse` (parse.go, lines
79-130); a kind without a case leaves the target as it is and returns nil. -/
def parseLeaf (h : Host) (pkgPath name : String) (k : LeafKind) (s : GoString) (v : Val) :
    Val × Option Fault :=
  match k with
  | .String => (.string s, none)
  | .Int | .Int8 | .Int16 | .Int32 | .Int64 =>
    if k = .Int64 ∧ pkgPath = "time" ∧ name = "Duration" then
      match h.parseDuration s with
      | (_, some err) => (v, some (.error err))
      | (d, none) => (.int (truncInt k.Bits d), none)
    else
      match strconv.ParseInt s 0 k.Bits with
      | (_, some err) => (v, some (.error (.num err)))
      | (i, none) => (.int (truncInt k.Bits i), none)
  | .Uint | .Uint8 | .Uint16 | .Uint32 | .Uint64 =>
    match strconv.ParseUint s 0 k.Bits with
    | (_, some err) => (v, some (.error (.num err)))
    | (u, none) => (.uint (truncUint k.Bits u), none)
  | .Float32 | .Float64 =>
    match h.parseFloat s k.Bits with
    | (_, some err) => (v, some (.error err))
    | (f, none) => (.float f, none)
  | .Complex64 =>
    match h.parseComplex s 64 with
    | (_, some err) => (v, some (.error err))
    | ((re, im), none) => (.complex re im, none)
  | .Complex128 =>
    match h.parseComplex s 128 with
    | (_, some err) => (v, some (.error err))
    | ((re, im), none) => (.complex re im, none)
  | .Bool =>
    match strconv.ParseBool s with
    | (_, some err) => (v, some (.error (.num err)))
    | (b, none) => (.bool b, none)
  | .Uintptr | .Chan | .Func | .Interface | .Struct | .UnsafePointer => (v, none)

/-- The loop over the pieces in the slice case of `parse` (parse.go, lines
138-142): every piece is parsed into the next element of the fresh slice,
whose elements hold the zero value `z`. -/
def parseElems (f : GoString → Val → Val × Option Fault) (z : Val) :
    List GoString → Except Fault (List Val)
  | [] => .ok []
  | piece :: rest =>
    match f piece z with
    | (_, some err) => .error err
    | (x, none) =>
      match parseElems f z rest with
      | .ok xs => .ok (x :: xs)
      | .error err => .error err

/-- The loop of the array case of `parse` (parse.go, lines 151-158) over
the pieces and the elements that remain: the elements are written in place. -/
def parseArray (f : GoString → Val → Val × Option Fault) :
    List GoString → List Val → List Val × Option Fault
  | [], xs => (xs, none)
  | _ :: _, [] => ([], none)
  | piece :: rest, x :: xs =>
    match f piece x with
    | (x1, some err) => (x1 :: xs, some err)
    | (x1, none) =>
      match parseArray f rest xs with
      | (xs1, r) => (x1 :: xs1, r)

/-- The loop over the pairs in the map case of `parse` (parse.go, lines
164-178); `m` holds the entries of the fresh map. -/
def parseEntries (h : Host) (keySep : Int) (fk fv : GoString → Val × Option Fault) :
    List GoString → List (Val × Val) → Except Fault (List (Val × Val))
  | [], m => .ok m
  | pair :: rest, m =>
    match strings.Split pair (runeToString keySep) with
    | [ks, vs] =>
      match fk ks with
      | (_, some err) => .error err
      | (k, none) =>
        match fv vs with
        | (_, some err) => .error err
        | (x, none) => parseEntries h keySep fk fv rest (mapassign h m k x)
    | _ => .error (.error (.errorf (str "invalid map item: " ++ h.quote pair)))

/-- The content of the pointee of a pointer target in `parse` (parse.go,
lines 71-75): a nil pointer is first set to point to fresh storage that holds
the zero value. -/
def pointee (e : Typ) (v : Val) : Val :=
  match v with
  | .ptr x => x
  | _ => zero e

/-- Go `parse` (parse.go). The target is given by its type and by its
content `v` before the call; the result is the content of the target after
the call and the returned error. With `full = true` this is the whole
function; with `full = false` it is the function from the `switch typ.Kind()`
on, which is where the function continues, with the pointee, after it has
dereferenced a pointer. -/
def parseAt (h : Host) (opts : Options) : Typ → Bool → GoString → Val → Val × Option Fault
  | .leaf pkgPath name k, full, s, v =>
    match (if full then parsePre h opts (.leaf pkgPath name k) s v else none) with
    | some r => r
    | none => parseLeaf h pkgPath name k s v
  | .ptr e, full, s, v =>
    match (if full then parsePre h opts (.ptr e) s v else none) with
    | some r => r
    | none =>
      if full then
        match parseAt h opts e false s (pointee e v) with
        | (x1, r) => (.ptr x1, r)
      else (v, none)
  | .slice e, full, s, v =>
    match (if full then parsePre h opts (.slice e) s v else none) with
    | some r => r
    | none =>
      if e.Kind = .Uint8 then
        if e = Typ.uint8 then (.list (s.map Val.uint), none)
        else (v, some (.panic "reflect.Set: value of type []uint8 is not assignable"))
      else
        match parseElems (fun piece x => parseAt h opts e true piece x) (zero e)
            (strings.Split s (runeToString opts.elemSep)) with
        | .ok xs => (.list xs, none)
        | .error err => (v, some err)
  | .array n e, full, s, v =>
    match (if full then parsePre h opts (.array n e) s v else none) with
    | some r => r
    | none =>
      let elems := strings.Split s (runeToString opts.elemSep)
      if elems.length > n then
        (v, some (.error (.errorf (str "number of elements ("
          ++ strconv.FormatInt (Int.ofNat elems.length) ++ str ") exceeds array capacity ("
          ++ strconv.FormatInt (Int.ofNat n) ++ str ")"))))
      else
        match v with
        | .list xs =>
          match parseArray (fun piece x => parseAt h opts e true piece x) elems xs with
          | (xs1, r) => (.list xs1, r)
        | _ => (v, some (.panic "reflect: content does not match the kind"))
  | .map kt e, full, s, v =>
    match (if full then parsePre h opts (.map kt e) s v else none) with
    | some r => r
    | none =>
      if (strings.TrimSpace s).length ≠ 0 then
        match parseEntries h opts.keySep (fun piece => parseAt h opts kt true piece (zero kt))
            (fun piece => parseAt h opts e true piece (zero e))
            (strings.Split s (runeToString opts.elemSep)) [] with
        | .ok m => (.map m, none)
        | .error err => (v, some err)
      else (.map [], none)

/-- Go `parse(s, v, opts)` (parse.go). -/
def parse (h : Host) (opts : Options) (typ : Typ) (s : GoString) (v : Val) :
    Val × Option Fault :=
  parseAt h opts typ true s v

/-- Go `reflect.Value`: the zero Value, or a value of a type with its
content and with the flag that tells whether it is addressable. -/
inductive Value where
  | zero
  | of (typ : Typ) (val : Val) (canAddr : Bool)
  deriving DecidableEq

/-- Go `v.CanAddr()`. -/
def Value.CanAddr : Value → Bool
  | .zero => false
  | .of _ _ canAddr => canAddr

/-- Go `Parse(s, v, optFns...)` (parse.go): the target after the call and
the returned error. -/
def Parse (h : Host) (s : GoString) (v : Value) (optFns : List (Options → Options)) :
    Value × Option Fault :=
  let opts := buildOptions optFns
  match opts.savedErr with
  | some err => (v, some (.error err))
  | none =>
    if v.CanAddr = false then (v, some (.error ErrInvalidParseArgument))
    else
      match v with
      | .zero => (v, some (.error ErrInvalidParseArgument))
      | .of typ x canAddr =>
        match parse h opts typ s x with
        | (x1, r) => (.of typ x1 canAddr, r)

/-- A host without marshal or unmarshal methods, whose library functions
are placeholders: for the evaluation of values that use none of them. -/
def Host.bare : Host where
  equal := fun a b => decide (a = b)
  quote := fun s => [34] ++ s ++ [34]
  formatValue := fun _ => []
  durationString := fun _ => []
  parseDuration := fun _ => (0, some (.errorf (str "time: invalid duration")))
  formatFloat := fun _ _ => []
  parseFloat := fun _ _ => (0, some (.errorf (str "strconv.ParseFloat")))
  formatComplex := fun _ _ _ => []
  parseComplex := fun _ _ => ((0, 0), some (.errorf (str "strconv.ParseComplex")))
  marshalText := fun _ => none
  marshalBinary := fun _ => none
  unmarshalText := fun _ => none
  unmarshalBinary := fun _ => none

/-- The base-10 numeral of a natural number, as the specification words it:
its decimal digits, most significant first, without leading zeros (`0` for
zero). -/
def decimal (u : Nat) : GoString :=
  if u = 0 then [48] else (Nat.digits 10 u).reverse.map (fun d => 48 + d)

/-- The base-10 numeral of an integer: a minus sign in front of the
numeral of the absolute value when the integer is negative. -/
def numeral (n : Int) : GoString :=
  if n < 0 then 45 :: decimal n.natAbs else decimal n.natAbs

/-- The kinds of the signed integer types. -/
def isSignedKind : LeafKind → Bool
  | .Int | .Int8 | .Int16 | .Int32 | .Int64 => true
  | _ => false

/-- The kinds of the unsigned integer types that `parse` and `stringify`
handle (`uintptr` is not among them). -/
def isUnsignedKind : LeafKind → Bool
  | .Uint | .Uint8 | .Uint16 | .Uint32 | .Uint64 => true
  | _ => false

/-- The test `v.Kind() == reflect.Int64 && typ.PkgPath() == "time" &&
typ.Name() == "Duration"` of `parse` and `stringify`. -/
def isDuration (pkgPath name : String) (k : LeafKind) : Bool :=
  decide (k = .Int64 ∧ pkgPath = "time" ∧ name = "Duration")

/-- The type has no marshal or unmarshal method, neither in its own method
set nor in the method set of the pointer to it. -/
def Host.noMethods (h : Host) (T : Typ) : Bool :=
  (h.marshalText T).isNone && (h.marshalBinary T).isNone
    && (h.unmarshalText T).isNone && (h.unmarshalBinary T).isNone
    && (h.marshalText (.ptr T)).isNone && (h.marshalBinary (.ptr T)).isNone
    && (h.unmarshalText (.ptr T)).isNone && (h.unmarshalBinary (.ptr T)).isNone

/-- The content of an integer `n` in a value of an integer kind. -/
def intVal (k : LeafKind) (n : Int) : Val :=
  if isSignedKind k then .int n else .uint n.toNat

/-- The kinds of the built-in scalar types: strings, integers, floats,
complex numbers and booleans. -/
def isScalarKind : LeafKind → Bool
  | .String | .Bool | .Int | .Int8 | .Int16 | .Int32 | .Int64
  | .Uint | .Uint8 | .Uint16 | .Uint32 | .Uint64
  | .Float32 | .Float64 | .Complex64 | .Complex128 => true
  | _ => false

/-- The content `v` is the content of a value of the scalar kind `k`. -/
def hasKind : LeafKind → Val → Bool
  | .String, .string _ => true
  | .Bool, .bool _ => true
  | .Int, .int _ | .Int8, .int _ | .Int16, .int _ | .Int32, .int _ | .Int64, .int _ => true
  | .Uint, .uint _ | .Uint8, .uint _ | .Uint16, .uint _ | .Uint32, .uint _
  | .Uint64, .uint _ => true
  | .Float32, .float _ | .Float64, .float _ => true
  | .Complex64, .complex _ _ | .Complex128, .complex _ _ => true
  | _, _ => false

/-- The type is handled by the built-in cases: the registry holds no
function for it and it has no marshal or unmarshal method. -/
def builtin (h : Host) (opts : Options) (T : Typ) : Bool :=
  (opts.funcs T).isNone && h.noMethods T

/-- The returned string of a call of `Stringify` (empty when it fails). -/
def resultString (r : Except Fault GoString) : GoString :=
  match r with
  | .ok s => s
  | .error _ => []

/-- The string `key + keySeparator + value` of a map entry, from the
stringified key and the stringified value. -/
def pairString (h : Host) (optFns : List (Options → Options)) (kt et : Typ) (e : Val × Val) :
    GoString :=
  resultString (Stringify h kt e.1 optFns) ++ runeToString (buildOptions optFns).keySep
    ++ resultString (Stringify h et e.2 optFns)

/-- A separator whose first byte does not occur again in it, so that no
proper suffix of it is one of its proper beginnings. -/
def headFree : GoString → Bool
  | [] => false
  | c :: t => decide (c ∉ t)

/-- A configuration function, as the four constructors of the package make
them (options.go). -/
inductive Config where
  | parser (T : Typ) (fn : GoString → Val × Option Err)
  | stringifier (T : Typ) (fn : Val → GoString × Option Err)
  | elementSeparator (r : Int)
  | keySeparator (r : Int)

/-- The function `func(*Options)` that a constructor returns. -/
def Config.fn : Config → Options → Options
  | .parser T fn => WithParser T fn
  | .stringifier T fn => WithStringifier T fn
  | .elementSeparator r => WithElementSeparator r
  | .keySeparator r => WithKeySeparator r

/-- The kinds that `WithParser` and `WithStringifier` reject. -/
def rejectedKind : Kind → Bool
  | .Interface | .Chan | .Func | .Uintptr | .UnsafePointer | .Map => true
  | _ => false

/-- The configuration registers a function for a type of a rejected kind. -/
def Config.rejected : Config → Bool
  | .parser T _ => rejectedKind T.Kind
  | .stringifier T _ => rejectedKind T.Kind
  | _ => false

/-- The message of the registration error of a rejected configuration. -/
def Config.message : Config → GoString
  | .parser T _ => T.Kind.name ++ str " is not a valid parser return type"
  | .stringifier T _ => T.Kind.name ++ str " is not a valid stringifier argument type"
  | _ => []

/-- What `stringify` returns from the results of a registered function. -/
def fnResult (r : GoString × Option Err) : Except Fault GoString :=
  match r.2 with
  | some err => .error (.error err)
  | none => .ok r.1

/-- The error that `Parse` returns for a target that is not addressable:
the saved registration error when there is one, the sentinel otherwise. -/
def invalidTargetError (opts : Options) : Err :=
  match opts.savedErr with
  | some err => err
  | none => ErrInvalidParseArgument

/-- The content of a map entry from an integer key to an integer value. -/
def intEntry (e : Int × Int) : Val × Val :=
  (.int e.1, .int e.2)

/-- The type is a pointer type or an array type. -/
def isPtrOrArray : Typ → Bool
  | .ptr _ => true
  | .array _ _ => true
  | _ => false

/-- The leaf kinds for which `stringify` and `parse` have no case: struct,
interface, chan, func, uintptr and unsafe pointer. -/
def isUnsupportedKind : LeafKind → Bool
  | .Struct | .Interface | .Chan | .Func | .Uintptr | .UnsafePointer => true
  | _ => false

/-- The piece does not split on the key separator into exactly two parts
(the test `len(kvpair) != 2` of `parse`). -/
def badPiece (keySep : GoString) (piece : GoString) : Bool :=
  decide ((strings.Split piece keySep).length ≠ 2)

/-- The key and the value of a piece that splits on the key separator into
exactly two parts. -/
def pairOf (keySep : GoString) (piece : GoString) : GoString × GoString :=
  match strings.Split piece keySep with
  | [k, v] => (k, v)
  | _ => ([], [])

/-- The entries of the map that the loop of `parse` builds from well-formed
pieces of strings, starting from the entries `m`. -/
def insertPieces (keySep : GoString) (pieces : List GoString) (m : List (Val × Val)) :
    List (Val × Val) :=
  pieces.foldl (fun m piece =>
    SetMapIndex m (.string (pairOf keySep piece).1) (.string (pairOf keySep piece).2)) m

/-- Go `m.MapIndex(k)` on the entries of a map: the value of the key, if
the map has it. -/
def MapIndex : List (Val × Val) → Val → Option Val
  | [], _ => none
  | (k1, x1) :: rest, k => if k1 = k then some x1 else MapIndex rest k

/-- The value of the last pair that carries the key `k`, as the
specification words it. -/
def lastValue : List (GoString × GoString) → GoString → Option GoString
  | [], _ => none
  | p :: rest, k =>
    match lastValue rest k with
    | some v => some v
    | none => if p.1 = k then some p.2 else none

/-- What `Parse` does with the input `s` and a map target from strings to
strings that holds `old`, by the shape of `s`: the empty map for a blank
input, the error that names the first malformed piece, or the map built from
the pieces. -/
def parseStringMap (quote : GoString → GoString) (elemSep keySep : GoString) (s : GoString)
    (old : Val) : Val × Option Fault :=
  if (strings.TrimSpace s).length = 0 then (.map [], none)
  else
    match (strings.Split s elemSep).find? (badPiece keySep) with
    | some piece => (old, some (.error (.errorf (str "invalid map item: " ++ quote piece))))
    | none => (.map (insertPieces keySep (strings.Split s elemSep) []), none)

/-- Worker of `strings.Count`: `skip` counts the bytes of a matched
separator that are still to be passed over. -/
def strings.countAux (sep : GoString) : GoString → Nat → Nat
  | [], _ => 0
  | _ :: cs, skip + 1 => strings.countAux sep cs skip
  | c :: cs, 0 =>
    if sep.isPrefixOf (c :: cs) then 1 + strings.countAux sep cs (sep.length - 1)
    else strings.countAux sep cs 0

/-- Go `strings.Count(s, sep)` for a non-empty separator: the number of
non-overlapping occurrences of `sep` in `s`. -/
def strings.Count (s sep : GoString) : Nat :=
  strings.countAux sep s 0

/-- The error of the capacity check in the array case of `parse`
(parse.go, line 149), with the two numbers as base-10 numerals. -/
def capacityError (k n : Nat) : Fault :=
  .error (.errorf (str "number of elements (" ++ numeral (Int.ofNat k)
    ++ str ") exceeds array capacity (" ++ numeral (Int.ofNat n) ++ str ")"))

/-- The keys of the entries are pairwise different under Go's `==`, as the
keys of a map are. -/
def distinctKeys (h : Host) : List (Val × Val) → Bool
  | [] => true
  | (k, _) :: rest =>
    rest.all (fun e => !keyEq h k e.1 && !keyEq h e.1 k) && distinctKeys h rest

/-! Theorems. -/
namespace strconv

theorem scanDigits_digit (b0 : Bool) (base cutoff maxVal c : Nat) (cs : GoString) (n : Nat)
    (us : Bool) (hc : 48 ≤ c ∧ c ≤ 57) (hd : c - 48 < base) (hn : n < cutoff)
    (h1 : n * base + (c - 48) ≤ maxVal) (hmax : maxVal < 2 ^ 64) :
    scanDigits b0 base cutoff maxVal (c :: cs) n us
      = scanDigits b0 base cutoff maxVal cs (n * base + (c - 48)) us := by
  have h95 : ¬ (c = 95 ∧ b0 = true) := by omega
  have hb : ¬ (c - 48 ≥ base) := by omega
  have hcut : ¬ (n ≥ cutoff) := by omega
  have e1 : n * base % 2 ^ 64 = n * base := Nat.mod_eq_of_lt (by omega)
  have e2 : (n * base + (c - 48)) % 2 ^ 64 = n * base + (c - 48) := Nat.mod_eq_of_lt (by omega)
  have h3 : ¬ (n * base + (c - 48) < n * base ∨ n * base + (c - 48) > maxVal) := by omega
  simp only [scanDigits, h95, hc, hb, hcut, e1, e2, h3, if_false, if_true, and_self]

theorem scanDigits_formatBits (b0 : Bool) (maxVal : Nat) (hmax : maxVal < 2 ^ 64) (us : Bool) :
    ∀ (fuel u : Nat) (acc : GoString), u < fuel → u ≤ maxVal →
      scanDigits b0 10 ((2 ^ 64 - 1) / 10 + 1) maxVal (formatBits fuel u acc) 0 us
        = scanDigits b0 10 ((2 ^ 64 - 1) / 10 + 1) maxVal acc u us := by
  intro fuel
  induction fuel with
  | zero => intro u acc h; omega
  | succ fuel ih =>
    intro u acc hf hu
    have hm : maxVal < 18446744073709551616 := by norm_num at hmax; exact hmax
    by_cases h10 : u < 10
    · simp only [formatBits, h10, if_true]
      rw [scanDigits_digit _ _ _ _ _ _ _ _ (by omega) (by omega) (by norm_num) (by omega) hmax]
      congr 1
      omega
    · simp only [formatBits, h10, if_false]
      rw [ih (u / 10) _ (by omega) (by omega)]
      rw [scanDigits_digit _ _ _ _ _ _ _ _ (by omega) (by omega) (by norm_num; omega) (by omega) hmax]
      congr 1
      omega

theorem formatBits_head (fuel u : Nat) (acc : GoString) (h0 : 0 < u) (hf : u < fuel) :
    ∃ d rest, formatBits fuel u acc = (48 + d) :: rest ∧ 1 ≤ d ∧ d ≤ 9 := by
  induction fuel generalizing u acc with
  | zero => omega
  | succ fuel ih =>
    by_cases h10 : u < 10
    · exact ⟨u, acc, by simp [formatBits, h10], by omega, by omega⟩
    · simp only [formatBits, h10, if_false]
      exact ih (u / 10) _ (by omega) (by omega)

theorem formatBits_mem (fuel u : Nat) (acc : GoString) (c : Nat)
    (hc : c ∈ formatBits fuel u acc) : (48 ≤ c ∧ c ≤ 57) ∨ c ∈ acc := by
  induction fuel generalizing u acc with
  | zero => exact Or.inr (by simpa [formatBits] using hc)
  | succ fuel ih =>
    by_cases h10 : u < 10
    · simp only [formatBits, h10, if_true, List.mem_cons] at hc
      rcases hc with rfl | hc
      · left; omega
      · exact Or.inr hc
    · simp only [formatBits, h10, if_false] at hc
      rcases ih _ _ hc with h | h
      · exact Or.inl h
      · simp only [List.mem_cons] at h
        rcases h with rfl | h
        · left; omega
        · exact Or.inr h

theorem formatBits_ne_nil (fuel u : Nat) (acc : GoString) (hf : u < fuel) :
    formatBits fuel u acc ≠ [] := by
  induction fuel generalizing u acc with
  | zero => omega
  | succ fuel ih =>
    by_cases h10 : u < 10
    · simp [formatBits, h10]
    · simp only [formatBits, h10, if_false]
      exact ih _ _ (by omega)

/-- Parsing the decimal numeral of `u` gives `u` when `u` fits the bit size. -/
theorem ParseUint_FormatUint (u bitSize : Nat) (hb : 0 < bitSize ∧ bitSize ≤ 64)
    (hu : u < 2 ^ bitSize) : ParseUint (FormatUint u) 0 bitSize = (u, none) := by
  have hpow : 2 ^ bitSize ≤ 2 ^ 64 := Nat.pow_le_pow_right (by norm_num) hb.2
  have hpos : 0 < 2 ^ bitSize := Nat.two_pow_pos bitSize
  have hne : FormatUint u ≠ [] := formatBits_ne_nil _ _ _ (by omega)
  have hbs : ¬ bitSize > 64 := by omega
  have hb0 : ¬ bitSize = 0 := by omega
  rcases Nat.eq_zero_or_pos u with h0 | h0
  · subst h0
    have : FormatUint 0 = [48] := by decide
    rw [this]
    simp [ParseUint, detectBase, hbs, hb0, scanDigits]
  · obtain ⟨d, rest, hd, hd1, hd9⟩ := formatBits_head (u + 1) u [] h0 (by omega)
    have hdet : detectBase (FormatUint u) 0 = some (10, FormatUint u) := by
      unfold FormatUint
      rw [hd]
      have h48 : 48 + d ≠ 48 := by omega
      unfold detectBase
      simp only [show ¬ (2 ≤ 0 ∧ 0 ≤ 36) by omega, if_false, if_true]
      split
      · rename_i heq
        simp only [List.cons.injEq] at heq
        omega
      · rename_i heq
        simp only [List.cons.injEq] at heq
        omega
      · rfl
    have hscan := scanDigits_formatBits true (2 ^ bitSize - 1) (by omega) false (u + 1) u []
      (by omega) (by omega)
    unfold ParseUint
    simp only [hne, if_false, hdet, hbs, hb0]
    unfold FormatUint
    simp only [decide_True] at hscan ⊢
    rw [hscan]
    simp [scanDigits]

theorem FormatUint_head (u : Nat) :
    ∃ c cs, FormatUint u = c :: cs ∧ 48 ≤ c ∧ c ≤ 57 := by
  have hne : FormatUint u ≠ [] := formatBits_ne_nil _ _ _ (by omega)
  cases hs : FormatUint u with
  | nil => exact absurd hs hne
  | cons c cs =>
    have hm : c ∈ formatBits (u + 1) u [] := by
      have : c ∈ FormatUint u := by rw [hs]; exact List.mem_cons_self _ _
      exact this
    rcases formatBits_mem _ _ _ _ hm with h | h
    · exact ⟨c, cs, rfl, h⟩
    · simp at h

/-- Parsing the decimal numeral of `n` gives `n` when `n` fits the bit size. -/
theorem ParseInt_FormatInt (n : Int) (bitSize : Nat) (hb : 0 < bitSize ∧ bitSize ≤ 64)
    (hlo : -(2 : Int) ^ (bitSize - 1) ≤ n) (hhi : n < (2 : Int) ^ (bitSize - 1)) :
    ParseInt (FormatInt n) 0 bitSize = (n, none) := by
  have hP : 2 ^ (bitSize - 1) ≤ 2 ^ 63 := Nat.pow_le_pow_right (by norm_num) (by omega)
  have h2 : 2 ^ bitSize = 2 * 2 ^ (bitSize - 1) := by
    rw [← Nat.pow_succ']
    congr 1
    omega
  have hcast : ((2 : Int) ^ (bitSize - 1)) = ((2 ^ (bitSize - 1) : Nat) : Int) := by
    push_cast
    rfl
  rw [hcast] at hlo hhi
  have hb0 : ¬ bitSize = 0 := by omega
  generalize hPdef : 2 ^ (bitSize - 1) = P at hP h2 hlo hhi
  norm_num at hP
  by_cases hneg : n < 0
  · obtain ⟨m, rfl⟩ : ∃ m : Nat, n = -(m : Int) := ⟨n.natAbs, by omega⟩
    have hfmt : FormatInt (-(m : Int)) = 45 :: FormatUint m := by
      simp only [FormatInt, hneg, if_true, Int.natAbs_neg, Int.natAbs_ofNat, FormatUint]
    have hpu := ParseUint_FormatUint m bitSize hb (by omega)
    rw [hfmt]
    have hc : ¬ (m > P) := by omega
    simp [ParseInt, hb0, hPdef]
    simp [hpu, hc, toInt64]
    omega
  · obtain ⟨m, rfl⟩ : ∃ m : Nat, n = (m : Int) := ⟨n.natAbs, by omega⟩
    have hfmt : FormatInt (m : Int) = FormatUint m := by
      simp only [FormatInt, hneg, if_false, Int.natAbs_ofNat, FormatUint]
    obtain ⟨c, cs, hcs, hc1, hc2⟩ := FormatUint_head m
    have hpu := ParseUint_FormatUint m bitSize hb (by omega)
    rw [hfmt, hcs]
    rw [hcs] at hpu
    have h43 : ¬ (c = 43 ∨ c = 45) := by omega
    have h45 : ¬ (c = 45) := by omega
    have hc : ¬ (m ≥ P) := by omega
    have h43b : ¬ (c = 43) := by omega
    simp [ParseInt, h43b, h45, hb0, hPdef]
    simp [hpu, hc, toInt64]
    omega

end strconv

theorem formatBits_decimal (fuel u : Nat) (acc : GoString) (hf : u < fuel) :
    strconv.formatBits fuel u acc = decimal u ++ acc := by
  induction fuel generalizing u acc with
  | zero => omega
  | succ fuel ih =>
    by_cases h10 : u < 10
    · simp only [strconv.formatBits, h10, if_true, decimal]
      by_cases h0 : u = 0
      · simp [h0]
      · simp [h0, Nat.digits_of_lt 10 u h0 h10]
    · simp only [strconv.formatBits, h10, if_false]
      rw [ih _ _ (by omega)]
      have h0 : u ≠ 0 := by omega
      have h1 : u / 10 ≠ 0 := by omega
      have hd : Nat.digits 10 u = (u % 10) :: Nat.digits 10 (u / 10) :=
        Nat.digits_def' (by norm_num) (by omega)
      simp [decimal, h0, h1, hd]

theorem FormatUint_eq_decimal (u : Nat) : strconv.FormatUint u = decimal u := by
  simp [strconv.FormatUint, formatBits_decimal _ _ _ (Nat.lt_succ_self u)]

theorem FormatInt_eq_numeral (n : Int) : strconv.FormatInt n = numeral n := by
  simp only [strconv.FormatInt, numeral, formatBits_decimal _ _ _ (Nat.lt_succ_self _),
    List.append_nil]

theorem numeral_ofNat (u : Nat) : numeral (Int.ofNat u) = strconv.FormatUint u := by
  rw [FormatUint_eq_decimal]
  simp [numeral]

theorem stringifyPre_none (h : Host) (opts : Options) (typ : Typ) (canAddr : Bool) (v : Val)
    (hf : opts.funcs typ = none) (ht : h.marshalText typ = none)
    (hb : h.marshalBinary typ = none)
    (hp : canAddr = false ∨ (h.marshalText (.ptr typ) = none ∧ h.marshalBinary (.ptr typ) = none)) :
    stringifyPre h opts typ canAddr v = none := by
  rcases hp with hp | ⟨hp1, hp2⟩
  · simp [stringifyPre, hf, textMarshaler, binaryMarshaler, interfaceFrom, ht, hb, hp]
  · simp [stringifyPre, hf, textMarshaler, binaryMarshaler, interfaceFrom, ht, hb, hp1, hp2]

theorem parsePre_none (h : Host) (opts : Options) (typ : Typ) (s : GoString) (v : Val)
    (hf : opts.funcs typ = none) (ht : h.unmarshalText typ = none)
    (hb : h.unmarshalBinary typ = none) (hpt : h.unmarshalText (.ptr typ) = none)
    (hpb : h.unmarshalBinary (.ptr typ) = none) :
    parsePre h opts typ s v = none := by
  simp [parsePre, hf, textUnmarshaler, binaryUnmarshaler, interfaceFrom, ht, hb, hpt, hpb]

theorem noMethods_iff (h : Host) (T : Typ) : h.noMethods T = true ↔
    (h.marshalText T = none ∧ h.marshalBinary T = none ∧ h.unmarshalText T = none
      ∧ h.unmarshalBinary T = none ∧ h.marshalText (.ptr T) = none
      ∧ h.marshalBinary (.ptr T) = none ∧ h.unmarshalText (.ptr T) = none
      ∧ h.unmarshalBinary (.ptr T) = none) := by
  simp [Host.noMethods, Option.isNone_iff_eq_none, and_assoc]

/-- The built-in path of `stringify` for a leaf type without registered
function and without methods. -/
theorem stringifyAt_leaf (h : Host) (opts : Options) (pkgPath name : String) (k : LeafKind)
    (full canAddr : Bool) (v : Val) (hf : opts.funcs (.leaf pkgPath name k) = none)
    (hm : h.noMethods (.leaf pkgPath name k) = true) :
    stringifyAt h opts (.leaf pkgPath name k) full canAddr v = stringifyLeaf h pkgPath name k v := by
  rw [noMethods_iff] at hm
  obtain ⟨h1, h2, -, -, h5, h6, -, -⟩ := hm
  have := stringifyPre_none h opts (.leaf pkgPath name k) canAddr v hf h1 h2 (Or.inr ⟨h5, h6⟩)
  cases full <;> simp [stringifyAt, this]

/-- The built-in path of `parse` for a leaf type without registered function
and without methods. -/
theorem parseAt_leaf (h : Host) (opts : Options) (pkgPath name : String) (k : LeafKind)
    (full : Bool) (s : GoString) (v : Val) (hf : opts.funcs (.leaf pkgPath name k) = none)
    (hm : h.noMethods (.leaf pkgPath name k) = true) :
    parseAt h opts (.leaf pkgPath name k) full s v = parseLeaf h pkgPath name k s v := by
  rw [noMethods_iff] at hm
  obtain ⟨-, -, h3, h4, -, -, h7, h8⟩ := hm
  have := parsePre_none h opts (.leaf pkgPath name k) s v hf h3 h4 h7 h8
  cases full <;> simp [parseAt, this]

theorem stringifyLeaf_int (h : Host) (pkgPath name : String) (k : LeafKind) (n : Int)
    (hk : isSignedKind k = true) (hd : isDuration pkgPath name k = false) :
    stringifyLeaf h pkgPath name k (.int n) = .ok (strconv.FormatInt n) := by
  simp only [isDuration, decide_eq_false_iff_not] at hd
  cases k <;> simp_all [stringifyLeaf, isSignedKind]

theorem stringifyLeaf_uint (h : Host) (pkgPath name : String) (k : LeafKind) (u : Nat)
    (hk : isUnsignedKind k = true) :
    stringifyLeaf h pkgPath name k (.uint u) = .ok (strconv.FormatUint u) := by
  cases k <;> simp_all [stringifyLeaf, isUnsignedKind]

theorem parseLeaf_int (h : Host) (pkgPath name : String) (k : LeafKind) (n : Int) (old : Val)
    (hk : isSignedKind k = true) (hd : isDuration pkgPath name k = false)
    (hlo : -(2 : Int) ^ (k.Bits - 1) ≤ n) (hhi : n < (2 : Int) ^ (k.Bits - 1)) :
    parseLeaf h pkgPath name k (strconv.FormatInt n) old = (.int n, none) := by
  simp only [isDuration, decide_eq_false_iff_not] at hd
  have hb : 0 < k.Bits ∧ k.Bits ≤ 64 := by cases k <;> simp_all [LeafKind.Bits, isSignedKind]
  have hp := strconv.ParseInt_FormatInt n k.Bits hb hlo hhi
  have ht : truncInt k.Bits n = n := by
    cases k <;> simp_all [LeafKind.Bits, isSignedKind, truncInt] <;> omega
  cases k <;> simp_all [parseLeaf, isSignedKind]

theorem parseLeaf_uint (h : Host) (pkgPath name : String) (k : LeafKind) (u : Nat) (old : Val)
    (hk : isUnsignedKind k = true) (hu : u < 2 ^ k.Bits) :
    parseLeaf h pkgPath name k (strconv.FormatUint u) old = (.uint u, none) := by
  have hb : 0 < k.Bits ∧ k.Bits ≤ 64 := by cases k <;> simp_all [LeafKind.Bits, isUnsignedKind]
  have hp := strconv.ParseUint_FormatUint u k.Bits hb hu
  have ht : truncUint k.Bits u = u := Nat.mod_eq_of_lt hu
  cases k <;> simp_all [parseLeaf, isUnsignedKind]


theorem Stringify_nil (h : Host) (typ : Typ) (v : Val) :
    Stringify h typ v [] = stringifyAt h (buildOptions []) typ true false v := rfl

theorem Parse_nil (h : Host) (s : GoString) (typ : Typ) (x : Val) :
    Parse h s (.of typ x true) []
      = (.of typ (parseAt h (buildOptions []) typ true s x).1 true,
          (parseAt h (buildOptions []) typ true s x).2) := rfl

theorem buildOptions_nil_funcs (T : Typ) : (buildOptions []).funcs T = none := rfl

/-- C1 (integer round trip): with no registered functions, for every signed
integer kind of width `w` (8, 16, 32 or 64 bits; not `time.Duration`) and
every `n` with `-2^(w-1) <= n < 2^(w-1)`, and for every unsigned integer kind
of width `w` and every `n` with `0 <= n < 2^w`, `Stringify` of `n` is the
base-10 numeral of `n`, and `Parse` of that numeral into a target of the same
type succeeds and stores exactly `n`, whatever the target held before. -/
theorem C1_integer_round_trip (h : Host) (pkgPath name : String) (k : LeafKind) (n : Int)
    (old : Val) (hm : h.noMethods (.leaf pkgPath name k) = true)
    (hk : (isSignedKind k = true ∧ isDuration pkgPath name k = false
            ∧ -(2 : Int) ^ (k.Bits - 1) ≤ n ∧ n < (2 : Int) ^ (k.Bits - 1))
          ∨ (isUnsignedKind k = true ∧ 0 ≤ n ∧ n < (2 : Int) ^ k.Bits)) :
    Stringify h (.leaf pkgPath name k) (intVal k n) [] = .ok (numeral n)
    ∧ Parse h (numeral n) (.of (.leaf pkgPath name k) old true) []
        = (.of (.leaf pkgPath name k) (intVal k n) true, none) := by
  rw [Stringify_nil, Parse_nil, stringifyAt_leaf h _ _ _ _ _ _ _ (buildOptions_nil_funcs _) hm,
    parseAt_leaf h _ _ _ _ _ _ _ (buildOptions_nil_funcs _) hm]
  rcases hk with ⟨hs, hd, hlo, hhi⟩ | ⟨hu, h0, hhi⟩
  · have hv : intVal k n = .int n := by simp [intVal, hs]
    rw [hv, ← FormatInt_eq_numeral, stringifyLeaf_int h _ _ _ _ hs hd,
      parseLeaf_int h _ _ _ _ _ hs hd hlo hhi]
    exact ⟨rfl, rfl⟩
  · obtain ⟨u, rfl⟩ : ∃ u : Nat, n = Int.ofNat u := ⟨n.toNat, by simp; omega⟩
    have hns : isSignedKind k = false := by cases k <;> simp_all [isSignedKind, isUnsignedKind]
    have hv : intVal k (Int.ofNat u) = .uint u := by simp [intVal, hns]
    have hu2 : u < 2 ^ k.Bits := by
      have : ((u : Nat) : Int) < ((2 ^ k.Bits : Nat) : Int) := by push_cast; exact hhi
      exact Int.ofNat_lt.mp this
    rw [hv, numeral_ofNat, stringifyLeaf_uint h _ _ _ _ hu, parseLeaf_uint h _ _ _ _ _ hu hu2]
    exact ⟨rfl, rfl⟩

/-- Witness of C1: the `int8` value -128 with the bare host. -/
theorem C1_integer_round_trip_witness :
    (Host.bare.noMethods (.leaf "" "int8" .Int8) = true)
    ∧ ((isSignedKind .Int8 = true ∧ isDuration "" "int8" .Int8 = false
          ∧ -(2 : Int) ^ (LeafKind.Int8.Bits - 1) ≤ -128
          ∧ (-128 : Int) < (2 : Int) ^ (LeafKind.Int8.Bits - 1))
        ∨ (isUnsignedKind .Int8 = true ∧ (0 : Int) ≤ -128
          ∧ (-128 : Int) < (2 : Int) ^ LeafKind.Int8.Bits))
    ∧ (Stringify Host.bare (.leaf "" "int8" .Int8) (intVal .Int8 (-128)) [] = .ok (numeral (-128))
      ∧ Parse Host.bare (numeral (-128)) (.of (.leaf "" "int8" .Int8) (.int 5) true) []
        = (.of (.leaf "" "int8" .Int8) (intVal .Int8 (-128)) true, none)) :=
  ⟨by decide, by decide,
    C1_integer_round_trip Host.bare "" "int8" .Int8 (-128) (.int 5) (by decide) (by decide)⟩

/-- C2 (boolean and string round trip): with no registered functions, for
every boolean `b`, `Stringify` of `b` is `"true"` or `"false"` and `Parse` of
it into a boolean target stores `b`; and for every string `s`, `Stringify` of
`s` is `s` and `Parse` of `s` into a string target stores `s` verbatim. -/
theorem C2_bool_string_round_trip (h : Host) (pb nb ps ns : String) (b : Bool) (s : GoString)
    (old : Val) (hmb : h.noMethods (.leaf pb nb .Bool) = true)
    (hms : h.noMethods (.leaf ps ns .String) = true) :
    (Stringify h (.leaf pb nb .Bool) (.bool b) [] = .ok (if b then str "true" else str "false")
      ∧ Parse h (if b then str "true" else str "false") (.of (.leaf pb nb .Bool) old true) []
          = (.of (.leaf pb nb .Bool) (.bool b) true, none))
    ∧ (Stringify h (.leaf ps ns .String) (.string s) [] = .ok s
      ∧ Parse h s (.of (.leaf ps ns .String) old true) []
          = (.of (.leaf ps ns .String) (.string s) true, none)) := by
  rw [Stringify_nil, Parse_nil, Stringify_nil, Parse_nil,
    stringifyAt_leaf h _ _ _ _ _ _ _ (buildOptions_nil_funcs _) hmb,
    parseAt_leaf h _ _ _ _ _ _ _ (buildOptions_nil_funcs _) hmb,
    stringifyAt_leaf h _ _ _ _ _ _ _ (buildOptions_nil_funcs _) hms,
    parseAt_leaf h _ _ _ _ _ _ _ (buildOptions_nil_funcs _) hms]
  refine ⟨⟨?_, ?_⟩, rfl, rfl⟩
  · cases b <;> rfl
  · cases b <;> rfl

/-- Witness of C2: `true` and the string `a;b` with the bare host. -/
theorem C2_bool_string_round_trip_witness :
    (Host.bare.noMethods Typ.bool = true) ∧ (Host.bare.noMethods Typ.string = true)
    ∧ ((Stringify Host.bare Typ.bool (.bool true) [] = .ok (str "true")
        ∧ Parse Host.bare (str "true") (.of Typ.bool (.bool false) true) []
            = (.of Typ.bool (.bool true) true, none))
      ∧ (Stringify Host.bare Typ.string (.string (str "a;b")) [] = .ok (str "a;b")
        ∧ Parse Host.bare (str "a;b") (.of Typ.string (.string []) true) []
            = (.of Typ.string (.string (str "a;b")) true, none))) :=
  ⟨by decide, by decide,
    C2_bool_string_round_trip Host.bare "" "bool" "" "string" true (str "a;b") (.string [])
      (by decide) (by decide)⟩

theorem sort.le_iff (a b : GoString) : sort.le a b = true ↔ a ≤ b := by
  rw [le_iff_eq_or_lt]
  induction a generalizing b with
  | nil =>
    cases b with
    | nil => simp [sort.le]
    | cons y ys => simpa [sort.le] using List.nil_lt_cons y ys
  | cons x xs ih =>
    cases b with
    | nil => simp [sort.le]
    | cons y ys =>
      simp only [sort.le, Bool.or_eq_true, Bool.and_eq_true, decide_eq_true_eq, ih,
        List.cons.injEq]
      constructor
      · rintro (hlt | ⟨rfl, rfl | hlt⟩)
        · exact Or.inr (List.Lex.rel hlt)
        · exact Or.inl ⟨rfl, rfl⟩
        · exact Or.inr (List.Lex.cons hlt)
      · rintro (⟨rfl, rfl⟩ | hlt)
        · exact Or.inr ⟨rfl, Or.inl rfl⟩
        · cases hlt with
          | cons h => exact Or.inr ⟨rfl, Or.inr h⟩
          | rel h => exact Or.inl h

theorem sort.le_connex (a b : GoString) : sort.le a b = true ∨ sort.le b a = true := by
  simpa only [sort.le_iff] using le_total a b

theorem sort.isTotal : IsTotal GoString (fun a b => sort.le a b = true) :=
  ⟨sort.le_connex⟩

theorem sort.isTrans : IsTrans GoString (fun a b => sort.le a b = true) :=
  ⟨fun a b c hab hbc => (sort.le_iff a c).mpr (((sort.le_iff a b).mp hab).trans ((sort.le_iff b c).mp hbc))⟩

theorem sort.isAntisymm : IsAntisymm GoString (fun a b => sort.le a b = true) :=
  ⟨fun a b hab hba => ((sort.le_iff a b).mp hab).antisymm ((sort.le_iff b a).mp hba)⟩

theorem sort.Strings_perm (l : List GoString) : (sort.Strings l).Perm l :=
  List.perm_insertionSort _ l

theorem sort.Strings_sorted (l : List GoString) : List.Sorted (· ≤ ·) (sort.Strings l) := by
  haveI := sort.isTotal
  haveI := sort.isTrans
  have h := List.sorted_insertionSort (fun a b => sort.le a b = true) l
  exact List.Pairwise.imp (fun hab => (sort.le_iff _ _).mp hab) h

theorem sort.Strings_eq_of_perm {l l' : List GoString} (hp : l.Perm l') :
    sort.Strings l = sort.Strings l' := by
  haveI := sort.isTotal
  haveI := sort.isTrans
  haveI := sort.isAntisymm
  exact List.eq_of_perm_of_sorted
    (((List.perm_insertionSort _ l).trans hp).trans (List.perm_insertionSort _ l').symm)
    (List.sorted_insertionSort (fun a b => sort.le a b = true) l)
    (List.sorted_insertionSort (fun a b => sort.le a b = true) l')

theorem keyEq_int (h : Host) (k : Val) (a : Int) :
    keyEq h k (.int a) = decide (k = .int a) := by
  cases k <;> simp [keyEq]

theorem keyEq_string (h : Host) (k : Val) (s : GoString) :
    keyEq h k (.string s) = decide (k = .string s) := by
  cases k <;> simp [keyEq]

theorem keyEq_float_self (h : Host) (bits : Nat) :
    keyEq h (.float bits) (.float bits) = !isNaN bits := by
  simp [keyEq, floatEq]

theorem keyEq_self_of_kind (h : Host) (k : LeafKind) (v : Val) (hv : hasKind k v = true)
    (hk : k ≠ .Float32 ∧ k ≠ .Float64 ∧ k ≠ .Complex64 ∧ k ≠ .Complex128) :
    keyEq h v v = true := by
  obtain ⟨h1, h2, h3, h4⟩ := hk
  cases k <;> cases v <;> simp_all [hasKind, keyEq]

theorem mapassign_int (h : Host) (m : List (Val × Val)) (a : Int) (x : Val) :
    mapassign h m (.int a) x = SetMapIndex m (.int a) x := by
  induction m with
  | nil => rfl
  | cons e rest ih =>
    obtain ⟨k1, x1⟩ := e
    simp only [mapassign, SetMapIndex, keyEq_int, decide_eq_true_eq, ih]

theorem mapassign_string (h : Host) (m : List (Val × Val)) (s : GoString) (x : Val) :
    mapassign h m (.string s) x = SetMapIndex m (.string s) x := by
  induction m with
  | nil => rfl
  | cons e rest ih =>
    obtain ⟨k1, x1⟩ := e
    simp only [mapassign, SetMapIndex, keyEq_string, decide_eq_true_eq, ih]

theorem distinctKeys_iff (h : Host) (m : List (Val × Val)) :
    distinctKeys h m = true
      ↔ m.Pairwise (fun a b => keyEq h a.1 b.1 = false ∧ keyEq h b.1 a.1 = false) := by
  induction m with
  | nil => simp [distinctKeys]
  | cons e rest ih =>
    obtain ⟨k, x⟩ := e
    simp only [distinctKeys, Bool.and_eq_true, List.all_eq_true, Bool.not_eq_true', ih,
      List.pairwise_cons]

theorem distinctKeys_perm (h : Host) (m m1 : List (Val × Val)) (hp : m.Perm m1)
    (hd : distinctKeys h m = true) : distinctKeys h m1 = true := by
  rw [distinctKeys_iff] at hd ⊢
  exact (hp.pairwise_iff (fun {a b} hab => ⟨hab.2, hab.1⟩)).mp hd

/-- In a map with pairwise different keys, `MapIndex` finds the value of
every key that is equal to itself. -/
theorem mapaccess_mem (h : Host) (m : List (Val × Val)) (k x : Val)
    (hd : distinctKeys h m = true) (hmem : (k, x) ∈ m) (hk : keyEq h k k = true) :
    mapaccess h m k = some x := by
  induction m with
  | nil => simp at hmem
  | cons e rest ih =>
    obtain ⟨k1, x1⟩ := e
    rw [distinctKeys_iff, List.pairwise_cons] at hd
    rcases List.mem_cons.mp hmem with heq | hrest
    · simp only [Prod.mk.injEq] at heq
      obtain ⟨rfl, rfl⟩ := heq
      simp [mapaccess, hk]
    · have hne := (hd.1 (k, x) hrest).1
      simp only at hne
      simp only [mapaccess, hne, Bool.false_eq_true, if_false]
      exact ih ((distinctKeys_iff h rest).mpr hd.2) hrest

/-- A key that is not equal to itself is not found by `MapIndex`. -/
theorem mapaccess_float_nan (h : Host) (m : List (Val × Val)) (bits : Nat)
    (hn : isNaN bits = true) : mapaccess h m (.float bits) = none := by
  induction m with
  | nil => rfl
  | cons e rest ih =>
    obtain ⟨k1, x1⟩ := e
    have : keyEq h k1 (.float bits) = false := by
      cases k1 <;> simp [keyEq, floatEq, hn]
    simp [mapaccess, this, ih]

theorem distinctKeys_int (h : Host) (l : List (Int × Int)) (hnd : (l.map Prod.fst).Nodup) :
    distinctKeys h (l.map intEntry) = true := by
  rw [distinctKeys_iff, List.pairwise_map]
  have hp : l.Pairwise (fun a b => a.1 ≠ b.1) := by
    rw [List.Nodup, List.pairwise_map] at hnd
    exact hnd
  refine hp.imp ?_
  intro a b hab
  simp only [intEntry, keyEq, decide_eq_false_iff_not]
  exact ⟨hab, fun hh => hab hh.symm⟩

theorem stringifyEntries_ok (h : Host) (keySep : Int) (fk fv : Val → Except Fault GoString)
    (m l : List (Val × Val))
    (hok : ∀ e ∈ l, mapaccess h m e.1 = some e.2
      ∧ (∃ s, fk e.1 = .ok s) ∧ (∃ s, fv e.2 = .ok s)) :
    stringifyEntries h keySep fk fv m (l.map Prod.fst)
      = .ok (l.map (fun e =>
          resultString (fk e.1) ++ runeToString keySep ++ resultString (fv e.2))) := by
  induction l with
  | nil => rfl
  | cons e rest ih =>
    obtain ⟨k, x⟩ := e
    obtain ⟨hma, ⟨sk, hsk⟩, ⟨sv, hsv⟩⟩ := hok (k, x) (List.mem_cons_self _ _)
    have ih' := ih (fun e he => hok e (List.mem_cons_of_mem _ he))
    simp only at hsk hsv hma
    simp [stringifyEntries, hsk, hsv, hma, ih', resultString]

/-- The loop of `stringify` over a map whose keys are pairwise different
and equal to themselves. -/
theorem stringifyEntries_map (h : Host) (keySep : Int) (fk fv : Val → Except Fault GoString)
    (m : List (Val × Val)) (hd : distinctKeys h m = true)
    (hok : ∀ e ∈ m, keyEq h e.1 e.1 = true ∧ (∃ s, fk e.1 = .ok s) ∧ (∃ s, fv e.2 = .ok s)) :
    stringifyEntries h keySep fk fv m (m.map Prod.fst)
      = .ok (m.map (fun e =>
          resultString (fk e.1) ++ runeToString keySep ++ resultString (fv e.2))) :=
  stringifyEntries_ok h keySep fk fv m m
    (fun e he => ⟨mapaccess_mem h m e.1 e.2 hd he (hok e he).1, (hok e he).2⟩)

theorem stringifyLeaf_ok (h : Host) (pkgPath name : String) (k : LeafKind) (v : Val)
    (hv : hasKind k v = true) : ∃ s, stringifyLeaf h pkgPath name k v = .ok s := by
  cases k <;> cases v <;> simp [hasKind] at hv <;> simp [stringifyLeaf]
  all_goals (split <;> simp)

theorem builtin_iff (h : Host) (opts : Options) (T : Typ) :
    builtin h opts T = true ↔ opts.funcs T = none ∧ h.noMethods T = true := by
  simp [builtin, Option.isNone_iff_eq_none]



theorem Stringify_of_saved (h : Host) (typ : Typ) (v : Val) (optFns : List (Options → Options))
    (hs : (buildOptions optFns).savedErr = none) :
    Stringify h typ v optFns = stringifyAt h (buildOptions optFns) typ true false v := by
  simp [Stringify, stringify, hs]

theorem stringifyAt_map (h : Host) (opts : Options) (kt et : Typ) (full canAddr : Bool)
    (entries : List (Val × Val)) (ss : List GoString)
    (hb : builtin h opts (.map kt et) = true)
    (hss : stringifyEntries h opts.keySep (fun x => stringifyAt h opts kt true false x)
            (fun x => stringifyAt h opts et true false x) entries (entries.map Prod.fst)
          = .ok ss) :
    stringifyAt h opts (.map kt et) full canAddr (.map entries)
      = .ok (strings.Join (sort.Strings ss) (runeToString opts.elemSep)) := by
  rw [builtin_iff, noMethods_iff] at hb
  obtain ⟨hf, h1, h2, -, -, h5, h6, -, -⟩ := hb
  have := stringifyPre_none h opts (.map kt et) canAddr (.map entries) hf h1 h2 (Or.inr ⟨h5, h6⟩)
  cases full <;> simp [stringifyAt, this, hss]

/-- C3, as stated, fails: a map from `float64` to `string` whose only key is
a NaN is a map of built-in scalar keys and values, and `Stringify` of it does
not return a string: `MapIndex` does not find the key, which is not equal to
itself, and `stringify` of the zero Value panics. -/
theorem C3_counterexample :
    isNaN 0x7FF8000000000001 = true
    ∧ hasKind .Float64 (.float 0x7FF8000000000001) = true
    ∧ hasKind .String (.string (str "x")) = true
    ∧ Stringify Host.bare (.map (.leaf "" "float64" .Float64) Typ.string)
        (.map [(.float 0x7FF8000000000001, .string (str "x"))]) []
      = .error (.panic "reflect: call of reflect.Value.Type on zero Value") := by
  decide

/-- C3, amended (map determinism): for every map whose keys and values are
of built-in scalar types and whose keys are equal to themselves (no key is a
NaN), `Stringify` returns the element-separator join of the sorted strings
`key + keySeparator + value`, whatever the order in which the map enumerates
its entries: two enumeration orders of the same entries give the same string,
and the joined strings are the pair strings in increasing byte-wise
lexicographic order. The keys of a map are pairwise different. -/
theorem C3_map_determinism (h : Host) (optFns : List (Options → Options))
    (pk nk : String) (kk : LeafKind) (pe ne : String) (ke : LeafKind)
    (entries entries' : List (Val × Val)) (hperm : entries.Perm entries')
    (hsaved : (buildOptions optFns).savedErr = none)
    (hbm : builtin h (buildOptions optFns) (.map (.leaf pk nk kk) (.leaf pe ne ke)) = true)
    (hbk : builtin h (buildOptions optFns) (.leaf pk nk kk) = true)
    (hbe : builtin h (buildOptions optFns) (.leaf pe ne ke) = true)
    (htyped : ∀ e ∈ entries, hasKind kk e.1 = true ∧ hasKind ke e.2 = true)
    (hdist : distinctKeys h entries = true)
    (hself : ∀ e ∈ entries, keyEq h e.1 e.1 = true) :
    Stringify h (.map (.leaf pk nk kk) (.leaf pe ne ke)) (.map entries) optFns
      = .ok (strings.Join
          (sort.Strings (entries.map (pairString h optFns (.leaf pk nk kk) (.leaf pe ne ke))))
          (runeToString (buildOptions optFns).elemSep))
    ∧ Stringify h (.map (.leaf pk nk kk) (.leaf pe ne ke)) (.map entries') optFns
      = Stringify h (.map (.leaf pk nk kk) (.leaf pe ne ke)) (.map entries) optFns
    ∧ List.Sorted (· ≤ ·)
        (sort.Strings (entries.map (pairString h optFns (.leaf pk nk kk) (.leaf pe ne ke))))
    ∧ (sort.Strings (entries.map (pairString h optFns (.leaf pk nk kk) (.leaf pe ne ke)))).Perm
        (entries.map (pairString h optFns (.leaf pk nk kk) (.leaf pe ne ke))) := by
  have hk := (builtin_iff _ _ _).mp hbk
  have he := (builtin_iff _ _ _).mp hbe
  have key : ∀ l : List (Val × Val),
      (∀ e ∈ l, hasKind kk e.1 = true ∧ hasKind ke e.2 = true) →
      distinctKeys h l = true → (∀ e ∈ l, keyEq h e.1 e.1 = true) →
      Stringify h (.map (.leaf pk nk kk) (.leaf pe ne ke)) (.map l) optFns
        = .ok (strings.Join
            (sort.Strings (l.map (pairString h optFns (.leaf pk nk kk) (.leaf pe ne ke))))
            (runeToString (buildOptions optFns).elemSep)) := by
    intro l hl hd hs
    have hse := stringifyEntries_map h (buildOptions optFns).keySep
      (fun x => stringifyAt h (buildOptions optFns) (.leaf pk nk kk) true false x)
      (fun x => stringifyAt h (buildOptions optFns) (.leaf pe ne ke) true false x) l hd
      (by
        intro e hmem
        simp only
        rw [stringifyAt_leaf h _ _ _ _ _ _ _ hk.1 hk.2,
          stringifyAt_leaf h _ _ _ _ _ _ _ he.1 he.2]
        exact ⟨hs e hmem, stringifyLeaf_ok h _ _ _ _ (hl e hmem).1,
          stringifyLeaf_ok h _ _ _ _ (hl e hmem).2⟩)
    rw [Stringify_of_saved _ _ _ _ hsaved, stringifyAt_map _ _ _ _ _ _ _ _ hbm hse]
    have hp : pairString h optFns (.leaf pk nk kk) (.leaf pe ne ke) = fun e =>
        resultString (stringifyAt h (buildOptions optFns) (.leaf pk nk kk) true false e.1)
          ++ runeToString (buildOptions optFns).keySep
          ++ resultString (stringifyAt h (buildOptions optFns) (.leaf pe ne ke) true false e.2) := by
      funext e
      simp only [pairString, Stringify_of_saved _ _ _ _ hsaved]
    rw [hp]
  refine ⟨key entries htyped hdist hself, ?_, sort.Strings_sorted _, sort.Strings_perm _⟩
  rw [key entries htyped hdist hself,
    key entries' (fun e he => htyped e (hperm.mem_iff.mpr he))
      (distinctKeys_perm h _ _ hperm hdist) (fun e he => hself e (hperm.mem_iff.mpr he))]
  rw [sort.Strings_eq_of_perm (hperm.map _)]

/-- Witness of C3 (amended): the map of the test suite, `key1` to `value1`
and `key2` to `value2`, enumerated in two orders. -/
theorem C3_map_determinism_witness :
    Stringify Host.bare (.map Typ.string Typ.string)
        (.map [(.string (str "key2"), .string (str "value2")),
          (.string (str "key1"), .string (str "value1"))]) []
      = .ok (str "key1:value1;key2:value2")
    ∧ ([(Val.string (str "key2"), Val.string (str "value2")),
        (Val.string (str "key1"), Val.string (str "value1"))].Perm
      [(Val.string (str "key1"), Val.string (str "value1")),
        (Val.string (str "key2"), Val.string (str "value2"))])
    ∧ Stringify Host.bare (.map Typ.string Typ.string)
        (.map [(.string (str "key1"), .string (str "value1")),
          (.string (str "key2"), .string (str "value2"))]) []
      = Stringify Host.bare (.map Typ.string Typ.string)
        (.map [(.string (str "key2"), .string (str "value2")),
          (.string (str "key1"), .string (str "value1"))]) [] :=
  ⟨(C3_map_determinism Host.bare [] "" "string" .String "" "string" .String
      [(.string (str "key2"), .string (str "value2")),
        (.string (str "key1"), .string (str "value1"))]
      [(.string (str "key1"), .string (str "value1")),
        (.string (str "key2"), .string (str "value2"))]
      (List.Perm.swap _ _ _) rfl (by decide) (by decide) (by decide) (by decide) (by decide)
      (by decide)).1,
    List.Perm.swap _ _ _,
    (C3_map_determinism Host.bare [] "" "string" .String "" "string" .String
      [(.string (str "key2"), .string (str "value2")),
        (.string (str "key1"), .string (str "value1"))]
      [(.string (str "key1"), .string (str "value1")),
        (.string (str "key2"), .string (str "value2"))]
      (List.Perm.swap _ _ _) rfl (by decide) (by decide) (by decide) (by decide) (by decide)
      (by decide)).2.1⟩

theorem headFree_iff (sep : GoString) :
    headFree sep = true ↔ ∃ c t, sep = c :: t ∧ c ∉ t := by
  cases sep with
  | nil => simp [headFree]
  | cons c t =>
    simp only [headFree, decide_eq_true_eq]
    constructor
    · intro hc
      exact ⟨c, t, rfl, hc⟩
    · rintro ⟨c1, t1, heq, hc⟩
      simp only [List.cons.injEq] at heq
      rw [heq.1, heq.2]
      exact hc

theorem runeToString_headFree (r : Int) : headFree (runeToString r) = true := by
  rw [headFree_iff]
  unfold runeToString
  split
  · exact ⟨0xEF, [0xBF, 0xBD], rfl, by decide⟩
  · simp only
    split
    · exact ⟨_, [], rfl, by simp⟩
    · split
      · refine ⟨_, _, rfl, ?_⟩
        simp only [List.mem_singleton]
        omega
      · split
        · exact ⟨0xEF, [0xBF, 0xBD], rfl, by decide⟩
        · split
          · refine ⟨_, _, rfl, ?_⟩
            simp only [List.mem_cons, List.mem_singleton, List.not_mem_nil, or_false]
            omega
          · refine ⟨_, _, rfl, ?_⟩
            simp only [List.mem_cons, List.mem_singleton, List.not_mem_nil, or_false]
            omega

theorem strings.splitAux_skip (sep t rest : GoString) :
    strings.splitAux sep (t ++ rest) t.length = strings.splitAux sep rest 0 := by
  induction t with
  | nil => rfl
  | cons a t ih => simpa [strings.splitAux] using ih

theorem strings.splitAux_no_sep (sep x : GoString) (hx : ¬ sep <:+: x) :
    strings.splitAux sep x 0 = [x] := by
  induction x with
  | nil => rfl
  | cons a x ih =>
    have hp : sep.isPrefixOf (a :: x) = false := by
      rw [Bool.eq_false_iff]
      intro hp
      exact hx (List.isPrefixOf_iff_prefix.mp hp).isInfix
    have hx' : ¬ sep <:+: x := fun hi => hx (hi.trans (List.suffix_cons a x).isInfix)
    simp [strings.splitAux, hp, ih hx']

theorem strings.not_prefix_of_headFree (sep x rest : GoString) (a : Nat) (hs : headFree sep = true)
    (hx : ¬ sep <:+: (a :: x)) : sep.isPrefixOf (a :: x ++ sep ++ rest) = false := by
  rw [Bool.eq_false_iff]
  intro hp
  have hp := List.isPrefixOf_iff_prefix.mp hp
  have hxp : (a :: x) <+: a :: x ++ sep ++ rest := by
    rw [List.append_assoc]
    exact List.prefix_append _ _
  rcases Nat.le_total sep.length (a :: x).length with hle | hle
  · exact hx (List.prefix_of_prefix_length_le hp hxp hle).isInfix
  · obtain ⟨u, hu⟩ := List.prefix_of_prefix_length_le hxp hp hle
    subst hu
    obtain ⟨c, t, hct, hc⟩ := (headFree_iff _).mp hs
    rw [List.append_assoc] at hp
    have hp2 := (List.prefix_append_right_inj (a :: x)).mp hp
    cases u with
    | nil =>
      apply hx
      rw [List.append_nil]
    | cons u0 u' =>
      obtain ⟨w, hw⟩ := hp2
      simp only [List.cons_append, List.cons.injEq] at hw hct
      have hmem : u0 ∈ t := by
        rw [← hct.2]
        simp
      rw [hw.1, hct.1] at hmem
      exact hc hmem

theorem strings.splitAux_piece (sep x rest : GoString) (hs : headFree sep = true)
    (hx : ¬ sep <:+: x) :
    strings.splitAux sep (x ++ sep ++ rest) 0 = x :: strings.splitAux sep rest 0 := by
  induction x with
  | nil =>
    obtain ⟨c, t, rfl, -⟩ := (headFree_iff _).mp hs
    have hp : (c :: t).isPrefixOf (c :: (t ++ rest)) = true :=
      List.isPrefixOf_iff_prefix.mpr ⟨rest, by simp⟩
    have := strings.splitAux_skip (c :: t) t rest
    show strings.splitAux (c :: t) (c :: (t ++ rest)) 0 = _
    rw [strings.splitAux, if_pos hp]
    simp only [List.length_cons, Nat.add_sub_cancel]
    rw [this]
  | cons a x ih =>
    have hp : sep.isPrefixOf (a :: (x ++ sep ++ rest)) = false :=
      strings.not_prefix_of_headFree sep x rest a hs hx
    have hx' : ¬ sep <:+: x := fun hi => hx (hi.trans (List.suffix_cons a x).isInfix)
    show strings.splitAux sep (a :: (x ++ sep ++ rest)) 0 = _
    rw [strings.splitAux, if_neg (Bool.eq_false_iff.mp hp), ih hx']

/-- Splitting a join gives the joined pieces back when the list is not empty
and no piece contains the separator. -/
theorem strings.Split_Join (sep : GoString) (hs : headFree sep = true) (xs : List GoString)
    (hne : xs ≠ []) (hx : ∀ x ∈ xs, ¬ sep <:+: x) :
    strings.Split (strings.Join xs sep) sep = xs := by
  induction xs with
  | nil => exact absurd rfl hne
  | cons a rest ih =>
    cases rest with
    | nil =>
      simp only [strings.Join, strings.Split]
      exact strings.splitAux_no_sep sep a (hx a (List.mem_cons_self _ _))
    | cons b rest =>
      have ih' := ih (by simp) (fun x hm => hx x (List.mem_cons_of_mem _ hm))
      simp only [strings.Join, strings.Split] at ih' ⊢
      rw [strings.splitAux_piece sep a _ hs (hx a (List.mem_cons_self _ _)), ih']

theorem singleton_infix_iff (c : Nat) (x : GoString) : [c] <:+: x ↔ c ∈ x := by
  constructor
  · rintro ⟨s, t, rfl⟩
    simp
  · intro h
    obtain ⟨s, t, rfl⟩ := List.append_of_mem h
    exact ⟨s, t, by simp⟩

theorem stringifySeq_ok (h : Host) (f : Val → Except Fault GoString) (xs : List Val) (i : Nat)
    (hok : ∀ x ∈ xs, ∃ s, f x = .ok s) :
    stringifySeq h f xs i = .ok (xs.map (fun x => resultString (f x))) := by
  induction xs generalizing i with
  | nil => rfl
  | cons x rest ih =>
    obtain ⟨s, hs⟩ := hok x (List.mem_cons_self _ _)
    have ih' := ih (i + 1) (fun y hy => hok y (List.mem_cons_of_mem _ hy))
    simp [stringifySeq, hs, ih', resultString]

theorem stringifyPre_builtin (h : Host) (opts : Options) (typ : Typ) (canAddr : Bool) (v : Val)
    (hb : builtin h opts typ = true) : stringifyPre h opts typ canAddr v = none := by
  rw [builtin_iff, noMethods_iff] at hb
  obtain ⟨hf, h1, h2, -, -, h5, h6, -, -⟩ := hb
  exact stringifyPre_none h opts typ canAddr v hf h1 h2 (Or.inr ⟨h5, h6⟩)

theorem parsePre_builtin (h : Host) (opts : Options) (typ : Typ) (s : GoString) (v : Val)
    (hb : builtin h opts typ = true) : parsePre h opts typ s v = none := by
  rw [builtin_iff, noMethods_iff] at hb
  obtain ⟨hf, -, -, h3, h4, -, -, h7, h8⟩ := hb
  exact parsePre_none h opts typ s v hf h3 h4 h7 h8

theorem stringifyAt_slice (h : Host) (opts : Options) (e : Typ) (full canAddr : Bool)
    (xs : List Val) (ss : List GoString) (hb : builtin h opts (.slice e) = true)
    (he : e.Kind ≠ .Uint8)
    (hss : stringifySeq h (fun x => stringifyAt h opts e true true x) xs 0 = .ok ss) :
    stringifyAt h opts (.slice e) full canAddr (.list xs)
      = .ok (strings.Join ss (runeToString opts.elemSep)) := by
  have := stringifyPre_builtin h opts (.slice e) canAddr (.list xs) hb
  cases full <;> simp [stringifyAt, this, hss, he]

theorem stringifyAt_array (h : Host) (opts : Options) (n : Nat) (e : Typ) (full canAddr : Bool)
    (xs : List Val) (ss : List GoString) (hb : builtin h opts (.array n e) = true)
    (he : e.Kind ≠ .Uint8)
    (hss : stringifySeq h (fun x => stringifyAt h opts e true canAddr x) xs 0 = .ok ss) :
    stringifyAt h opts (.array n e) full canAddr (.list xs)
      = .ok (strings.Join ss (runeToString opts.elemSep)) := by
  have := stringifyPre_builtin h opts (.array n e) canAddr (.list xs) hb
  cases full <;> simp [stringifyAt, this, hss, he]

theorem parseElems_map {α : Type} (f : GoString → Val → Val × Option Fault) (z : Val)
    (xs : List α) (enc : α → GoString) (dec : α → Val)
    (hok : ∀ a ∈ xs, f (enc a) z = (dec a, none)) :
    parseElems f z (xs.map enc) = .ok (xs.map dec) := by
  induction xs with
  | nil => rfl
  | cons p rest ih =>
    have hp := hok p (List.mem_cons_self _ _)
    have ih' := ih (fun q hq => hok q (List.mem_cons_of_mem _ hq))
    simp [parseElems, hp, ih']

theorem parseAt_slice_ok (h : Host) (opts : Options) (e : Typ) (full : Bool) (s : GoString)
    (v : Val) (xs : List Val) (hb : builtin h opts (.slice e) = true) (he : e.Kind ≠ .Uint8)
    (hxs : parseElems (fun piece x => parseAt h opts e true piece x) (zero e)
      (strings.Split s (runeToString opts.elemSep)) = .ok xs) :
    parseAt h opts (.slice e) full s v = (.list xs, none) := by
  have := parsePre_builtin h opts (.slice e) s v hb
  cases full <;> simp [parseAt, this, hxs, he]

theorem buildOptions_nil_builtin (h : Host) (T : Typ) (hm : h.noMethods T = true) :
    builtin h (buildOptions []) T = true := by
  rw [builtin_iff]
  exact ⟨rfl, hm⟩

theorem FormatInt_mem (n : Int) (c : Nat) (hc : c ∈ strconv.FormatInt n) :
    c = 45 ∨ (48 ≤ c ∧ c ≤ 57) := by
  unfold strconv.FormatInt at hc
  split at hc
  · simp only [List.mem_cons] at hc
    rcases hc with rfl | hc
    · exact Or.inl rfl
    · rcases strconv.formatBits_mem _ _ _ _ hc with h | h
      · exact Or.inr h
      · simp at h
  · rcases strconv.formatBits_mem _ _ _ _ hc with h | h
    · exact Or.inr h
    · simp at h

theorem signed_kind_ne_uint8 (pkgPath name : String) (k : LeafKind)
    (hk : isSignedKind k = true) : (Typ.leaf pkgPath name k).Kind ≠ .Uint8 := by
  cases k <;> simp_all [isSignedKind, Typ.Kind, LeafKind.toKind]

/-- C5 (slice round trip): with the default element separator and no
registered functions, for every non-empty slice `xs` of signed integers
(of a signed integer type other than `time.Duration`), `Stringify` of `xs`
is the join of the numerals, and `Parse` of it into a slice target of the
same element type succeeds and yields the same elements in the same order. -/
theorem C5_slice_round_trip (h : Host) (pkgPath name : String) (k : LeafKind) (xs : List Int)
    (old : Val) (hk : isSignedKind k = true) (hd : isDuration pkgPath name k = false)
    (hm : h.noMethods (.leaf pkgPath name k) = true)
    (hms : h.noMethods (.slice (.leaf pkgPath name k)) = true) (hne : xs ≠ [])
    (hr : ∀ n ∈ xs, -(2 : Int) ^ (k.Bits - 1) ≤ n ∧ n < (2 : Int) ^ (k.Bits - 1)) :
    Stringify h (.slice (.leaf pkgPath name k)) (.list (xs.map Val.int)) []
      = .ok (strings.Join (xs.map numeral) (str ";"))
    ∧ Parse h (strings.Join (xs.map numeral) (str ";"))
        (.of (.slice (.leaf pkgPath name k)) old true) []
      = (.of (.slice (.leaf pkgPath name k)) (.list (xs.map Val.int)) true, none) := by
  have hbs := buildOptions_nil_builtin h _ hms
  have hf : (buildOptions []).funcs (.leaf pkgPath name k) = none := rfl
  have hnum : xs.map numeral = xs.map strconv.FormatInt := by
    apply List.map_congr_left
    intro n _
    exact (FormatInt_eq_numeral n).symm
  have hsep : runeToString (buildOptions []).elemSep = str ";" := by decide
  have hu8 := signed_kind_ne_uint8 pkgPath name k hk
  constructor
  · have hseq := stringifySeq_ok h
      (fun x => stringifyAt h (buildOptions []) (.leaf pkgPath name k) true true x)
      (xs.map Val.int) 0 (by
        intro x hx
        obtain ⟨n, -, rfl⟩ := List.mem_map.mp hx
        refine ⟨strconv.FormatInt n, ?_⟩
        show stringifyAt h (buildOptions []) (.leaf pkgPath name k) true true (.int n) = _
        rw [stringifyAt_leaf h _ _ _ _ _ _ _ hf hm, stringifyLeaf_int h _ _ _ _ hk hd])
    rw [Stringify_nil, stringifyAt_slice h _ _ _ _ _ _ hbs hu8 hseq, hsep, hnum]
    congr 2
    rw [List.map_map]
    apply List.map_congr_left
    intro n _
    simp only [Function.comp, stringifyAt_leaf h _ _ _ _ _ _ _ hf hm,
      stringifyLeaf_int h _ _ _ _ hk hd, resultString]
  · have hsplit : strings.Split (strings.Join (xs.map strconv.FormatInt) (str ";")) (str ";")
        = xs.map strconv.FormatInt := by
      apply strings.Split_Join _ (by decide) _ (by simpa using hne)
      intro x hx
      obtain ⟨n, -, rfl⟩ := List.mem_map.mp hx
      rw [show str ";" = [59] by decide, singleton_infix_iff]
      intro hc
      have := FormatInt_mem n 59 hc
      omega
    have hpe : parseElems
        (fun piece x => parseAt h (buildOptions []) (.leaf pkgPath name k) true piece x)
        (zero (.leaf pkgPath name k))
        (strings.Split (strings.Join (xs.map numeral) (str ";"))
          (runeToString (buildOptions []).elemSep)) = .ok (xs.map Val.int) := by
      rw [hsep, hnum, hsplit]
      apply parseElems_map
      intro n hn
      show parseAt h (buildOptions []) (.leaf pkgPath name k) true (strconv.FormatInt n) _ = _
      rw [parseAt_leaf h _ _ _ _ _ _ _ hf hm,
        parseLeaf_int h _ _ _ _ _ hk hd (hr n hn).1 (hr n hn).2]
    rw [Parse_nil, parseAt_slice_ok h _ _ _ _ _ _ hbs hu8 hpe]

/-- Witness of C5: the slice of the test suite, 1 to 9 of type `int`. -/
theorem C5_slice_round_trip_witness :
    Stringify Host.bare (.slice Typ.int) (.list ([1, 2, 3, 4, 5, 6, 7, 8, 9].map Val.int)) []
      = .ok (strings.Join ([1, 2, 3, 4, 5, 6, 7, 8, 9].map numeral) (str ";"))
    ∧ Parse Host.bare (strings.Join ([1, 2, 3, 4, 5, 6, 7, 8, 9].map numeral) (str ";"))
        (.of (.slice Typ.int) (.list []) true) []
      = (.of (.slice Typ.int) (.list ([1, 2, 3, 4, 5, 6, 7, 8, 9].map Val.int)) true, none) :=
  C5_slice_round_trip Host.bare "" "int" .Int [1, 2, 3, 4, 5, 6, 7, 8, 9] (.list [])
    (by decide) (by decide) (by decide) (by decide) (by decide) (by decide)

theorem Parse_of_saved (h : Host) (s : GoString) (typ : Typ) (x : Val)
    (optFns : List (Options → Options)) (hs : (buildOptions optFns).savedErr = none) :
    Parse h s (.of typ x true) optFns
      = (.of typ (parseAt h (buildOptions optFns) typ true s x).1 true,
          (parseAt h (buildOptions optFns) typ true s x).2) := by
  simp [Parse, parse, hs, Value.CanAddr]

/-- C6, as stated, fails: the one-element slice holding `a;b` is
stringified to `a;b`, which parses to the two-element slice of `a` and `b`. -/
theorem C6_counterexample :
    Stringify Host.bare (.slice Typ.string) (.list [.string (str "a;b")]) [] = .ok (str "a;b")
    ∧ Parse Host.bare (str "a;b") (.of (.slice Typ.string) (.list []) true) []
      = (.of (.slice Typ.string) (.list [.string (str "a"), .string (str "b")]) true, none)
    ∧ Parse Host.bare (str "a;b") (.of (.slice Typ.string) (.list []) true) []
      ≠ (.of (.slice Typ.string) (.list [.string (str "a;b")]) true, none) := by
  decide

/-- C6, amended (string slice round trip): for every element separator and
every non-empty slice `xs` of strings none of which contains the separator,
`Stringify` of `xs` is the join of its elements, and `Parse` of it into a
string-slice target with the same separator succeeds and yields `xs`. -/
theorem C6_string_slice_round_trip (h : Host) (ps ns : String) (r : Int) (xs : List GoString)
    (old : Val) (hm : h.noMethods (.leaf ps ns .String) = true)
    (hms : h.noMethods (.slice (.leaf ps ns .String)) = true) (hne : xs ≠ [])
    (hx : ∀ x ∈ xs, ¬ runeToString r <:+: x) :
    Stringify h (.slice (.leaf ps ns .String)) (.list (xs.map Val.string))
        [WithElementSeparator r]
      = .ok (strings.Join xs (runeToString r))
    ∧ Parse h (strings.Join xs (runeToString r))
        (.of (.slice (.leaf ps ns .String)) old true) [WithElementSeparator r]
      = (.of (.slice (.leaf ps ns .String)) (.list (xs.map Val.string)) true, none) := by
  have hsaved : (buildOptions [WithElementSeparator r]).savedErr = none := rfl
  have hf : (buildOptions [WithElementSeparator r]).funcs (.leaf ps ns .String) = none := rfl
  have hsep : (buildOptions [WithElementSeparator r]).elemSep = r := rfl
  have hbs : builtin h (buildOptions [WithElementSeparator r]) (.slice (.leaf ps ns .String))
      = true := by
    rw [builtin_iff]
    exact ⟨rfl, hms⟩
  have hu8 : (Typ.leaf ps ns .String).Kind ≠ .Uint8 := by simp [Typ.Kind, LeafKind.toKind]
  constructor
  · have hseq := stringifySeq_ok h
      (fun x => stringifyAt h (buildOptions [WithElementSeparator r]) (.leaf ps ns .String)
        true true x)
      (xs.map Val.string) 0 (by
        intro x hx
        obtain ⟨s, -, rfl⟩ := List.mem_map.mp hx
        refine ⟨s, ?_⟩
        show stringifyAt h _ (.leaf ps ns .String) true true (.string s) = _
        rw [stringifyAt_leaf h _ _ _ _ _ _ _ hf hm]
        rfl)
    rw [Stringify_of_saved _ _ _ _ hsaved, stringifyAt_slice h _ _ _ _ _ _ hbs hu8 hseq, hsep]
    congr 2
    rw [List.map_map]
    conv_rhs => rw [← List.map_id xs]
    apply List.map_congr_left
    intro s _
    simp only [Function.comp, stringifyAt_leaf h _ _ _ _ _ _ _ hf hm, id]
    rfl
  · have hpe : parseElems
        (fun piece x => parseAt h (buildOptions [WithElementSeparator r]) (.leaf ps ns .String)
          true piece x)
        (zero (.leaf ps ns .String))
        (strings.Split (strings.Join xs (runeToString r))
          (runeToString (buildOptions [WithElementSeparator r]).elemSep))
        = .ok (xs.map Val.string) := by
      rw [hsep, strings.Split_Join _ (runeToString_headFree r) xs hne hx]
      conv_lhs => rw [← List.map_id xs]
      apply parseElems_map
      intro s _
      show parseAt h _ (.leaf ps ns .String) true s _ = _
      rw [parseAt_leaf h _ _ _ _ _ _ _ hf hm]
      rfl
    rw [Parse_of_saved _ _ _ _ _ hsaved, parseAt_slice_ok h _ _ _ _ _ _ hbs hu8 hpe]

/-- Witness of C6 (amended): the slice of the test suite with the separator
`,`. -/
theorem C6_string_slice_round_trip_witness :
    Stringify Host.bare (.slice Typ.string)
        (.list ([str "item1", str "item;2"].map Val.string)) [WithElementSeparator 44]
      = .ok (strings.Join [str "item1", str "item;2"] (runeToString 44))
    ∧ Parse Host.bare (strings.Join [str "item1", str "item;2"] (runeToString 44))
        (.of (.slice Typ.string) (.list []) true) [WithElementSeparator 44]
      = (.of (.slice Typ.string) (.list ([str "item1", str "item;2"].map Val.string)) true,
          none) :=
  C6_string_slice_round_trip Host.bare "" "string" 44 [str "item1", str "item;2"] (.list [])
    (by decide) (by decide) (by decide) (by decide)

/-- C7, as stated, fails: in the array `[3]int64{1}` the two entries that
hold the default value are stringified to `0`, not to the empty string. -/
theorem C7_counterexample :
    Stringify Host.bare (.array 3 Typ.int64) (.list ([Val.int 1] ++ List.replicate 2 (zero Typ.int64))) []
      = .ok (str "1;0;0")
    ∧ Stringify Host.bare (.array 3 Typ.int64) (.list ([Val.int 1] ++ List.replicate 2 (zero Typ.int64))) []
      ≠ .ok (strings.Join ([str "1"] ++ List.replicate 2 []) (str ";")) := by
  decide

/-- C7, amended (fixed-array padding): for every element type, other than
a byte type, whose default value is stringified to the empty string (such as
`string`), every capacity `n` and every list `xs` of `k` elements that can be
stringified (with `k <= n` this is an array of capacity `n`), stringifying the
array whose first `k` entries are `xs` and whose remaining `n - k` entries
hold the default value yields the `k` stringified elements followed by
`n - k` empty strings, all joined by the element separator. -/
theorem C7_array_padding (h : Host) (optFns : List (Options → Options)) (T : Typ) (n : Nat)
    (xs : List Val)
    (hsaved : (buildOptions optFns).savedErr = none)
    (hb : builtin h (buildOptions optFns) (.array n T) = true) (hT : T.Kind ≠ .Uint8)
    (hz : Stringify h T (zero T) optFns = .ok [])
    (hx : ∀ x ∈ xs, (Stringify h T x optFns).isOk = true) :
    Stringify h (.array n T) (.list (xs ++ List.replicate (n - xs.length) (zero T))) optFns
      = .ok (strings.Join
          (xs.map (fun x => resultString (Stringify h T x optFns)) ++ List.replicate (n - xs.length) [])
          (runeToString (buildOptions optFns).elemSep)) := by
  have hseq := stringifySeq_ok h
    (fun x => stringifyAt h (buildOptions optFns) T true false x)
    (xs ++ List.replicate (n - xs.length) (zero T)) 0 (by
      intro x hmem
      rcases List.mem_append.mp hmem with hm | hm
      · have hs := hx x hm
        rw [Stringify_of_saved _ _ _ _ hsaved] at hs
        cases hr : stringifyAt h (buildOptions optFns) T true false x with
        | ok s => exact ⟨s, hr⟩
        | error e => simp [hr, Except.isOk, Except.toBool] at hs
      · rw [List.eq_of_mem_replicate hm]
        exact ⟨[], by rw [← hz, Stringify_of_saved _ _ _ _ hsaved]⟩)
  rw [Stringify_of_saved _ _ _ _ hsaved, stringifyAt_array h _ _ _ _ _ _ _ hb hT hseq]
  congr 2
  rw [List.map_append, List.map_replicate]
  congr 1
  · apply List.map_congr_left
    intro x _
    rw [Stringify_of_saved _ _ _ _ hsaved]
  · show List.replicate (n - xs.length)
      (resultString (stringifyAt h (buildOptions optFns) T true false (zero T))) = _
    rw [← Stringify_of_saved _ _ _ _ hsaved, hz]
    rfl

/-- Witness of C7 (amended): the array of the test suite,
`[10]string{"item1", "item2"}`. -/
theorem C7_array_padding_witness :
    Stringify Host.bare (.array 10 Typ.string)
        (.list ([Val.string (str "item1"), Val.string (str "item2")]
          ++ List.replicate (10 - 2) (zero Typ.string))) []
      = .ok (str "item1;item2;;;;;;;;") :=
  C7_array_padding Host.bare [] Typ.string 10
    [Val.string (str "item1"), Val.string (str "item2")] rfl (by decide)
    (by decide) (by decide) (by decide)

/-- C8, as stated, fails: with a rejected registration among the options,
`Parse` with a target that is not addressable returns the registration error,
not `ErrInvalidParseArgument`. -/
theorem C8_counterexample :
    Parse Host.bare (str "123") (.of Typ.int64 (.int 0) false)
        [WithParser (.leaf "" "chan int" .Chan) (fun _ => (.other 0, none))]
      = (.of Typ.int64 (.int 0) false,
          some (.error (.join1 (.errorf (str "chan is not a valid parser return type")))))
    ∧ Parse Host.bare (str "123") (.of Typ.int64 (.int 0) false)
        [WithParser (.leaf "" "chan int" .Chan) (fun _ => (.other 0, none))]
      ≠ (.of Typ.int64 (.int 0) false, some (.error ErrInvalidParseArgument)) := by
  decide

/-- C8, amended (invalid target): for every input string, every list of
configuration functions and every target that is not addressable (the zero
`reflect.Value` included), `Parse` writes nothing and returns
`ErrInvalidParseArgument` when the options hold no registration error, and
the saved registration error when they hold one. -/
theorem C8_invalid_target (h : Host) (s : GoString) (v : Value)
    (optFns : List (Options → Options)) (hv : v.CanAddr = false) :
    Parse h s v optFns = (v, some (.error (invalidTargetError (buildOptions optFns)))) := by
  cases hs : (buildOptions optFns).savedErr <;> simp [Parse, invalidTargetError, hs, hv]

/-- Witness of C8 (amended): the two calls of the test suite, with a value
that is not addressable and with the zero `reflect.Value`. -/
theorem C8_invalid_target_witness :
    Parse Host.bare (str "123") (.of Typ.int (.int 123) false) []
      = (.of Typ.int (.int 123) false, some (.error ErrInvalidParseArgument))
    ∧ Parse Host.bare (str "123") .zero [] = (.zero, some (.error ErrInvalidParseArgument)) :=
  ⟨C8_invalid_target Host.bare (str "123") (.of Typ.int (.int 123) false) [] rfl,
    C8_invalid_target Host.bare (str "123") .zero [] rfl⟩

theorem Config.fn_saved (c : Config) (o : Options) (q : GoString → GoString) (e : Err)
    (msg : GoString) (he : o.savedErr = some e) (hm : msg <:+: e.Error q) :
    ∃ e', (c.fn o).savedErr = some e' ∧ msg <:+: e'.Error q := by
  have hj : ∀ new : Err, ∃ e', errors.Join o.savedErr (some new) = some e'
      ∧ msg <:+: e'.Error q := by
    intro new
    rw [he]
    refine ⟨.join2 e new, rfl, ?_⟩
    simp only [Err.Error]
    exact hm.trans ((List.prefix_append _ _).isInfix.trans (List.prefix_append _ _).isInfix)
  cases c with
  | parser T fn =>
    simp only [Config.fn, WithParser]
    split <;> first | exact hj _ | exact ⟨e, he, hm⟩
  | stringifier T fn =>
    simp only [Config.fn, WithStringifier]
    split <;> first | exact hj _ | exact ⟨e, he, hm⟩
  | elementSeparator r => exact ⟨e, he, hm⟩
  | keySeparator r => exact ⟨e, he, hm⟩

theorem foldl_saved (cs : List Config) (o : Options) (q : GoString → GoString) (e : Err)
    (msg : GoString) (he : o.savedErr = some e) (hm : msg <:+: e.Error q) :
    ∃ e', ((cs.map Config.fn).foldl (fun opts fn => fn opts) o).savedErr = some e'
      ∧ msg <:+: e'.Error q := by
  induction cs generalizing o e with
  | nil => exact ⟨e, he, hm⟩
  | cons c rest ih =>
    obtain ⟨e1, he1, hm1⟩ := Config.fn_saved c o q e msg he hm
    exact ih (c.fn o) e1 he1 hm1

theorem Config.fn_rejected (c : Config) (o : Options) (q : GoString → GoString)
    (hc : c.rejected = true) :
    ∃ e', (c.fn o).savedErr = some e' ∧ c.message <:+: e'.Error q := by
  have hj : ∀ msg : GoString, ∃ e', errors.Join o.savedErr (some (.errorf msg)) = some e'
      ∧ msg <:+: e'.Error q := by
    intro msg
    cases o.savedErr with
    | none => exact ⟨.join1 (.errorf msg), rfl, by simp [Err.Error]⟩
    | some e => exact ⟨.join2 e (.errorf msg), rfl, by
        simp only [Err.Error]
        exact (List.suffix_append _ _).isInfix⟩
  cases c with
  | parser T fn =>
    simp only [Config.rejected] at hc
    simp only [Config.fn, WithParser, Config.message]
    cases hk : T.Kind <;> simp [hk, rejectedKind] at hc <;> exact hj _
  | stringifier T fn =>
    simp only [Config.rejected] at hc
    simp only [Config.fn, WithStringifier, Config.message]
    cases hk : T.Kind <;> simp [hk, rejectedKind] at hc <;> exact hj _
  | elementSeparator r => simp [Config.rejected] at hc
  | keySeparator r => simp [Config.rejected] at hc

theorem foldl_rejected (cs : List Config) (o : Options) (q : GoString → GoString) (c : Config)
    (hmem : c ∈ cs) (hc : c.rejected = true) :
    ∃ e', ((cs.map Config.fn).foldl (fun opts fn => fn opts) o).savedErr = some e'
      ∧ c.message <:+: e'.Error q := by
  induction cs generalizing o with
  | nil => simp at hmem
  | cons d rest ih =>
    rcases List.mem_cons.mp hmem with rfl | hmem
    · obtain ⟨e1, he1, hm1⟩ := Config.fn_rejected c o q hc
      exact foldl_saved rest (c.fn o) q e1 _ he1 hm1
    · exact ih (d.fn o) hmem

/-- C9 (registration rejection): for every configuration list that holds,
at any position, a `WithParser` or `WithStringifier` for a type of kind
interface, chan, func, map, uintptr or unsafe pointer, `Stringify` returns an
error and `Parse` returns the same error and leaves the target as it is,
without looking at the value, the input or the target; the message of the
error contains the name of the rejected kind followed by
`is not a valid parser return type` or `is not a valid stringifier argument
type`. -/
theorem C9_registration_rejection (h : Host) (cs : List Config) (c : Config) (typ : Typ)
    (v : Val) (s : GoString) (target : Value) (hmem : c ∈ cs) (hc : c.rejected = true) :
    ∃ err, (buildOptions (cs.map Config.fn)).savedErr = some err
      ∧ Stringify h typ v (cs.map Config.fn) = .error (.error err)
      ∧ Parse h s target (cs.map Config.fn) = (target, some (.error err))
      ∧ c.message <:+: err.Error h.quote := by
  obtain ⟨err, he, hm⟩ := foldl_rejected cs
    { elemSep := 59, keySep := 58, funcs := fun _ => none, savedErr := none } h.quote c hmem hc
  have he' : (buildOptions (cs.map Config.fn)).savedErr = some err := he
  exact ⟨err, he', by simp [Stringify, he'], by simp [Parse, he'], hm⟩

/-- Witness of C9: a rejected parser for a channel type between two valid
options. -/
theorem C9_registration_rejection_witness :
    ∃ err,
      (buildOptions ([Config.elementSeparator 44,
          Config.parser (.leaf "" "chan int" .Chan) (fun _ => (.other 0, none)),
          Config.stringifier Typ.int64 (fun _ => ([], none))].map Config.fn)).savedErr = some err
      ∧ Stringify Host.bare Typ.int64 (.int 10)
          ([Config.elementSeparator 44,
            Config.parser (.leaf "" "chan int" .Chan) (fun _ => (.other 0, none)),
            Config.stringifier Typ.int64 (fun _ => ([], none))].map Config.fn)
        = .error (.error err)
      ∧ Parse Host.bare (str "10") (.of Typ.int64 (.int 0) true)
          ([Config.elementSeparator 44,
            Config.parser (.leaf "" "chan int" .Chan) (fun _ => (.other 0, none)),
            Config.stringifier Typ.int64 (fun _ => ([], none))].map Config.fn)
        = (.of Typ.int64 (.int 0) true, some (.error err))
      ∧ (Config.parser (.leaf "" "chan int" .Chan) (fun _ => (.other 0, none))).message
          <:+: err.Error Host.bare.quote :=
  C9_registration_rejection Host.bare _
    (Config.parser (.leaf "" "chan int" .Chan) (fun _ => (.other 0, none))) Typ.int64 (.int 10)
    (str "10") (.of Typ.int64 (.int 0) true)
    (List.mem_cons_of_mem _ (List.mem_cons_self _ _)) rfl

/-- Two option values that differ at most in the registry entry of `U`. -/
theorem Config.fn_agree (c : Config) (U : Typ) (o1 o2 : Options)
    (h1 : o1.elemSep = o2.elemSep) (h2 : o1.keySep = o2.keySep)
    (h3 : o1.savedErr = o2.savedErr) (h4 : ∀ t, t ≠ U → o1.funcs t = o2.funcs t) :
    (c.fn o1).elemSep = (c.fn o2).elemSep ∧ (c.fn o1).keySep = (c.fn o2).keySep
      ∧ (c.fn o1).savedErr = (c.fn o2).savedErr
      ∧ ∀ t, t ≠ U → (c.fn o1).funcs t = (c.fn o2).funcs t := by
  cases c with
  | parser T fn =>
    simp only [Config.fn, WithParser]
    split <;> simp_all
  | stringifier T fn =>
    simp only [Config.fn, WithStringifier]
    split <;> simp_all
  | elementSeparator r => exact ⟨rfl, h2, h3, h4⟩
  | keySeparator r => exact ⟨h1, rfl, h3, h4⟩

theorem foldl_agree (cs : List Config) (U : Typ) (o1 o2 : Options)
    (h1 : o1.elemSep = o2.elemSep) (h2 : o1.keySep = o2.keySep)
    (h3 : o1.savedErr = o2.savedErr) (h4 : ∀ t, t ≠ U → o1.funcs t = o2.funcs t) :
    ((cs.map Config.fn).foldl (fun opts fn => fn opts) o1).savedErr
        = ((cs.map Config.fn).foldl (fun opts fn => fn opts) o2).savedErr
      ∧ ∀ t, t ≠ U → ((cs.map Config.fn).foldl (fun opts fn => fn opts) o1).funcs t
        = ((cs.map Config.fn).foldl (fun opts fn => fn opts) o2).funcs t := by
  induction cs generalizing o1 o2 with
  | nil => exact ⟨h3, h4⟩
  | cons c rest ih =>
    obtain ⟨a1, a2, a3, a4⟩ := Config.fn_agree c U o1 o2 h1 h2 h3 h4
    exact ih (c.fn o1) (c.fn o2) a1 a2 a3 a4

theorem stringifyAt_leaf_funcs (h : Host) (o1 o2 : Options) (pkgPath name : String)
    (k : LeafKind) (full canAddr : Bool) (v : Val)
    (hf : o1.funcs (.leaf pkgPath name k) = o2.funcs (.leaf pkgPath name k)) :
    stringifyAt h o1 (.leaf pkgPath name k) full canAddr v
      = stringifyAt h o2 (.leaf pkgPath name k) full canAddr v := by
  simp only [stringifyAt, stringifyPre, hf]

/-- C10, as stated, fails: registering a stringifier for the other type
`chan int` changes the result of `Stringify(int64(10))` from `10` to a
registration error. -/
theorem C10_counterexample :
    Stringify Host.bare Typ.int64 (.int 10) [] = .ok (str "10")
    ∧ Stringify Host.bare Typ.int64 (.int 10)
        [WithStringifier (.leaf "" "chan int" .Chan) (fun _ => ([], none))]
      = .error (.error (.join1 (.errorf (str "chan is not a valid stringifier argument type"))))
    ∧ Stringify Host.bare Typ.int64 (.int 10)
        [WithStringifier (.leaf "" "chan int" .Chan) (fun _ => ([], none))]
      ≠ Stringify Host.bare Typ.int64 (.int 10) [] := by
  decide

/-- C10, amended (exact-type registry precedence): for every value `v` of
a scalar type `T`, if the registry of the call holds the stringifier `f` for
exactly `T` (and no registration was rejected), `Stringify` of `v` returns
the result of `f v`, whatever marshal methods `T` has; and registering a
stringifier for another type `U` whose kind is not rejected, at any position
of the configuration list, leaves the result of `Stringify` of `v`
unchanged. -/
theorem C10_registry_precedence (h : Host) (pkgPath name : String) (k : LeafKind) (U : Typ)
    (v : Val) (optFns : List (Options → Options)) (f g : Val → GoString × Option Err)
    (front back : List Config)
    (hreg : (buildOptions optFns).funcs (.leaf pkgPath name k) = some (.stringifier f))
    (hsaved : (buildOptions optFns).savedErr = none)
    (hU : U ≠ .leaf pkgPath name k) (hkind : rejectedKind U.Kind = false) :
    Stringify h (.leaf pkgPath name k) v optFns = fnResult (f v)
    ∧ Stringify h (.leaf pkgPath name k) v
        ((front ++ [Config.stringifier U g] ++ back).map Config.fn)
      = Stringify h (.leaf pkgPath name k) v ((front ++ back).map Config.fn) := by
  constructor
  · rw [Stringify_of_saved _ _ _ _ hsaved]
    simp only [stringifyAt, stringifyPre, hreg, fnResult, if_true]
    rcases hfv : f v with ⟨out, _ | err⟩ <;> rfl
  · have hstep : ∀ o : Options,
        (WithStringifier U g o).elemSep = o.elemSep ∧ (WithStringifier U g o).keySep = o.keySep
        ∧ (WithStringifier U g o).savedErr = o.savedErr
        ∧ ∀ t, t ≠ U → (WithStringifier U g o).funcs t = o.funcs t := by
      intro o
      cases hk : U.Kind <;> simp [hk, rejectedKind] at hkind <;>
        simp [WithStringifier, hk] <;> intro t ht <;> simp [ht]
    have hag : ∀ o : Options,
        (((front ++ [Config.stringifier U g] ++ back).map Config.fn).foldl
            (fun opts fn => fn opts) o).savedErr
          = (((front ++ back).map Config.fn).foldl (fun opts fn => fn opts) o).savedErr
        ∧ ∀ t, t ≠ U →
          (((front ++ [Config.stringifier U g] ++ back).map Config.fn).foldl
            (fun opts fn => fn opts) o).funcs t
          = (((front ++ back).map Config.fn).foldl (fun opts fn => fn opts) o).funcs t := by
      intro o
      simp only [List.map_append, List.foldl_append, List.map_cons, List.map_nil,
        List.foldl_cons, List.foldl_nil, Config.fn]
      obtain ⟨a1, a2, a3, a4⟩ := hstep ((front.map Config.fn).foldl (fun opts fn => fn opts) o)
      exact foldl_agree back U _ _ a1 a2 a3 a4
    obtain ⟨hs, hfu⟩ := hag
      { elemSep := 59, keySep := 58, funcs := fun _ => none, savedErr := none }
    have hs' : (buildOptions ((front ++ [Config.stringifier U g] ++ back).map Config.fn)).savedErr
        = (buildOptions ((front ++ back).map Config.fn)).savedErr := hs
    have hfu' : (buildOptions ((front ++ [Config.stringifier U g] ++ back).map Config.fn)).funcs
          (.leaf pkgPath name k)
        = (buildOptions ((front ++ back).map Config.fn)).funcs (.leaf pkgPath name k) :=
      hfu _ (Ne.symm hU)
    simp only [Stringify, stringify, hs']
    cases (buildOptions ((front ++ back).map Config.fn)).savedErr with
    | some err => rfl
    | none => exact stringifyAt_leaf_funcs h _ _ _ _ _ _ _ _ hfu'

/-- Witness of C10 (amended): the test of the test suite, a stringifier
for `float64` and a stringifier for `*float64`. -/
theorem C10_registry_precedence_witness :
    Stringify Host.bare (.leaf "" "float64" .Float64) (.float 7)
        [WithStringifier (.leaf "" "float64" .Float64) (fun _ => (str "3.142E+00", none))]
      = fnResult (str "3.142E+00", none)
    ∧ Stringify Host.bare (.leaf "" "float64" .Float64) (.float 7)
        (([] ++ [Config.stringifier (.ptr (.leaf "" "float64" .Float64))
          (fun _ => (str "not the same type", none))] ++ []).map Config.fn)
      = Stringify Host.bare (.leaf "" "float64" .Float64) (.float 7)
        (([] ++ ([] : List Config)).map Config.fn) :=
  C10_registry_precedence Host.bare "" "float64" .Float64 (.ptr (.leaf "" "float64" .Float64))
    (.float 7) [WithStringifier (.leaf "" "float64" .Float64) (fun _ => (str "3.142E+00", none))]
    (fun _ => (str "3.142E+00", none)) (fun _ => (str "not the same type", none)) [] []
    rfl rfl (by decide) rfl

theorem strings.trimLeftSpace_cons (c : Nat) (cs : GoString) (hc : 32 < c ∧ c < 128) :
    strings.trimLeftSpace (c :: cs) = c :: cs := by
  have h1 : strings.asciiSpace c = false := by
    simp only [strings.asciiSpace, decide_eq_false_iff_not]
    omega
  have h2 : ∀ c1, strings.isSpace2 c c1 = false := by
    intro c1
    simp only [strings.isSpace2, decide_eq_false_iff_not]
    omega
  have h3 : ∀ c1 c2, strings.isSpace3 c c1 c2 = false := by
    intro c1 c2
    simp only [strings.isSpace3, decide_eq_false_iff_not]
    omega
  rcases cs with _ | ⟨c1, _ | ⟨c2, rest⟩⟩ <;> simp [strings.trimLeftSpace, h1, h2, h3]

theorem strings.mem_trimRightSpaceRev (b : Nat) (hb : 32 < b ∧ b < 128) :
    ∀ (n : Nat) (l : GoString), l.length ≤ n → b ∈ l → b ∈ strings.trimRightSpaceRev l := by
  intro n
  induction n with
  | zero =>
    intro l hl hmem
    cases l with
    | nil => simp at hmem
    | cons d l' => simp at hl
  | succ n ih =>
    intro l hl hmem
    cases l with
    | nil => simp at hmem
    | cons c cs =>
      simp only [List.length_cons] at hl
      rw [strings.trimRightSpaceRev.eq_def]
      simp only []
      split
      · rename_i hs
        simp only [strings.asciiSpace, decide_eq_true_eq] at hs
        exact ih cs (by omega) ((List.mem_cons.mp hmem).resolve_left (by omega))
      · split
        · exact hmem
        · rename_i c1 rest1
          simp only [List.length_cons] at hl
          split
          · rename_i hs
            simp only [strings.isSpace2, decide_eq_true_eq] at hs
            have h1 := (List.mem_cons.mp hmem).resolve_left (by omega)
            exact ih rest1 (by omega) ((List.mem_cons.mp h1).resolve_left (by omega))
          · split
            · exact hmem
            · rename_i c2 rest2
              simp only [List.length_cons] at hl
              split
              · rename_i hs
                simp only [strings.isSpace3, decide_eq_true_eq] at hs
                have h1 := (List.mem_cons.mp hmem).resolve_left (by omega)
                have h2 := (List.mem_cons.mp h1).resolve_left (by omega)
                exact ih rest2 (by omega) ((List.mem_cons.mp h2).resolve_left (by omega))
              · exact hmem

/-- A string that starts with a printable ASCII byte is not blank. -/
theorem strings.TrimSpace_ne_nil (c : Nat) (cs : GoString) (hc : 32 < c ∧ c < 128) :
    (strings.TrimSpace (c :: cs)).length ≠ 0 := by
  unfold strings.TrimSpace
  rw [strings.trimLeftSpace_cons c cs hc]
  have hmem : c ∈ strings.trimRightSpaceRev (c :: cs).reverse :=
    strings.mem_trimRightSpaceRev c hc _ _ (le_refl _) (by simp)
  intro h0
  rw [List.length_reverse, List.length_eq_zero] at h0
  rw [h0] at hmem
  simp at hmem

theorem SetMapIndex_append (m : List (Val × Val)) (k x : Val) (hk : ∀ e ∈ m, e.1 ≠ k) :
    SetMapIndex m k x = m ++ [(k, x)] := by
  induction m with
  | nil => rfl
  | cons e rest ih =>
    obtain ⟨k1, x1⟩ := e
    have h1 : k1 ≠ k := hk (k1, x1) (List.mem_cons_self _ _)
    have ih' := ih (fun e he => hk e (List.mem_cons_of_mem _ he))
    simp [SetMapIndex, h1, ih']

theorem parseAt_map_ok (h : Host) (opts : Options) (kt et : Typ) (full : Bool) (s : GoString)
    (v : Val) (m : List (Val × Val)) (hb : builtin h opts (.map kt et) = true)
    (hs : (strings.TrimSpace s).length ≠ 0)
    (hm : parseEntries h opts.keySep (fun piece => parseAt h opts kt true piece (zero kt))
      (fun piece => parseAt h opts et true piece (zero et))
      (strings.Split s (runeToString opts.elemSep)) [] = .ok m) :
    parseAt h opts (.map kt et) full s v = (.map m, none) := by
  have := parsePre_builtin h opts (.map kt et) s v hb
  cases full <;> simp [parseAt, this, hm, hs]

theorem parseAt_map_blank (h : Host) (opts : Options) (kt et : Typ) (full : Bool)
    (s : GoString) (v : Val) (hb : builtin h opts (.map kt et) = true)
    (hs : (strings.TrimSpace s).length = 0) :
    parseAt h opts (.map kt et) full s v = (.map [], none) := by
  have := parsePre_builtin h opts (.map kt et) s v hb
  cases full <;> simp [parseAt, this, hs]

theorem FormatInt_head (n : Int) :
    ∃ c cs, strconv.FormatInt n = c :: cs ∧ 32 < c ∧ c < 128 := by
  unfold strconv.FormatInt
  split
  · exact ⟨45, _, rfl, by omega, by omega⟩
  · obtain ⟨c, cs, hcs, h1, h2⟩ := strconv.FormatUint_head n.natAbs
    exact ⟨c, cs, hcs, by omega, by omega⟩

theorem FormatInt_no_byte (n : Int) (c : Nat) (hc : c = 58 ∨ c = 59) :
    ¬ [c] <:+: strconv.FormatInt n := by
  rw [singleton_infix_iff]
  intro hmem
  have := FormatInt_mem n c hmem
  omega

/-- The pair string of an entry of integers splits at the key separator
into the two numerals. -/
theorem Split_pair (a b : Int) :
    strings.Split (strconv.FormatInt a ++ [58] ++ strconv.FormatInt b) [58]
      = [strconv.FormatInt a, strconv.FormatInt b] := by
  unfold strings.Split
  rw [strings.splitAux_piece [58] _ _ (by decide) (FormatInt_no_byte a 58 (Or.inl rfl)),
    strings.splitAux_no_sep [58] _ (FormatInt_no_byte b 58 (Or.inl rfl))]

theorem parseEntries_int (h : Host) (opts : Options) (hk : opts.keySep = 58)
    (hf : opts.funcs Typ.int64 = none) (hm : h.noMethods Typ.int64 = true)
    (l : List (Int × Int)) (m : List (Val × Val))
    (hr : ∀ e ∈ l, (-(2 : Int) ^ 63 ≤ e.1 ∧ e.1 < (2 : Int) ^ 63)
      ∧ (-(2 : Int) ^ 63 ≤ e.2 ∧ e.2 < (2 : Int) ^ 63))
    (hnd : (m.map Prod.fst ++ l.map (fun e => Val.int e.1)).Nodup) :
    parseEntries h opts.keySep
        (fun piece => parseAt h opts Typ.int64 true piece (zero Typ.int64))
        (fun piece => parseAt h opts Typ.int64 true piece (zero Typ.int64))
        (l.map (fun e => strconv.FormatInt e.1 ++ [58] ++ strconv.FormatInt e.2)) m
      = .ok (m ++ l.map intEntry) := by
  induction l generalizing m with
  | nil => simp [parseEntries]
  | cons e rest ih =>
    obtain ⟨a, b⟩ := e
    have hr1 := hr (a, b) (List.mem_cons_self _ _)
    have hpa : parseAt h opts Typ.int64 true (strconv.FormatInt a) (zero Typ.int64)
        = (.int a, none) := by
      unfold Typ.int64
      rw [parseAt_leaf h _ _ _ _ _ _ _ hf hm]
      exact parseLeaf_int h _ _ _ _ _ rfl rfl hr1.1.1 hr1.1.2
    have hpb : parseAt h opts Typ.int64 true (strconv.FormatInt b) (zero Typ.int64)
        = (.int b, none) := by
      unfold Typ.int64
      rw [parseAt_leaf h _ _ _ _ _ _ _ hf hm]
      exact parseLeaf_int h _ _ _ _ _ rfl rfl hr1.2.1 hr1.2.2
    have hnew : ∀ e ∈ m, e.1 ≠ Val.int a := by
      intro e he heq
      rw [List.nodup_append] at hnd
      exact hnd.2.2 (List.mem_map_of_mem Prod.fst he) (by simp [heq])
    have hnd' : ((m ++ [(Val.int a, Val.int b)]).map Prod.fst
        ++ rest.map (fun e => Val.int e.1)).Nodup := by
      simpa [List.append_assoc] using hnd
    have ih' := ih (m ++ [(Val.int a, Val.int b)])
      (fun e he => hr e (List.mem_cons_of_mem _ he)) hnd'
    simp only [List.map_cons, parseEntries, hk, show runeToString 58 = [58] by decide,
      Split_pair, hpa, hpb, mapassign_int, SetMapIndex_append m _ _ hnew]
    rw [hk] at ih'
    rw [ih']
    simp [intEntry]

theorem strings.Join_cons_head (x : GoString) (xs : List GoString) (sep : GoString) :
    ∃ t, strings.Join (x :: xs) sep = x ++ t := by
  cases xs with
  | nil => exact ⟨[], by simp [strings.Join]⟩
  | cons y ys => exact ⟨sep ++ strings.Join (y :: ys) sep, by simp [strings.Join]⟩

/-- C4 (map round trip): with the default separators and no registered
functions, for every finite map from 64-bit signed integers to 64-bit signed
integers (given by its entries, with distinct keys; the empty map included),
`Stringify` succeeds and `Parse` of its result into a map target of the same
type succeeds and yields a map with the same entries. -/
theorem C4_map_round_trip (h : Host) (entries : List (Int × Int)) (old : Val)
    (hm : h.noMethods Typ.int64 = true)
    (hmm : h.noMethods (.map Typ.int64 Typ.int64) = true)
    (hnd : (entries.map Prod.fst).Nodup)
    (hr : ∀ e ∈ entries, (-(2 : Int) ^ 63 ≤ e.1 ∧ e.1 < (2 : Int) ^ 63)
      ∧ (-(2 : Int) ^ 63 ≤ e.2 ∧ e.2 < (2 : Int) ^ 63)) :
    ∃ s m, Stringify h (.map Typ.int64 Typ.int64) (.map (entries.map intEntry)) [] = .ok s
      ∧ Parse h s (.of (.map Typ.int64 Typ.int64) old true) []
        = (.of (.map Typ.int64 Typ.int64) (.map m) true, none)
      ∧ m.Perm (entries.map intEntry) := by
  have hb := buildOptions_nil_builtin h _ hmm
  have hf : (buildOptions []).funcs Typ.int64 = none := rfl
  have hstr : ∀ (full canAddr : Bool) (a : Int),
      stringifyAt h (buildOptions []) Typ.int64 full canAddr (.int a)
        = .ok (strconv.FormatInt a) := by
    intro full canAddr a
    unfold Typ.int64
    rw [stringifyAt_leaf h _ _ _ _ _ _ _ hf hm]
    exact stringifyLeaf_int h _ _ _ _ rfl rfl
  -- the pair strings, and the entries in the order of their sorted pair strings
  have hss : stringifyEntries h (buildOptions []).keySep
      (fun x => stringifyAt h (buildOptions []) Typ.int64 true false x)
      (fun x => stringifyAt h (buildOptions []) Typ.int64 true false x)
      (entries.map intEntry) ((entries.map intEntry).map Prod.fst)
      = .ok (entries.map (fun e => strconv.FormatInt e.1 ++ [58] ++ strconv.FormatInt e.2)) := by
    rw [stringifyEntries_map _ _ _ _ _ (distinctKeys_int h entries hnd)]
    · rw [List.map_map]
      congr 1
      apply List.map_congr_left
      intro e _
      simp only [Function.comp, intEntry, hstr, resultString]
      rfl
    · intro e he
      obtain ⟨e0, -, rfl⟩ := List.mem_map.mp he
      exact ⟨by simp [intEntry, keyEq], ⟨_, hstr _ _ _⟩, ⟨_, hstr _ _ _⟩⟩
  have hsorted : sort.Strings
      (entries.map (fun e => strconv.FormatInt e.1 ++ [58] ++ strconv.FormatInt e.2))
      = (List.insertionSort (fun a b : Int × Int =>
          sort.le (strconv.FormatInt a.1 ++ [58] ++ strconv.FormatInt a.2)
            (strconv.FormatInt b.1 ++ [58] ++ strconv.FormatInt b.2) = true) entries).map
          (fun e => strconv.FormatInt e.1 ++ [58] ++ strconv.FormatInt e.2) := by
    unfold sort.Strings
    exact (List.map_insertionSort
      (fun a b : Int × Int =>
        sort.le (strconv.FormatInt a.1 ++ [58] ++ strconv.FormatInt a.2)
          (strconv.FormatInt b.1 ++ [58] ++ strconv.FormatInt b.2) = true)
      (fun a b : GoString => sort.le a b = true)
      (fun e => strconv.FormatInt e.1 ++ [58] ++ strconv.FormatInt e.2) entries
      (fun a _ b _ => Iff.rfl)).symm
  generalize hse : List.insertionSort (fun a b : Int × Int =>
      sort.le (strconv.FormatInt a.1 ++ [58] ++ strconv.FormatInt a.2)
        (strconv.FormatInt b.1 ++ [58] ++ strconv.FormatInt b.2) = true) entries = se at hsorted
  have hperm : se.Perm entries := by
    rw [← hse]
    exact List.perm_insertionSort _ entries
  refine ⟨strings.Join
    (se.map (fun e => strconv.FormatInt e.1 ++ [58] ++ strconv.FormatInt e.2)) [59],
    se.map intEntry, ?_, ?_, hperm.map _⟩
  · rw [Stringify_nil, stringifyAt_map h _ _ _ _ _ _ _ hb hss, hsorted]
    rfl
  · rw [Parse_nil]
    show (Value.of _ (parseAt h (buildOptions []) (.map Typ.int64 Typ.int64) true
      (strings.Join (se.map _) [59]) old).1 true, _) = _
    cases se with
    | nil =>
      rw [parseAt_map_blank h _ _ _ _ _ _ hb (by decide)]
      rfl
    | cons e0 rest =>
      have hnb : (strings.TrimSpace (strings.Join ((e0 :: rest).map
          (fun e => strconv.FormatInt e.1 ++ [58] ++ strconv.FormatInt e.2)) [59])).length ≠ 0 := by
        obtain ⟨t, ht⟩ := strings.Join_cons_head
          (strconv.FormatInt e0.1 ++ [58] ++ strconv.FormatInt e0.2)
          (rest.map (fun e => strconv.FormatInt e.1 ++ [58] ++ strconv.FormatInt e.2)) [59]
        obtain ⟨c, cs, hcs, hc1, hc2⟩ := FormatInt_head e0.1
        rw [List.map_cons, ht, hcs]
        exact strings.TrimSpace_ne_nil c _ ⟨hc1, hc2⟩
      have hsplit : strings.Split (strings.Join ((e0 :: rest).map
          (fun e => strconv.FormatInt e.1 ++ [58] ++ strconv.FormatInt e.2)) [59])
          (runeToString (buildOptions []).elemSep)
          = (e0 :: rest).map
            (fun e => strconv.FormatInt e.1 ++ [58] ++ strconv.FormatInt e.2) := by
        rw [show runeToString (buildOptions []).elemSep = [59] by decide]
        apply strings.Split_Join [59] (by decide) _ (by simp)
        intro x hx
        obtain ⟨e, -, rfl⟩ := List.mem_map.mp hx
        rw [singleton_infix_iff]
        intro hmem
        simp only [List.mem_append, List.mem_singleton] at hmem
        rcases hmem with (h1 | h1) | h1
        · have := FormatInt_mem _ _ h1
          omega
        · omega
        · have := FormatInt_mem _ _ h1
          omega
      have hnd' : ((([] : List (Val × Val)).map Prod.fst)
          ++ (e0 :: rest).map (fun e => Val.int e.1)).Nodup := by
        rw [List.map_nil, List.nil_append]
        have h1 : ((e0 :: rest).map Prod.fst).Nodup := (hperm.map Prod.fst).nodup_iff.mpr hnd
        have h2 := h1.map (f := Val.int) (fun a b hab => by simpa using hab)
        simpa [List.map_map] using h2
      have hpe := parseEntries_int h (buildOptions []) rfl hf hm (e0 :: rest) []
        (fun e he => hr e (hperm.mem_iff.mp he)) hnd'
      rw [← hsplit] at hpe
      rw [parseAt_map_ok h _ _ _ _ _ _ _ hb hnb hpe]
      rfl

/-- Witness of C4: a map of three entries, enumerated out of order, and a
target that held another map. -/
theorem C4_map_round_trip_witness :
    ∃ s m, Stringify Host.bare (.map Typ.int64 Typ.int64)
          (.map ([(2, -5), (10, 7), (-1, 0)].map intEntry)) [] = .ok s
      ∧ Parse Host.bare s (.of (.map Typ.int64 Typ.int64) (.map [(.int 3, .int 3)]) true) []
        = (.of (.map Typ.int64 Typ.int64) (.map m) true, none)
      ∧ m.Perm ([(2, -5), (10, 7), (-1, 0)].map intEntry) :=
  C4_map_round_trip Host.bare [(2, -5), (10, 7), (-1, 0)] (.map [(.int 3, .int 3)])
    (by decide) (by decide) (by decide) (by decide)

theorem stringifyAt_registered (h : Host) (opts : Options) (typ : Typ) (canAddr : Bool)
    (v : Val) (f : Val → GoString × Option Err)
    (hreg : opts.funcs typ = some (.stringifier f)) :
    stringifyAt h opts typ true canAddr v = fnResult (f v) := by
  cases typ <;> simp only [stringifyAt, stringifyPre, hreg, fnResult, if_true] <;>
    rcases f v with ⟨out, _ | err⟩ <;> rfl

theorem stringifySeq_fail (h : Host) (g : Val → Except Fault GoString) (front back : List Val)
    (x : Val) (e : Err) (i : Nat) (hfront : ∀ y ∈ front, ∃ s, g y = .ok s)
    (hx : g x = .error (.error e)) :
    stringifySeq h g (front ++ x :: back) i
      = .error (.error (.wrap (str "error stringifying slice item of index "
          ++ strconv.FormatInt (Int.ofNat (i + front.length)) ++ str ": " ++ e.Error h.quote) e)) := by
  induction front generalizing i with
  | nil => simp [stringifySeq, hx]
  | cons y rest ih =>
    obtain ⟨s, hs⟩ := hfront y (List.mem_cons_self _ _)
    have ih' := ih (i + 1) (fun z hz => hfront z (List.mem_cons_of_mem _ hz))
    have hlen : i + (y :: rest).length = i + 1 + rest.length := by
      simp only [List.length_cons]
      omega
    rw [hlen, List.cons_append, stringifySeq.eq_2]
    simp only [hs]
    rw [ih']

theorem stringifyEntries_fail_key (h : Host) (keySep : Int)
    (fk fv : Val → Except Fault GoString) (m front : List (Val × Val)) (back : List Val)
    (k : Val) (e : Err)
    (hfront : ∀ p ∈ front, mapaccess h m p.1 = some p.2
      ∧ (∃ s, fk p.1 = .ok s) ∧ (∃ s, fv p.2 = .ok s))
    (hk : fk k = .error (.error e)) :
    stringifyEntries h keySep fk fv m (front.map Prod.fst ++ k :: back)
      = .error (.error (.wrap (str "error stringifying key " ++ h.formatValue k
          ++ str " of map: " ++ e.Error h.quote) e)) := by
  induction front with
  | nil => simp [stringifyEntries, hk]
  | cons p rest ih =>
    obtain ⟨k1, x1⟩ := p
    obtain ⟨hma, ⟨s1, hs1⟩, ⟨s2, hs2⟩⟩ := hfront (k1, x1) (List.mem_cons_self _ _)
    have ih' := ih (fun z hz => hfront z (List.mem_cons_of_mem _ hz))
    simp only at hs1 hs2 hma
    rw [List.map_cons, List.cons_append, stringifyEntries.eq_2]
    simp only [hs1, hs2, hma]
    rw [ih']

theorem stringifyEntries_fail_value (h : Host) (keySep : Int)
    (fk fv : Val → Except Fault GoString) (m front : List (Val × Val)) (back : List Val)
    (k x : Val) (e : Err) (sk : GoString)
    (hfront : ∀ p ∈ front, mapaccess h m p.1 = some p.2
      ∧ (∃ s, fk p.1 = .ok s) ∧ (∃ s, fv p.2 = .ok s))
    (hk : fk k = .ok sk) (hm : mapaccess h m k = some x) (hx : fv x = .error (.error e)) :
    stringifyEntries h keySep fk fv m (front.map Prod.fst ++ k :: back)
      = .error (.error (.wrap (str "error stringifying map value with key " ++ sk
          ++ str ": " ++ e.Error h.quote) e)) := by
  induction front with
  | nil => simp [stringifyEntries, hk, hm, hx]
  | cons p rest ih =>
    obtain ⟨k1, x1⟩ := p
    obtain ⟨hma, ⟨s1, hs1⟩, ⟨s2, hs2⟩⟩ := hfront (k1, x1) (List.mem_cons_self _ _)
    have ih' := ih (fun z hz => hfront z (List.mem_cons_of_mem _ hz))
    simp only at hs1 hs2 hma
    rw [List.map_cons, List.cons_append, stringifyEntries.eq_2]
    simp only [hs1, hs2, hma]
    rw [ih']

theorem isOk_ok (r : Except Fault GoString) (hr : r.isOk = true) : r = .ok (resultString r) := by
  cases r with
  | ok s => rfl
  | error err => simp [Except.isOk, Except.toBool] at hr

theorem stringifyAt_slice_fail (h : Host) (opts : Options) (e : Typ) (full canAddr : Bool)
    (xs : List Val) (err : Fault) (hb : builtin h opts (.slice e) = true)
    (he : e.Kind ≠ .Uint8)
    (hss : stringifySeq h (fun x => stringifyAt h opts e true true x) xs 0 = .error err) :
    stringifyAt h opts (.slice e) full canAddr (.list xs) = .error err := by
  have := stringifyPre_builtin h opts (.slice e) canAddr (.list xs) hb
  cases full <;> simp [stringifyAt, this, hss, he]

theorem stringifyAt_array_fail (h : Host) (opts : Options) (n : Nat) (e : Typ)
    (full canAddr : Bool) (xs : List Val) (err : Fault)
    (hb : builtin h opts (.array n e) = true) (he : e.Kind ≠ .Uint8)
    (hss : stringifySeq h (fun x => stringifyAt h opts e true canAddr x) xs 0 = .error err) :
    stringifyAt h opts (.array n e) full canAddr (.list xs) = .error err := by
  have := stringifyPre_builtin h opts (.array n e) canAddr (.list xs) hb
  cases full <;> simp [stringifyAt, this, hss, he]

theorem stringifyAt_map_fail (h : Host) (opts : Options) (kt et : Typ) (full canAddr : Bool)
    (entries : List (Val × Val)) (err : Fault) (hb : builtin h opts (.map kt et) = true)
    (hss : stringifyEntries h opts.keySep (fun x => stringifyAt h opts kt true false x)
            (fun x => stringifyAt h opts et true false x) entries (entries.map Prod.fst)
          = .error err) :
    stringifyAt h opts (.map kt et) full canAddr (.map entries) = .error err := by
  have := stringifyPre_builtin h opts (.map kt et) canAddr (.map entries) hb
  cases full <;> simp [stringifyAt, this, hss]

theorem fnResult_ok (r : GoString × Option Err) (hr : r.2 = none) : fnResult r = .ok r.1 := by
  simp [fnResult, hr]

theorem fnResult_error (r : GoString × Option Err) (e : Err) (hr : r.2 = some e) :
    fnResult r = .error (.error e) := by
  simp [fnResult, hr]

/-- C11, as stated, fails: the error `e` of a stringifier registered for
the element type of a slice is not returned as it is, it comes back wrapped
in the error `error stringifying slice item of index 0: ...`. -/
theorem C11_counterexample :
    Stringify Host.bare (.slice Typ.int64) (.list [.int 1])
        [WithStringifier Typ.int64 (fun _ => ([], some (.new 7 (str "boom"))))]
      = .error (.error (.wrap (str "error stringifying slice item of index 0: boom")
          (.new 7 (str "boom"))))
    ∧ Stringify Host.bare (.slice Typ.int64) (.list [.int 1])
        [WithStringifier Typ.int64 (fun _ => ([], some (.new 7 (str "boom"))))]
      ≠ .error (.error (.new 7 (str "boom"))) := by
  decide

/-- C11, amended (propagation of the errors of a registered stringifier):
when the stringifier `f` registered for `T` returns the error `e` for the
value `v`, `Stringify` of `v` returns exactly `e`; when `v` is the first
failing element of a slice or array of `T`, the first failing key of a map
from `T` to any type `V`, or the first failing value of a map from any type
`K` to `T`, `Stringify` returns an error made by `fmt.Errorf` with `%w` that
wraps `e`, with the message that names the index or the key in front of the
message of `e`. The keys of a map are pairwise different, and the keys up to
the failing entry are equal to themselves (none is a NaN). -/
theorem C11_error_propagation (h : Host) (optFns : List (Options → Options)) (T K V : Typ)
    (f : Val → GoString × Option Err) (v k x : Val) (e : Err) (n : Nat)
    (front back : List Val) (kfront kback vfront vback : List (Val × Val))
    (hsaved : (buildOptions optFns).savedErr = none)
    (hreg : (buildOptions optFns).funcs T = some (.stringifier f))
    (hv : (f v).2 = some e)
    (hfront : ∀ y ∈ front, (f y).2 = none)
    (hT : T.Kind ≠ .Uint8)
    (hbs : builtin h (buildOptions optFns) (.slice T) = true)
    (hba : builtin h (buildOptions optFns) (.array n T) = true)
    (hbk : builtin h (buildOptions optFns) (.map T V) = true)
    (hkd : distinctKeys h (kfront ++ (v, x) :: kback) = true)
    (hkfront : ∀ p ∈ kfront, keyEq h p.1 p.1 = true ∧ (f p.1).2 = none
      ∧ (Stringify h V p.2 optFns).isOk = true)
    (hbv : builtin h (buildOptions optFns) (.map K T) = true)
    (hvd : distinctKeys h (vfront ++ (k, v) :: vback) = true)
    (hvfront : ∀ p ∈ vfront, keyEq h p.1 p.1 = true
      ∧ (Stringify h K p.1 optFns).isOk = true ∧ (f p.2).2 = none)
    (hk : keyEq h k k = true ∧ (Stringify h K k optFns).isOk = true) :
    Stringify h T v optFns = .error (.error e)
    ∧ Stringify h (.slice T) (.list (front ++ v :: back)) optFns
      = .error (.error (.wrap (str "error stringifying slice item of index "
          ++ strconv.FormatInt (Int.ofNat front.length) ++ str ": " ++ e.Error h.quote) e))
    ∧ Stringify h (.array n T) (.list (front ++ v :: back)) optFns
      = .error (.error (.wrap (str "error stringifying slice item of index "
          ++ strconv.FormatInt (Int.ofNat front.length) ++ str ": " ++ e.Error h.quote) e))
    ∧ Stringify h (.map T V) (.map (kfront ++ (v, x) :: kback)) optFns
      = .error (.error (.wrap (str "error stringifying key " ++ h.formatValue v
          ++ str " of map: " ++ e.Error h.quote) e))
    ∧ Stringify h (.map K T) (.map (vfront ++ (k, v) :: vback)) optFns
      = .error (.error (.wrap (str "error stringifying map value with key "
          ++ resultString (Stringify h K k optFns) ++ str ": " ++ e.Error h.quote) e)) := by
  have hat : ∀ (canAddr : Bool) (y : Val),
      stringifyAt h (buildOptions optFns) T true canAddr y = fnResult (f y) :=
    fun canAddr y => stringifyAt_registered h _ T canAddr y f hreg
  have hfr : ∀ canAddr : Bool, ∀ y ∈ front,
      ∃ s, (fun z => stringifyAt h (buildOptions optFns) T true canAddr z) y = .ok s :=
    fun canAddr y hy => ⟨_, (hat canAddr y).trans (fnResult_ok _ (hfront y hy))⟩
  have hfail : ∀ canAddr : Bool,
      (fun z => stringifyAt h (buildOptions optFns) T true canAddr z) v = .error (.error e) :=
    fun canAddr => (hat canAddr v).trans (fnResult_error _ e hv)
  have hok : ∀ (U : Typ) (y : Val), (Stringify h U y optFns).isOk = true →
      stringifyAt h (buildOptions optFns) U true false y
        = .ok (resultString (Stringify h U y optFns)) := by
    intro U y hy
    have := isOk_ok _ hy
    rw [Stringify_of_saved _ _ _ _ hsaved] at this ⊢
    exact this
  have hkfr : ∀ p ∈ kfront,
      mapaccess h (kfront ++ (v, x) :: kback) p.1 = some p.2
      ∧ (∃ s, (fun z => stringifyAt h (buildOptions optFns) T true false z) p.1 = .ok s)
      ∧ (∃ s, (fun z => stringifyAt h (buildOptions optFns) V true false z) p.2 = .ok s) :=
    fun p hp => ⟨mapaccess_mem h _ p.1 p.2 hkd (List.mem_append_left _ hp) (hkfront p hp).1,
      ⟨_, (hat false p.1).trans (fnResult_ok _ (hkfront p hp).2.1)⟩,
      ⟨_, hok V p.2 (hkfront p hp).2.2⟩⟩
  have hvfr : ∀ p ∈ vfront,
      mapaccess h (vfront ++ (k, v) :: vback) p.1 = some p.2
      ∧ (∃ s, (fun z => stringifyAt h (buildOptions optFns) K true false z) p.1 = .ok s)
      ∧ (∃ s, (fun z => stringifyAt h (buildOptions optFns) T true false z) p.2 = .ok s) :=
    fun p hp => ⟨mapaccess_mem h _ p.1 p.2 hvd (List.mem_append_left _ hp) (hvfront p hp).1,
      ⟨_, hok K p.1 (hvfront p hp).2.1⟩,
      ⟨_, (hat false p.2).trans (fnResult_ok _ (hvfront p hp).2.2)⟩⟩
  have hkv : mapaccess h (vfront ++ (k, v) :: vback) k = some v :=
    mapaccess_mem h _ k v hvd (List.mem_append_right _ (List.mem_cons_self _ _)) hk.1
  refine ⟨?_, ?_, ?_, ?_, ?_⟩
  · rw [Stringify_of_saved _ _ _ _ hsaved, hat, fnResult_error _ e hv]
  · have hseq := stringifySeq_fail h _ front back v e 0 (hfr true) (hfail true)
    rw [Nat.zero_add] at hseq
    rw [Stringify_of_saved _ _ _ _ hsaved, stringifyAt_slice_fail h _ _ _ _ _ _ hbs hT hseq]
  · have hseq := stringifySeq_fail h _ front back v e 0 (hfr false) (hfail false)
    rw [Nat.zero_add] at hseq
    rw [Stringify_of_saved _ _ _ _ hsaved, stringifyAt_array_fail h _ _ _ _ _ _ _ hba hT hseq]
  · have hent := stringifyEntries_fail_key h (buildOptions optFns).keySep _ _
      (kfront ++ (v, x) :: kback) kfront (kback.map Prod.fst) v e hkfr (hfail false)
    have hkeys : (kfront ++ (v, x) :: kback).map Prod.fst
        = kfront.map Prod.fst ++ v :: kback.map Prod.fst := by simp
    rw [← hkeys] at hent
    rw [Stringify_of_saved _ _ _ _ hsaved, stringifyAt_map_fail h _ _ _ _ _ _ _ hbk hent]
  · have hent := stringifyEntries_fail_value h (buildOptions optFns).keySep _ _
      (vfront ++ (k, v) :: vback) vfront (vback.map Prod.fst) k v e
      (resultString (Stringify h K k optFns)) hvfr (hok K k hk.2) hkv (hfail false)
    have hkeys : (vfront ++ (k, v) :: vback).map Prod.fst
        = vfront.map Prod.fst ++ k :: vback.map Prod.fst := by simp
    rw [← hkeys] at hent
    rw [Stringify_of_saved _ _ _ _ hsaved, stringifyAt_map_fail h _ _ _ _ _ _ _ hbv hent]

/-- Witness of C11 (amended): a stringifier for `int64` that fails for the
value 2 only, at the top level, in a slice, as a key of a map to strings and
as a value of a map from strings. -/
theorem C11_error_propagation_witness :
    Stringify Host.bare Typ.int64 (.int 2)
        [WithStringifier Typ.int64 (fun y => if y = Val.int 2
          then ([], some (.new 7 (str "boom"))) else (str "ok", none))]
      = .error (.error (.new 7 (str "boom")))
    ∧ Stringify Host.bare (.slice Typ.int64) (.list ([.int 1] ++ .int 2 :: [.int 3]))
        [WithStringifier Typ.int64 (fun y => if y = Val.int 2
          then ([], some (.new 7 (str "boom"))) else (str "ok", none))]
      = .error (.error (.wrap (str "error stringifying slice item of index 1: boom")
          (.new 7 (str "boom"))))
    ∧ Stringify Host.bare (.map Typ.int64 Typ.string)
        (.map ([(.int 1, .string (str "a"))] ++ (.int 2, .string (str "b")) :: []))
        [WithStringifier Typ.int64 (fun y => if y = Val.int 2
          then ([], some (.new 7 (str "boom"))) else (str "ok", none))]
      = .error (.error (.wrap (str "error stringifying key  of map: boom")
          (.new 7 (str "boom"))))
    ∧ Stringify Host.bare (.map Typ.string Typ.int64)
        (.map ([(.string (str "j"), .int 1)] ++ (.string (str "k"), .int 2) :: []))
        [WithStringifier Typ.int64 (fun y => if y = Val.int 2
          then ([], some (.new 7 (str "boom"))) else (str "ok", none))]
      = .error (.error (.wrap (str "error stringifying map value with key k: boom")
          (.new 7 (str "boom")))) :=
  have w := C11_error_propagation Host.bare
      [WithStringifier Typ.int64 (fun y => if y = Val.int 2
        then ([], some (.new 7 (str "boom"))) else (str "ok", none))]
      Typ.int64 Typ.string Typ.string (fun y => if y = Val.int 2
        then ([], some (.new 7 (str "boom"))) else (str "ok", none))
      (.int 2) (.string (str "k")) (.string (str "b")) (.new 7 (str "boom")) 3
      [.int 1] [.int 3] [(.int 1, .string (str "a"))] [] [(.string (str "j"), .int 1)] []
      rfl rfl (by decide) (by decide) (by decide) (by decide) (by decide) (by decide)
      (by decide) (by decide) (by decide) (by decide) (by decide) (by decide)
  ⟨w.1, w.2.1, w.2.2.2.1, w.2.2.2.2⟩

/-- After `stringify` has dereferenced a pointer it continues at the kind
switch: for a pointee type without registered function and without methods
that is not a pointer or an array, this is what `stringify` does for the
pointee itself. -/
theorem stringifyAt_continue (h : Host) (opts : Options) (T : Typ) (x : Val)
    (hT : builtin h opts T = true)
    (hshape : isPtrOrArray T = false) :
    stringifyAt h opts T false true x = stringifyAt h opts T true false x := by
  have hpre := stringifyPre_builtin h opts T false x hT
  cases T with
  | leaf p n k => simp [stringifyAt, hpre]
  | ptr e => simp [isPtrOrArray] at hshape
  | slice e => simp [stringifyAt, hpre]
  | array n e => simp [isPtrOrArray] at hshape
  | map kt et => simp [stringifyAt, hpre]

/-- C12, as stated, fails: with a stringifier registered for `int64`,
`Stringify` of a pointer to 10 is the built-in `10`, not the registered
function's `custom`; and `Stringify` of a pointer to a pointer fails with
`unsupported field type ptr` while `Stringify` of the pointee succeeds. -/
theorem C12_counterexample :
    Stringify Host.bare (.ptr Typ.int64) (.ptr (.int 10))
        [WithStringifier Typ.int64 (fun _ => (str "custom", none))] = .ok (str "10")
    ∧ Stringify Host.bare Typ.int64 (.int 10)
        [WithStringifier Typ.int64 (fun _ => (str "custom", none))] = .ok (str "custom")
    ∧ Stringify Host.bare (.ptr (.ptr Typ.int64)) (.ptr (.ptr (.int 10))) []
      = .error (.error (.errorf (str "unsupported field type ptr")))
    ∧ Stringify Host.bare (.ptr Typ.int64) (.ptr (.int 10)) [] = .ok (str "10") := by
  decide

/-- C12, amended (pointer dereference): for every options value and every
non-nil pointer `p` to a value `x` of a type `T` that is not a pointer or an
array, with no stringifier registered for the pointer type or for `T` and no
marshal method on either, `Stringify` of `p` equals `Stringify` of `x`: the
dereferenced value continues at the built-in kind handling. -/
theorem C12_pointer_dereference (h : Host) (optFns : List (Options → Options)) (T : Typ)
    (x : Val) (hP : builtin h (buildOptions optFns) (.ptr T) = true)
    (hT : builtin h (buildOptions optFns) T = true)
    (hshape : isPtrOrArray T = false) :
    Stringify h (.ptr T) (.ptr x) optFns = Stringify h T x optFns := by
  cases hs : (buildOptions optFns).savedErr with
  | some err => simp [Stringify, hs]
  | none =>
    have hpre := stringifyPre_builtin h (buildOptions optFns) (.ptr T) false (.ptr x) hP
    rw [Stringify_of_saved _ _ _ _ hs, Stringify_of_saved _ _ _ _ hs]
    simp only [stringifyAt, hpre, if_true]
    exact stringifyAt_continue h _ T x hT hshape

/-- Witness of C12 (amended): a pointer to the `int64` value 10 and a
pointer to a slice of strings. -/
theorem C12_pointer_dereference_witness :
    Stringify Host.bare (.ptr Typ.int64) (.ptr (.int 10)) []
      = Stringify Host.bare Typ.int64 (.int 10) []
    ∧ Stringify Host.bare (.ptr (.slice Typ.string)) (.ptr (.list [.string (str "a")]))
        [WithElementSeparator 44]
      = Stringify Host.bare (.slice Typ.string) (.list [.string (str "a")])
        [WithElementSeparator 44] :=
  ⟨C12_pointer_dereference Host.bare [] Typ.int64 (.int 10) (by decide) (by decide) rfl,
    C12_pointer_dereference Host.bare [WithElementSeparator 44] (.slice Typ.string)
      (.list [.string (str "a")]) (by decide) (by decide) rfl⟩

theorem parseAt_ptr (h : Host) (opts : Options) (e : Typ) (s : GoString) (v : Val)
    (hb : builtin h opts (.ptr e) = true) :
    parseAt h opts (.ptr e) true s v
      = (.ptr (parseAt h opts e false s (pointee e v)).1,
          (parseAt h opts e false s (pointee e v)).2) := by
  have := parsePre_builtin h opts (.ptr e) s v hb
  simp [parseAt, this]

theorem ParseInt_nil (bitSize : Nat) :
    strconv.ParseInt [] 0 bitSize = (0, some ⟨"ParseInt", [], .ErrSyntax⟩) := rfl

theorem ParseUint_nil (bitSize : Nat) :
    strconv.ParseUint [] 0 bitSize = (0, some ⟨"ParseUint", [], .ErrSyntax⟩) := rfl

theorem parseLeaf_int_nil (h : Host) (pkgPath name : String) (k : LeafKind) (v : Val)
    (hk : isSignedKind k = true ∨ isUnsignedKind k = true)
    (hd : isDuration pkgPath name k = false) :
    parseLeaf h pkgPath name k [] v
      = (v, some (.error (.num ⟨if isSignedKind k then "ParseInt" else "ParseUint", [],
          .ErrSyntax⟩))) := by
  simp only [isDuration, decide_eq_false_iff_not] at hd
  cases k <;> simp_all [parseLeaf, isSignedKind, isUnsignedKind, ParseInt_nil, ParseUint_nil]

/-- C13 (nil/optional asymmetry): with no registered functions, `Stringify`
of a nil pointer returns the empty string and no error, but `Parse` of the
empty string into a nil pointer target never leaves the target nil: the
target points to a fresh pointee into which the empty string was parsed, so a
pointer-to-string target ends as a non-nil pointer to the empty string, and
for a pointer-to-integer target `Parse` returns the numeric syntax error (and
the target points to the fresh zero). -/
theorem C13_nil_asymmetry (h : Host) (T : Typ) (ps ns pi ni : String) (ki : LeafKind)
    (hT : h.noMethods (.ptr T) = true)
    (hS : h.noMethods (.ptr (.leaf ps ns .String)) = true)
    (hI : h.noMethods (.ptr (.leaf pi ni ki)) = true)
    (hk : isSignedKind ki = true ∨ isUnsignedKind ki = true)
    (hd : isDuration pi ni ki = false) :
    Stringify h (.ptr T) .nil [] = .ok []
    ∧ (∃ x, (Parse h [] (.of (.ptr T) .nil true) []).1 = .of (.ptr T) (.ptr x) true)
    ∧ Parse h (resultString (Stringify h (.ptr (.leaf ps ns .String)) .nil []))
        (.of (.ptr (.leaf ps ns .String)) .nil true) []
      = (.of (.ptr (.leaf ps ns .String)) (.ptr (.string [])) true, none)
    ∧ Parse h (resultString (Stringify h (.ptr (.leaf pi ni ki)) .nil []))
        (.of (.ptr (.leaf pi ni ki)) .nil true) []
      = (.of (.ptr (.leaf pi ni ki)) (.ptr (zero (.leaf pi ni ki))) true,
          some (.error (.num ⟨if isSignedKind ki then "ParseInt" else "ParseUint", [],
            .ErrSyntax⟩))) := by
  have hnil : ∀ U : Typ, h.noMethods (.ptr U) = true → Stringify h (.ptr U) .nil [] = .ok [] := by
    intro U hU
    have hpre := stringifyPre_builtin h (buildOptions []) (.ptr U) false .nil
      (buildOptions_nil_builtin h _ hU)
    rw [Stringify_nil]
    simp [stringifyAt, hpre]
  refine ⟨hnil T hT, ?_, ?_, ?_⟩
  · rw [Parse_nil, parseAt_ptr h _ _ _ _ (buildOptions_nil_builtin h _ hT)]
    exact ⟨_, rfl⟩
  · rw [hnil _ hS, Parse_nil, parseAt_ptr h _ _ _ _ (buildOptions_nil_builtin h _ hS)]
    rfl
  · rw [hnil _ hI, Parse_nil, parseAt_ptr h _ _ _ _ (buildOptions_nil_builtin h _ hI)]
    simp only [resultString, parseAt, if_false, parseLeaf_int_nil h pi ni ki _ hk hd]
    rfl

/-- Witness of C13: nil pointers to `bool`, `string` and `int64` with the
bare host. -/
theorem C13_nil_asymmetry_witness :
    Stringify Host.bare (.ptr Typ.bool) .nil [] = .ok []
    ∧ (∃ x, (Parse Host.bare [] (.of (.ptr Typ.bool) .nil true) []).1
        = .of (.ptr Typ.bool) (.ptr x) true)
    ∧ Parse Host.bare (resultString (Stringify Host.bare (.ptr Typ.string) .nil []))
        (.of (.ptr Typ.string) .nil true) []
      = (.of (.ptr Typ.string) (.ptr (.string [])) true, none)
    ∧ Parse Host.bare (resultString (Stringify Host.bare (.ptr Typ.int64) .nil []))
        (.of (.ptr Typ.int64) .nil true) []
      = (.of (.ptr Typ.int64) (.ptr (.int 0)) true,
          some (.error (.num ⟨"ParseInt", [], .ErrSyntax⟩))) :=
  C13_nil_asymmetry Host.bare Typ.bool "" "string" "" "int64" .Int64
    (by decide) (by decide) (by decide) (by decide) (by decide)

/-- C14, evaluated: `Parse` into an addressable target of a struct type,
with no registered parser and no unmarshal method, returns nil and leaves the
target as it is, where its documentation promises an error. -/
theorem C14_parse_unsupported_returns_nil :
    Parse Host.bare (str "x") (.of (.leaf "main" "S" .Struct) (.other 0) true) []
      = (.of (.leaf "main" "S" .Struct) (.other 0) true, none)
    ∧ Stringify Host.bare (.leaf "main" "S" .Struct) (.other 0) []
      = .error (.error (.errorf (str "unsupported field type struct"))) := by
  decide

/-- C15, as stated, fails: `Stringify` of a nil pointer to a struct
returns the empty string and no error. -/
theorem C15_counterexample :
    Stringify Host.bare (.ptr (.leaf "main" "S" .Struct)) .nil [] = .ok []
    ∧ Stringify Host.bare (.ptr (.leaf "main" "S" .Struct)) .nil []
      ≠ .error (.error (.errorf (str "unsupported field type struct"))) := by
  decide

/-- C15, amended (unsupported kinds in `Stringify`): for every value of
kind struct, interface, chan, func, uintptr or unsafe pointer, and for every
non-nil pointer to such a value or to a pointer, with no registered
stringifier and no marshal method, `Stringify` returns an error whose message
is `unsupported field type` followed by the name of the kind (`ptr` for a
pointer to a pointer). -/
theorem C15_stringify_unsupported (h : Host) (optFns : List (Options → Options))
    (pkgPath name : String) (k : LeafKind) (U : Typ) (v w : Val)
    (hsaved : (buildOptions optFns).savedErr = none) (hk : isUnsupportedKind k = true)
    (hT : builtin h (buildOptions optFns) (.leaf pkgPath name k) = true)
    (hP : builtin h (buildOptions optFns) (.ptr (.leaf pkgPath name k)) = true)
    (hPP : builtin h (buildOptions optFns) (.ptr (.ptr U)) = true) :
    Stringify h (.leaf pkgPath name k) v optFns
      = .error (.error (.errorf (str "unsupported field type " ++ k.toKind.name)))
    ∧ Stringify h (.ptr (.leaf pkgPath name k)) (.ptr v) optFns
      = .error (.error (.errorf (str "unsupported field type " ++ k.toKind.name)))
    ∧ Stringify h (.ptr (.ptr U)) (.ptr w) optFns
      = .error (.error (.errorf (str "unsupported field type " ++ Kind.Pointer.name)))
    ∧ (Err.errorf (str "unsupported field type " ++ k.toKind.name)).Error h.quote
      = str "unsupported field type " ++ k.toKind.name := by
  have hleaf : ∀ x : Val, stringifyLeaf h pkgPath name k x
      = .error (.error (.errorf (str "unsupported field type " ++ k.toKind.name))) := by
    intro x
    cases k <;> simp [isUnsupportedKind] at hk <;> simp [stringifyLeaf, unsupported]
  refine ⟨?_, ?_, ?_, rfl⟩
  · rw [Stringify_of_saved _ _ _ _ hsaved]
    simp only [stringifyAt, stringifyPre_builtin h _ _ _ _ hT, if_true, hleaf]
  · rw [Stringify_of_saved _ _ _ _ hsaved]
    simp only [stringifyAt, stringifyPre_builtin h _ _ _ _ hP, if_true, if_false, hleaf]
    rfl
  · rw [Stringify_of_saved _ _ _ _ hsaved]
    simp only [stringifyAt, stringifyPre_builtin h _ _ _ _ hPP, if_true, if_false]
    rfl

/-- Witness of C15 (amended): a struct, a pointer to it and a pointer to a
pointer to an `int64`. -/
theorem C15_stringify_unsupported_witness :
    Stringify Host.bare (.leaf "main" "S" .Struct) (.other 0) []
      = .error (.error (.errorf (str "unsupported field type struct")))
    ∧ Stringify Host.bare (.ptr (.leaf "main" "S" .Struct)) (.ptr (.other 0)) []
      = .error (.error (.errorf (str "unsupported field type struct")))
    ∧ Stringify Host.bare (.ptr (.ptr Typ.int64)) (.ptr (.ptr (.int 10))) []
      = .error (.error (.errorf (str "unsupported field type ptr")))
    ∧ (Err.errorf (str "unsupported field type struct")).Error Host.bare.quote
      = str "unsupported field type struct" :=
  C15_stringify_unsupported Host.bare [] "main" "S" .Struct Typ.int64 (.other 0)
    (.ptr (.int 10)) rfl (by decide) (by decide) (by decide) (by decide)

theorem parseAt_string (h : Host) (opts : Options) (full : Bool) (s : GoString) (v : Val)
    (hf : opts.funcs Typ.string = none) (hm : h.noMethods Typ.string = true) :
    parseAt h opts Typ.string full s v = (.string s, none) := by
  unfold Typ.string at hf hm ⊢
  rw [parseAt_leaf h _ _ _ _ _ _ _ hf hm]
  rfl

theorem parseEntries_good (h : Host) (keySep : Int) (fk fv : GoString → Val × Option Fault)
    (hk : ∀ p, fk p = (.string p, none)) (hv : ∀ p, fv p = (.string p, none))
    (pieces : List GoString) (m : List (Val × Val))
    (hgood : pieces.find? (badPiece (runeToString keySep)) = none) :
    parseEntries h keySep fk fv pieces m
      = .ok (insertPieces (runeToString keySep) pieces m) := by
  induction pieces generalizing m with
  | nil => rfl
  | cons p rest ih =>
    rw [List.find?_cons] at hgood
    cases hb : badPiece (runeToString keySep) p with
    | true => simp [hb] at hgood
    | false =>
      simp only [hb] at hgood
      have ih' := ih (SetMapIndex m (.string (pairOf (runeToString keySep) p).1)
        (.string (pairOf (runeToString keySep) p).2)) hgood
      simp only [badPiece, decide_eq_false_iff_not, not_not] at hb
      rcases hsp : strings.Split p (runeToString keySep) with
        _ | ⟨a, _ | ⟨b, _ | ⟨c, l⟩⟩⟩
      · simp [hsp] at hb
      · simp [hsp] at hb
      · simp only [pairOf, hsp] at ih'
        simp only [parseEntries, hsp, hk, hv, mapassign_string, ih']
        simp [insertPieces, pairOf, hsp]
      · simp [hsp] at hb

theorem parseEntries_bad (h : Host) (keySep : Int) (fk fv : GoString → Val × Option Fault)
    (hk : ∀ p, fk p = (.string p, none)) (hv : ∀ p, fv p = (.string p, none))
    (pieces : List GoString) (m : List (Val × Val)) (piece : GoString)
    (hbad : pieces.find? (badPiece (runeToString keySep)) = some piece) :
    parseEntries h keySep fk fv pieces m
      = .error (.error (.errorf (str "invalid map item: " ++ h.quote piece))) := by
  induction pieces generalizing m with
  | nil => simp at hbad
  | cons p rest ih =>
    rw [List.find?_cons] at hbad
    cases hb : badPiece (runeToString keySep) p with
    | true =>
      simp only [hb, Option.some.injEq] at hbad
      subst hbad
      simp only [badPiece, decide_eq_true_eq] at hb
      rcases hsp : strings.Split p (runeToString keySep) with
        _ | ⟨a, _ | ⟨b, _ | ⟨c, l⟩⟩⟩
      · simp [parseEntries, hsp]
      · simp [parseEntries, hsp]
      · simp [hsp] at hb
      · simp [parseEntries, hsp]
    | false =>
      simp only [hb] at hbad
      simp only [badPiece, decide_eq_false_iff_not, not_not] at hb
      rcases hsp : strings.Split p (runeToString keySep) with
        _ | ⟨a, _ | ⟨b, _ | ⟨c, l⟩⟩⟩
      · simp [hsp] at hb
      · simp [hsp] at hb
      · simp only [parseEntries, hsp, hk, hv]
        exact ih _ hbad
      · simp [hsp] at hb

theorem parseAt_map_fail (h : Host) (opts : Options) (kt et : Typ) (full : Bool) (s : GoString)
    (v : Val) (err : Fault) (hb : builtin h opts (.map kt et) = true)
    (hs : (strings.TrimSpace s).length ≠ 0)
    (hm : parseEntries h opts.keySep (fun piece => parseAt h opts kt true piece (zero kt))
      (fun piece => parseAt h opts et true piece (zero et))
      (strings.Split s (runeToString opts.elemSep)) [] = .error err) :
    parseAt h opts (.map kt et) full s v = (v, some err) := by
  have := parsePre_builtin h opts (.map kt et) s v hb
  cases full <;> simp [parseAt, this, hm, hs]

/-- What `parse` does with a map target from strings to strings. -/
theorem parseAt_string_map (h : Host) (opts : Options) (s : GoString) (old : Val)
    (hf : opts.funcs Typ.string = none) (hm : h.noMethods Typ.string = true)
    (hb : builtin h opts (.map Typ.string Typ.string) = true) :
    parseAt h opts (.map Typ.string Typ.string) true s old
      = parseStringMap h.quote (runeToString opts.elemSep) (runeToString opts.keySep) s old := by
  unfold parseStringMap
  split
  · rename_i hblank
    exact parseAt_map_blank h _ _ _ _ _ _ hb hblank
  · rename_i hnb
    split
    · rename_i piece hbad
      exact parseAt_map_fail h _ _ _ _ _ _ _ hb hnb
        (parseEntries_bad h _ _ _ (fun p => parseAt_string h opts _ p _ hf hm)
          (fun p => parseAt_string h opts _ p _ hf hm) _ [] piece hbad)
    · rename_i hgood
      exact parseAt_map_ok h _ _ _ _ _ _ _ hb hnb
        (parseEntries_good h _ _ _ (fun p => parseAt_string h opts _ p _ hf hm)
          (fun p => parseAt_string h opts _ p _ hf hm) _ [] hgood)

/-- C16 (malformed map item): for every input `s` and every pair of
separators, `Parse` of `s` into a map target from strings to strings fails if
and only if `s` is not blank and some piece of `s` split on the element
separator does not split on the key separator into exactly two parts; the
error then names the first such piece, quoted, and the target keeps its
content; when `s` is blank the result is the empty map. -/
theorem C16_malformed_map_item (h : Host) (r1 r2 : Int) (s : GoString) (old : Val)
    (hm : h.noMethods Typ.string = true)
    (hmm : h.noMethods (.map Typ.string Typ.string) = true) :
    ((Parse h s (.of (.map Typ.string Typ.string) old true)
          [WithElementSeparator r1, WithKeySeparator r2]).2 ≠ none
      ↔ ((strings.TrimSpace s).length ≠ 0
        ∧ ∃ piece ∈ strings.Split s (runeToString r1),
            (strings.Split piece (runeToString r2)).length ≠ 2))
    ∧ Parse h s (.of (.map Typ.string Typ.string) old true)
          [WithElementSeparator r1, WithKeySeparator r2]
      = (if (strings.TrimSpace s).length = 0 then
          (.of (.map Typ.string Typ.string) (.map []) true, none)
        else
          match (strings.Split s (runeToString r1)).find? (badPiece (runeToString r2)) with
          | some piece =>
            (.of (.map Typ.string Typ.string) old true,
              some (.error (.errorf (str "invalid map item: " ++ h.quote piece))))
          | none =>
            (.of (.map Typ.string Typ.string)
              (.map (insertPieces (runeToString r2) (strings.Split s (runeToString r1)) []))
              true, none)) := by
  have hsaved : (buildOptions [WithElementSeparator r1, WithKeySeparator r2]).savedErr = none :=
    rfl
  have hb : builtin h (buildOptions [WithElementSeparator r1, WithKeySeparator r2])
      (.map Typ.string Typ.string) = true := by
    rw [builtin_iff]
    exact ⟨rfl, hmm⟩
  have hp := parseAt_string_map h (buildOptions [WithElementSeparator r1, WithKeySeparator r2])
    s old rfl hm hb
  have he : (buildOptions [WithElementSeparator r1, WithKeySeparator r2]).elemSep = r1 := rfl
  have hk : (buildOptions [WithElementSeparator r1, WithKeySeparator r2]).keySep = r2 := rfl
  rw [he, hk] at hp
  rw [Parse_of_saved _ _ _ _ _ hsaved, hp]
  unfold parseStringMap
  by_cases hblank : (strings.TrimSpace s).length = 0
  · simp [hblank]
  · simp only [hblank, if_false, ne_eq, not_false_eq_true, true_and]
    cases hfind : (strings.Split s (runeToString r1)).find? (badPiece (runeToString r2)) with
    | some piece =>
      refine ⟨?_, rfl⟩
      simp only [Option.some_ne_none, not_false_eq_true, true_iff]
      have hmem := List.mem_of_find?_eq_some hfind
      have hbad := List.find?_some hfind
      exact ⟨piece, hmem, by simpa [badPiece] using hbad⟩
    | none =>
      refine ⟨?_, rfl⟩
      simp only [not_true_eq_false, false_iff, not_exists, not_and, not_not]
      intro piece hmem
      have := List.find?_eq_none.mp hfind piece hmem
      simpa [badPiece] using this

/-- Witness of C16: the input `a:b:c` of the specification, whose only
piece has three parts. -/
theorem C16_malformed_map_item_witness :
    Parse Host.bare (str "a:b:c") (.of (.map Typ.string Typ.string) (.map []) true)
        [WithElementSeparator 59, WithKeySeparator 58]
      = (.of (.map Typ.string Typ.string) (.map []) true,
          some (.error (.errorf (str "invalid map item: " ++ Host.bare.quote (str "a:b:c"))))) :=
  (C16_malformed_map_item Host.bare 59 58 (str "a:b:c") (.map []) (by decide) (by decide)).2

theorem MapIndex_SetMapIndex (m : List (Val × Val)) (k x k1 : Val) :
    MapIndex (SetMapIndex m k x) k1 = if k = k1 then some x else MapIndex m k1 := by
  induction m with
  | nil => simp [SetMapIndex, MapIndex]
  | cons e rest ih =>
    obtain ⟨k2, x2⟩ := e
    by_cases h2 : k2 = k
    · subst h2
      by_cases h1 : k2 = k1 <;> simp [SetMapIndex, MapIndex, h1]
    · by_cases h1 : k = k1
      · subst h1
        simp [SetMapIndex, MapIndex, h2, ih]
      · simp [SetMapIndex, MapIndex, h2, ih, h1]

theorem MapIndex_insertPieces (keySep : GoString) (pieces : List GoString)
    (m : List (Val × Val)) (k : GoString) :
    MapIndex (insertPieces keySep pieces m) (.string k)
      = ((lastValue (pieces.map (pairOf keySep)) k).map Val.string).orElse
          (fun _ => MapIndex m (.string k)) := by
  induction pieces generalizing m with
  | nil => simp [insertPieces, lastValue]
  | cons p rest ih =>
    have ih' := ih (SetMapIndex m (.string (pairOf keySep p).1) (.string (pairOf keySep p).2))
    simp only [insertPieces, List.foldl_cons] at ih' ⊢
    rw [ih', MapIndex_SetMapIndex]
    simp only [List.map_cons, lastValue]
    cases hl : lastValue (rest.map (pairOf keySep)) k with
    | some v => simp
    | none =>
      by_cases hk : (pairOf keySep p).1 = k <;> simp [hk]

theorem SetMapIndex_keys (m : List (Val × Val)) (k x : Val) :
    (SetMapIndex m k x).map Prod.fst
      = if k ∈ m.map Prod.fst then m.map Prod.fst else m.map Prod.fst ++ [k] := by
  induction m with
  | nil => simp [SetMapIndex]
  | cons e rest ih =>
    obtain ⟨k2, x2⟩ := e
    by_cases h2 : k2 = k
    · subst h2
      simp [SetMapIndex]
    · have h2' : ¬ k = k2 := fun hh => h2 hh.symm
      simp only [SetMapIndex, h2, if_false, List.map_cons, ih, List.mem_cons, h2', false_or]
      split <;> simp

theorem SetMapIndex_nodup (m : List (Val × Val)) (k x : Val)
    (hm : (m.map Prod.fst).Nodup) : ((SetMapIndex m k x).map Prod.fst).Nodup := by
  rw [SetMapIndex_keys]
  split
  · exact hm
  · rename_i hk
    rw [List.nodup_append]
    refine ⟨hm, List.nodup_singleton k, ?_⟩
    intro a ha hb
    simp only [List.mem_singleton] at hb
    subst hb
    exact hk ha

theorem insertPieces_nodup (keySep : GoString) (pieces : List GoString) (m : List (Val × Val))
    (hm : (m.map Prod.fst).Nodup) : ((insertPieces keySep pieces m).map Prod.fst).Nodup := by
  induction pieces generalizing m with
  | nil => exact hm
  | cons p rest ih =>
    simp only [insertPieces, List.foldl_cons]
    exact ih _ (SetMapIndex_nodup _ _ _ hm)

/-- C17 (duplicate keys): when a non-blank input `s` is well formed (every
piece splits on the key separator into exactly two parts), `Parse` of `s`
into a map target from strings to strings succeeds and the target holds a
freshly built map, whatever it held before: each key maps to the value of
the last piece that carries it, a key that no piece carries is absent, and no
key occurs twice. -/
theorem C17_duplicate_keys (h : Host) (r1 r2 : Int) (s : GoString) (old : Val)
    (hm : h.noMethods Typ.string = true)
    (hmm : h.noMethods (.map Typ.string Typ.string) = true)
    (hs : (strings.TrimSpace s).length ≠ 0)
    (hgood : (strings.Split s (runeToString r1)).all
      (fun piece => decide ((strings.Split piece (runeToString r2)).length = 2)) = true) :
    ∃ m : List (Val × Val),
      Parse h s (.of (.map Typ.string Typ.string) old true)
          [WithElementSeparator r1, WithKeySeparator r2]
        = (.of (.map Typ.string Typ.string) (.map m) true, none)
      ∧ m = insertPieces (runeToString r2) (strings.Split s (runeToString r1)) []
      ∧ (∀ k : GoString,
          MapIndex m (.string k)
            = (lastValue ((strings.Split s (runeToString r1)).map (pairOf (runeToString r2))) k).map
                Val.string)
      ∧ (m.map Prod.fst).Nodup := by
  have hsaved : (buildOptions [WithElementSeparator r1, WithKeySeparator r2]).savedErr = none :=
    rfl
  have hb : builtin h (buildOptions [WithElementSeparator r1, WithKeySeparator r2])
      (.map Typ.string Typ.string) = true := by
    rw [builtin_iff]
    exact ⟨rfl, hmm⟩
  have hp := parseAt_string_map h (buildOptions [WithElementSeparator r1, WithKeySeparator r2])
    s old rfl hm hb
  have he : (buildOptions [WithElementSeparator r1, WithKeySeparator r2]).elemSep = r1 := rfl
  have hk : (buildOptions [WithElementSeparator r1, WithKeySeparator r2]).keySep = r2 := rfl
  rw [he, hk] at hp
  have hfind : (strings.Split s (runeToString r1)).find? (badPiece (runeToString r2)) = none := by
    rw [List.find?_eq_none]
    intro piece hmem
    have := List.all_eq_true.mp hgood piece hmem
    simpa [badPiece] using this
  refine ⟨insertPieces (runeToString r2) (strings.Split s (runeToString r1)) [], ?_, rfl, ?_, ?_⟩
  · rw [Parse_of_saved _ _ _ _ _ hsaved, hp]
    simp [parseStringMap, hs, hfind]
  · intro k
    rw [MapIndex_insertPieces]
    cases lastValue ((strings.Split s (runeToString r1)).map (pairOf (runeToString r2))) k <;>
      simp [MapIndex]
  · exact insertPieces_nodup _ _ _ (by simp)

/-- Witness of C17: the key `a` is carried twice and keeps the value of the
last piece, and the entry the target held before is gone. -/
theorem C17_duplicate_keys_witness :
    ∃ m : List (Val × Val),
      Parse Host.bare (str "a:1;b:2;a:3")
          (.of (.map Typ.string Typ.string) (.map [(.string (str "z"), .string (str "9"))]) true)
          [WithElementSeparator 59, WithKeySeparator 58]
        = (.of (.map Typ.string Typ.string) (.map m) true, none)
      ∧ m = insertPieces (runeToString 58) (strings.Split (str "a:1;b:2;a:3") (runeToString 59)) []
      ∧ (∀ k : GoString,
          MapIndex m (.string k)
            = (lastValue ((strings.Split (str "a:1;b:2;a:3") (runeToString 59)).map
                (pairOf (runeToString 58))) k).map Val.string)
      ∧ (m.map Prod.fst).Nodup :=
  C17_duplicate_keys Host.bare 59 58 (str "a:1;b:2;a:3")
    (.map [(.string (str "z"), .string (str "9"))]) (by decide) (by decide) (by decide)
    (by decide)

theorem strings.splitAux_length (sep s : GoString) (skip : Nat) :
    (strings.splitAux sep s skip).length = strings.countAux sep s skip + 1 := by
  induction s generalizing skip with
  | nil => simp [strings.splitAux, strings.countAux]
  | cons c cs ih =>
    cases skip with
    | succ k => simpa [strings.splitAux, strings.countAux] using ih k
    | zero =>
      by_cases hp : sep.isPrefixOf (c :: cs) = true
      · rw [strings.splitAux, strings.countAux, if_pos hp, if_pos hp, List.length_cons, ih]
        omega
      · rw [strings.splitAux, strings.countAux, if_neg hp, if_neg hp]
        have := ih 0
        cases hsp : strings.splitAux sep cs 0 with
        | nil => rw [hsp] at this; simp at this
        | cons p ps => rw [hsp] at this; simpa using this

theorem parseAt_array_over (h : Host) (opts : Options) (n : Nat) (e : Typ) (full : Bool)
    (s : GoString) (v : Val) (hb : builtin h opts (.array n e) = true)
    (hk : (strings.Split s (runeToString opts.elemSep)).length > n) :
    parseAt h opts (.array n e) full s v
      = (v, some (capacityError (strings.Split s (runeToString opts.elemSep)).length n)) := by
  have := parsePre_builtin h opts (.array n e) s v hb
  cases full <;> simp [parseAt, this, hk, capacityError, FormatInt_eq_numeral]

theorem parseAt_array_fits (h : Host) (opts : Options) (n : Nat) (e : Typ) (full : Bool)
    (s : GoString) (xs : List Val) (hb : builtin h opts (.array n e) = true)
    (hk : (strings.Split s (runeToString opts.elemSep)).length ≤ n) :
    parseAt h opts (.array n e) full s (.list xs)
      = (.list (parseArray (fun piece x => parseAt h opts e true piece x)
            (strings.Split s (runeToString opts.elemSep)) xs).1,
          (parseArray (fun piece x => parseAt h opts e true piece x)
            (strings.Split s (runeToString opts.elemSep)) xs).2) := by
  have := parsePre_builtin h opts (.array n e) s (.list xs) hb
  have hk' : ¬ (strings.Split s (runeToString opts.elemSep)).length > n := by omega
  cases full <;> simp [parseAt, this, hk']

theorem parseArray_frame (f : GoString → Val → Val × Option Fault) (pieces : List GoString)
    (xs : List Val) (hk : pieces.length ≤ xs.length) :
    (parseArray f pieces xs).1.length = xs.length
      ∧ (parseArray f pieces xs).1.drop pieces.length = xs.drop pieces.length := by
  induction pieces generalizing xs with
  | nil => simp [parseArray]
  | cons p rest ih =>
    cases xs with
    | nil => simp at hk
    | cons x xs =>
      simp only [List.length_cons, Nat.add_le_add_iff_right] at hk
      have ih' := ih xs hk
      rw [parseArray]
      rcases hf : f p x with ⟨x1, _ | err⟩
      · simp only [List.length_cons, List.drop_succ_cons]
        exact ⟨by rw [ih'.1], ih'.2⟩
      · simp

/-- C18 (fixed-array capacity check): the number of pieces of `s` split on
the element separator is one more than the number of separator occurrences;
if it exceeds the capacity `n` of the array target, `Parse` fails with the
error `number of elements (k) exceeds array capacity (n)` and the target keeps
all its elements; if it is at most `n`, the capacity error is not raised: the
result is that of the loop over the elements. -/
theorem C18_array_capacity (h : Host) (optFns : List (Options → Options)) (n : Nat) (T : Typ)
    (s : GoString) (xs : List Val)
    (hsaved : (buildOptions optFns).savedErr = none)
    (hb : builtin h (buildOptions optFns) (.array n T) = true) :
    (strings.Split s (runeToString (buildOptions optFns).elemSep)).length
        = strings.Count s (runeToString (buildOptions optFns).elemSep) + 1
    ∧ ((strings.Split s (runeToString (buildOptions optFns).elemSep)).length > n →
        Parse h s (.of (.array n T) (.list xs) true) optFns
          = (.of (.array n T) (.list xs) true,
              some (capacityError
                (strings.Split s (runeToString (buildOptions optFns).elemSep)).length n)))
    ∧ ((strings.Split s (runeToString (buildOptions optFns).elemSep)).length ≤ n →
        Parse h s (.of (.array n T) (.list xs) true) optFns
          = (.of (.array n T)
              (.list (parseArray (fun piece x => parseAt h (buildOptions optFns) T true piece x)
                (strings.Split s (runeToString (buildOptions optFns).elemSep)) xs).1) true,
              (parseArray (fun piece x => parseAt h (buildOptions optFns) T true piece x)
                (strings.Split s (runeToString (buildOptions optFns).elemSep)) xs).2)) := by
  refine ⟨strings.splitAux_length _ _ _, ?_, ?_⟩
  · intro hk
    rw [Parse_of_saved _ _ _ _ _ hsaved, parseAt_array_over h _ _ _ _ _ _ hb hk]
  · intro hk
    rw [Parse_of_saved _ _ _ _ _ hsaved, parseAt_array_fits h _ _ _ _ _ _ hb hk]

/-- Witness of C18: three pieces do not fit an array of two 64-bit
integers, which keeps its elements. -/
theorem C18_array_capacity_witness :
    Parse Host.bare (str "1;2;3") (.of (.array 2 Typ.int64) (.list [.int 7, .int 8]) true) []
      = (.of (.array 2 Typ.int64) (.list [.int 7, .int 8]) true, some (capacityError 3 2)) :=
  (C18_array_capacity Host.bare [] 2 Typ.int64 (str "1;2;3") [.int 7, .int 8] rfl
    (by decide)).2.1 (by decide)

/-- C19, as stated, fails: an array of three 64-bit integers that holds 7,
8 and 9 holds 1, 8 and 9 after `Parse` of the one-piece input `1`; the
elements of index 1 and 2 are not the default value 0. -/
theorem C19_counterexample :
    Parse Host.bare (str "1")
        (.of (.array 3 Typ.int64) (.list [.int 7, .int 8, .int 9]) true) []
      = (.of (.array 3 Typ.int64) (.list [.int 1, .int 8, .int 9]) true, none)
    ∧ zero Typ.int64 = .int 0 := by
  decide

/-- C19, amended (unused trailing capacity): for every array target of
capacity `n` and every input that splits into `k ≤ n` pieces, after `Parse`
the target still has `n` elements and each element at an index `i` with
`k ≤ i` holds the value it held before the call; so these elements are the
default value of the element type when they were so before the call. -/
theorem C19_trailing_capacity (h : Host) (optFns : List (Options → Options)) (n : Nat) (T : Typ)
    (s : GoString) (xs : List Val)
    (hsaved : (buildOptions optFns).savedErr = none)
    (hb : builtin h (buildOptions optFns) (.array n T) = true)
    (hn : xs.length = n)
    (hk : (strings.Split s (runeToString (buildOptions optFns).elemSep)).length ≤ n) :
    ∃ ys : List Val,
      (Parse h s (.of (.array n T) (.list xs) true) optFns).1
        = .of (.array n T) (.list ys) true
      ∧ ys.length = n
      ∧ (∀ i, (strings.Split s (runeToString (buildOptions optFns).elemSep)).length ≤ i →
          ys[i]? = xs[i]?)
      ∧ (∀ i, (strings.Split s (runeToString (buildOptions optFns).elemSep)).length ≤ i →
          i < n → xs[i]? = some (zero T) → ys[i]? = some (zero T)) := by
  have hfr := parseArray_frame (fun piece x => parseAt h (buildOptions optFns) T true piece x)
    (strings.Split s (runeToString (buildOptions optFns).elemSep)) xs (by omega)
  have hget : ∀ i, (strings.Split s (runeToString (buildOptions optFns).elemSep)).length ≤ i →
      (parseArray (fun piece x => parseAt h (buildOptions optFns) T true piece x)
        (strings.Split s (runeToString (buildOptions optFns).elemSep)) xs).1[i]? = xs[i]? := by
    intro i hi
    have h1 := congrArg
      (fun l => l[i - (strings.Split s (runeToString (buildOptions optFns).elemSep)).length]?)
      hfr.2
    simp only [List.getElem?_drop] at h1
    rwa [Nat.add_sub_cancel' hi] at h1
  refine ⟨_, ?_, ?_, hget, ?_⟩
  · rw [Parse_of_saved _ _ _ _ _ hsaved, parseAt_array_fits h _ _ _ _ _ _ hb hk]
  · rw [hfr.1, hn]
  · intro i hi _ hz
    rw [hget i hi, hz]

/-- Witness of C19: the input `1` and an array of three 64-bit integers
that holds 7, 8 and 9. -/
theorem C19_trailing_capacity_witness :
    ∃ ys : List Val,
      (Parse Host.bare (str "1")
          (.of (.array 3 Typ.int64) (.list [.int 7, .int 8, .int 9]) true) []).1
        = .of (.array 3 Typ.int64) (.list ys) true
      ∧ ys.length = 3
      ∧ (∀ i, (strings.Split (str "1") (runeToString (buildOptions []).elemSep)).length ≤ i →
          ys[i]? = [Val.int 7, .int 8, .int 9][i]?)
      ∧ (∀ i, (strings.Split (str "1") (runeToString (buildOptions []).elemSep)).length ≤ i →
          i < 3 → [Val.int 7, .int 8, .int 9][i]? = some (zero Typ.int64) →
          ys[i]? = some (zero Typ.int64)) :=
  C19_trailing_capacity Host.bare [] 3 Typ.int64 (str "1") [.int 7, .int 8, .int 9] rfl
    (by decide) rfl (by decide)

/-- C20 (byte arrays are not parsed back): `Stringify` of a pointer to the
one-byte array that holds the letter `a` gives `a`, and `Parse` of `a` into
an array of one byte fails in `ParseUint` and leaves the array as it was,
because the array case of `parse` splits the input and parses each piece as a
number, so the array that holds the digit `5` (byte 53) comes back holding
the number 5; the slice case stores the bytes. `Stringify` of the array
passed by value panics. -/
theorem C20_byte_array_not_mirrored :
    Stringify Host.bare (.ptr (.array 1 Typ.uint8)) (.ptr (.list [.uint 97])) [] = .ok (str "a")
    ∧ Parse Host.bare (str "a") (.of (.array 1 Typ.uint8) (.list [.uint 0]) true) []
      = (.of (.array 1 Typ.uint8) (.list [.uint 0]) true,
          some (.error (.num ⟨"ParseUint", str "a", .ErrSyntax⟩)))
    ∧ Stringify Host.bare (.ptr (.array 1 Typ.uint8)) (.ptr (.list [.uint 53])) [] = .ok (str "5")
    ∧ Parse Host.bare (str "5") (.of (.array 1 Typ.uint8) (.list [.uint 0]) true) []
      = (.of (.array 1 Typ.uint8) (.list [.uint 5]) true, none)
    ∧ Parse Host.bare (str "a") (.of (.slice Typ.uint8) (.list []) true) []
      = (.of (.slice Typ.uint8) (.list [.uint 97]) true, none)
    ∧ Stringify Host.bare (.array 1 Typ.uint8) (.list [.uint 97]) []
      = .error (.panic "reflect.Value.Bytes of unaddressable byte array") := by
  decide

theorem strconv.scanDigits_formatBits_over (b0 : Bool) (maxVal : Nat) (hmax : maxVal < 2 ^ 64)
    (h9 : 9 ≤ maxVal) (us : Bool) :
    ∀ (fuel u : Nat) (acc : GoString), u < fuel → maxVal < u →
      strconv.scanDigits b0 10 ((2 ^ 64 - 1) / 10 + 1) maxVal (strconv.formatBits fuel u acc) 0 us
        = .rangeErr := by
  intro fuel
  induction fuel with
  | zero => intro u acc h; omega
  | succ fuel ih =>
    intro u acc hf hu
    have hm : maxVal < 18446744073709551616 := by norm_num at hmax; exact hmax
    have h10 : ¬ u < 10 := by omega
    simp only [strconv.formatBits, h10, if_false]
    by_cases hq : maxVal < u / 10
    · exact ih (u / 10) _ (by omega) hq
    · rw [strconv.scanDigits_formatBits b0 maxVal hmax us fuel (u / 10) _ (by omega) (by omega)]
      have h95 : ¬ (48 + u % 10 = 95 ∧ b0 = true) := by omega
      have hc : 48 ≤ 48 + u % 10 ∧ 48 + u % 10 ≤ 57 := by omega
      have hb : ¬ (48 + u % 10 - 48 ≥ 10) := by omega
      by_cases hcut : u / 10 ≥ (2 ^ 64 - 1) / 10 + 1
      · simp only [strconv.scanDigits, h95, hc, hb, hcut, if_false, if_true, and_self]
      · have hcut' : u / 10 < 1844674407370955162 := by
          norm_num at hcut
          exact hcut
        have e1 : u / 10 * 10 % 2 ^ 64 = u / 10 * 10 := Nat.mod_eq_of_lt (by norm_num; omega)
        have h3 : (u / 10 * 10 + (48 + u % 10 - 48)) % 2 ^ 64 < u / 10 * 10
            ∨ (u / 10 * 10 + (48 + u % 10 - 48)) % 2 ^ 64 > maxVal := by
          have hsum : u / 10 * 10 + (48 + u % 10 - 48) = u := by omega
          rw [hsum]
          by_cases hbig : u < 2 ^ 64
          · right
            rw [Nat.mod_eq_of_lt hbig]
            exact hu
          · left
            have hlt : u < 2 * 2 ^ 64 := by norm_num; omega
            have : u % 2 ^ 64 = u - 2 ^ 64 := by
              rw [Nat.mod_eq_sub_mod (by omega), Nat.mod_eq_of_lt (by omega)]
            rw [this]
            norm_num
            norm_num at hbig
            omega
        simp only [strconv.scanDigits, h95, hc, hb, hcut, e1, h3, if_false, if_true, and_self]

theorem strconv.detectBase_FormatUint (u : Nat) (h0 : 0 < u) :
    strconv.detectBase (strconv.FormatUint u) 0 = some (10, strconv.FormatUint u) := by
  obtain ⟨d, rest, hd, hd1, hd9⟩ := strconv.formatBits_head (u + 1) u [] h0 (by omega)
  unfold strconv.FormatUint
  rw [hd]
  unfold strconv.detectBase
  simp only [show ¬ (2 ≤ 0 ∧ 0 ≤ 36) by omega, if_false, if_true]
  split
  · rename_i heq
    simp only [List.cons.injEq] at heq
    omega
  · rename_i heq
    simp only [List.cons.injEq] at heq
    omega
  · rfl

/-- Parsing the decimal numeral of `u` is a range error, with the largest
value of the bit size, when `u` does not fit the bit size. -/
theorem strconv.ParseUint_FormatUint_over (u bitSize : Nat) (hb : 4 ≤ bitSize ∧ bitSize ≤ 64)
    (hu : 2 ^ bitSize ≤ u) :
    strconv.ParseUint (strconv.FormatUint u) 0 bitSize
      = (2 ^ bitSize - 1, some ⟨"ParseUint", strconv.FormatUint u, .ErrRange⟩) := by
  have hpow : 2 ^ bitSize ≤ 2 ^ 64 := Nat.pow_le_pow_right (by norm_num) hb.2
  have hpow4 : 2 ^ 4 ≤ 2 ^ bitSize := Nat.pow_le_pow_right (by norm_num) hb.1
  have hpos : 0 < 2 ^ bitSize := Nat.two_pow_pos bitSize
  have hne : strconv.FormatUint u ≠ [] := strconv.formatBits_ne_nil _ _ _ (by omega)
  have hbs : ¬ bitSize > 64 := by omega
  have hb0 : ¬ bitSize = 0 := by omega
  have hdet := strconv.detectBase_FormatUint u (by omega)
  have hscan := strconv.scanDigits_formatBits_over true (2 ^ bitSize - 1) (by omega)
    (by norm_num at hpow4; omega) false (u + 1) u [] (by omega) (by omega)
  unfold strconv.ParseUint
  simp only [hne, if_false, hdet, hbs, hb0]
  unfold strconv.FormatUint
  simp only [decide_True] at hscan ⊢
  rw [hscan]

/-- A numeral with a minus sign is a syntax error for `ParseUint`. -/
theorem strconv.ParseUint_minus (rest : GoString) (bitSize : Nat) (hb : bitSize ≤ 64) :
    strconv.ParseUint (45 :: rest) 0 bitSize
      = (0, some ⟨"ParseUint", 45 :: rest, .ErrSyntax⟩) := by
  have hbs : ¬ bitSize > 64 := by omega
  have hdet : strconv.detectBase (45 :: rest) 0 = some (10, 45 :: rest) := by
    unfold strconv.detectBase
    simp only [show ¬ (2 ≤ 0 ∧ 0 ≤ 36) by omega, if_false, if_true]
  have hl : strconv.lower 45 = 45 := by decide
  unfold strconv.ParseUint
  simp [hdet, hbs, strconv.scanDigits, hl]

/-- Parsing the decimal numeral of `n` is a range error when `n` does not
fit the bit size. -/
theorem strconv.ParseInt_FormatInt_over (n : Int) (bitSize : Nat)
    (hb : 4 ≤ bitSize ∧ bitSize ≤ 64)
    (hout : n < -(2 : Int) ^ (bitSize - 1) ∨ (2 : Int) ^ (bitSize - 1) ≤ n) :
    (strconv.ParseInt (strconv.FormatInt n) 0 bitSize).2
      = some ⟨"ParseInt", strconv.FormatInt n, .ErrRange⟩ := by
  have hP : 2 ^ (bitSize - 1) ≤ 2 ^ 63 := Nat.pow_le_pow_right (by norm_num) (by omega)
  have hP3 : 2 ^ 3 ≤ 2 ^ (bitSize - 1) := Nat.pow_le_pow_right (by norm_num) (by omega)
  have h2 : 2 ^ bitSize = 2 * 2 ^ (bitSize - 1) := by
    rw [← Nat.pow_succ']
    congr 1
    omega
  have hcast : ((2 : Int) ^ (bitSize - 1)) = ((2 ^ (bitSize - 1) : Nat) : Int) := by
    push_cast
    rfl
  rw [hcast] at hout
  have hb0 : ¬ bitSize = 0 := by omega
  have hb1 : 0 < bitSize ∧ bitSize ≤ 64 := by omega
  generalize hPdef : 2 ^ (bitSize - 1) = P at hP hP3 h2 hout
  norm_num at hP hP3
  by_cases hneg : n < 0
  · obtain ⟨m, rfl⟩ : ∃ m : Nat, n = -(m : Int) := ⟨n.natAbs, by omega⟩
    have hfmt : strconv.FormatInt (-(m : Int)) = 45 :: strconv.FormatUint m := by
      simp only [strconv.FormatInt, hneg, if_true, Int.natAbs_neg, Int.natAbs_ofNat,
        strconv.FormatUint]
    rw [hfmt]
    by_cases hfit : m < 2 ^ bitSize
    · have hpu := strconv.ParseUint_FormatUint m bitSize hb1 hfit
      have hc : m > P := by omega
      simp [strconv.ParseInt, hb0, hPdef]
      simp [hpu, hc]
    · have hpu := strconv.ParseUint_FormatUint_over m bitSize hb (by omega)
      have hc : 2 ^ bitSize - 1 > P := by omega
      simp [strconv.ParseInt, hb0, hPdef]
      simp [hpu, hc]
  · obtain ⟨m, rfl⟩ : ∃ m : Nat, n = (m : Int) := ⟨n.natAbs, by omega⟩
    have hfmt : strconv.FormatInt (m : Int) = strconv.FormatUint m := by
      simp only [strconv.FormatInt, hneg, if_false, Int.natAbs_ofNat, strconv.FormatUint]
    obtain ⟨c, cs, hcs, hc1, hc2⟩ := strconv.FormatUint_head m
    rw [hfmt]
    have h43 : ¬ (c = 43 ∨ c = 45) := by omega
    have h45 : ¬ (c = 45) := by omega
    have h43b : ¬ (c = 43) := by omega
    by_cases hfit : m < 2 ^ bitSize
    · have hpu := strconv.ParseUint_FormatUint m bitSize hb1 hfit
      rw [hcs] at hpu ⊢
      have hc : m ≥ P := by omega
      simp [strconv.ParseInt, h43b, h45, hb0, hPdef]
      simp [hpu, hc]
    · have hpu := strconv.ParseUint_FormatUint_over m bitSize hb (by omega)
      rw [hcs] at hpu ⊢
      have hc : 2 ^ bitSize - 1 ≥ P := by omega
      simp [strconv.ParseInt, h43b, h45, hb0, hPdef]
      simp [hpu, hc]

theorem parseLeaf_int_over (h : Host) (pkgPath name : String) (k : LeafKind) (n : Int)
    (old : Val) (hk : isSignedKind k = true) (hd : isDuration pkgPath name k = false)
    (hout : n < -(2 : Int) ^ (k.Bits - 1) ∨ (2 : Int) ^ (k.Bits - 1) ≤ n) :
    parseLeaf h pkgPath name k (strconv.FormatInt n) old
      = (old, some (.error (.num ⟨"ParseInt", strconv.FormatInt n, .ErrRange⟩))) := by
  simp only [isDuration, decide_eq_false_iff_not] at hd
  have hb : 4 ≤ k.Bits ∧ k.Bits ≤ 64 := by cases k <;> simp_all [LeafKind.Bits, isSignedKind]
  have hp := strconv.ParseInt_FormatInt_over n k.Bits hb hout
  rcases hpi : strconv.ParseInt (strconv.FormatInt n) 0 k.Bits with ⟨i, e⟩
  rw [hpi] at hp
  simp only at hp
  subst hp
  cases k <;> simp_all [parseLeaf, isSignedKind]

theorem parseLeaf_uint_over (h : Host) (pkgPath name : String) (k : LeafKind) (u : Nat)
    (old : Val) (hk : isUnsignedKind k = true) (hu : 2 ^ k.Bits ≤ u) :
    parseLeaf h pkgPath name k (strconv.FormatUint u) old
      = (old, some (.error (.num ⟨"ParseUint", strconv.FormatUint u, .ErrRange⟩))) := by
  have hb : 4 ≤ k.Bits ∧ k.Bits ≤ 64 := by cases k <;> simp_all [LeafKind.Bits, isUnsignedKind]
  have hp := strconv.ParseUint_FormatUint_over u k.Bits hb hu
  cases k <;> simp_all [parseLeaf, isUnsignedKind]

theorem parseLeaf_uint_minus (h : Host) (pkgPath name : String) (k : LeafKind)
    (rest : GoString) (old : Val) (hk : isUnsignedKind k = true) :
    parseLeaf h pkgPath name k (45 :: rest) old
      = (old, some (.error (.num ⟨"ParseUint", 45 :: rest, .ErrSyntax⟩))) := by
  have hb : k.Bits ≤ 64 := by cases k <;> simp_all [LeafKind.Bits, isUnsignedKind]
  have hp := strconv.ParseUint_minus rest k.Bits hb
  cases k <;> simp_all [parseLeaf, isUnsignedKind]

/-- C21 (integer parsing is sized to the bit width of the target): with no
registered functions, for every integer `n` and every target of a signed
integer kind of width `w` (8, 16, 32 or 64 bits; not `time.Duration`), `Parse`
of the base-10 numeral of `n` succeeds and stores `n` when
`-2^(w-1) <= n <= 2^(w-1)-1`, and otherwise returns the range error of
`ParseInt` and leaves the target as it was; for a target of an unsigned kind
of width `w` it succeeds and stores `n` when `0 <= n <= 2^w-1`, and otherwise
returns the error of `ParseUint` (a syntax error for a negative `n`, a range
error for a large one) and leaves the target as it was. -/
theorem C21_integer_width (h : Host) (pkgPath name : String) (k : LeafKind) (n : Int)
    (old : Val) (hm : h.noMethods (.leaf pkgPath name k) = true) :
    (isSignedKind k = true → isDuration pkgPath name k = false →
      (k.Bits = 8 ∨ k.Bits = 16 ∨ k.Bits = 32 ∨ k.Bits = 64)
      ∧ Parse h (numeral n) (.of (.leaf pkgPath name k) old true) []
        = if -(2 : Int) ^ (k.Bits - 1) ≤ n ∧ n ≤ (2 : Int) ^ (k.Bits - 1) - 1 then
            (.of (.leaf pkgPath name k) (.int n) true, none)
          else
            (.of (.leaf pkgPath name k) old true,
              some (.error (.num ⟨"ParseInt", numeral n, .ErrRange⟩))))
    ∧ (isUnsignedKind k = true →
      (k.Bits = 8 ∨ k.Bits = 16 ∨ k.Bits = 32 ∨ k.Bits = 64)
      ∧ Parse h (numeral n) (.of (.leaf pkgPath name k) old true) []
        = if 0 ≤ n ∧ n ≤ (2 : Int) ^ k.Bits - 1 then
            (.of (.leaf pkgPath name k) (.uint n.toNat) true, none)
          else
            (.of (.leaf pkgPath name k) old true,
              some (.error (.num ⟨"ParseUint", numeral n,
                if n < 0 then .ErrSyntax else .ErrRange⟩)))) := by
  rw [Parse_nil, parseAt_leaf h _ _ _ _ _ _ _ (buildOptions_nil_funcs _) hm]
  constructor
  · intro hs hd
    refine ⟨by cases k <;> simp_all [LeafKind.Bits, isSignedKind], ?_⟩
    rw [← FormatInt_eq_numeral]
    by_cases hfit : -(2 : Int) ^ (k.Bits - 1) ≤ n ∧ n ≤ (2 : Int) ^ (k.Bits - 1) - 1
    · rw [if_pos hfit, parseLeaf_int h _ _ _ _ _ hs hd hfit.1 (by omega)]
    · rw [if_neg hfit, parseLeaf_int_over h _ _ _ _ _ hs hd (by omega)]
  · intro hu
    refine ⟨by cases k <;> simp_all [LeafKind.Bits, isUnsignedKind], ?_⟩
    have hcast : ((2 : Int) ^ k.Bits) = ((2 ^ k.Bits : Nat) : Int) := by
      push_cast
      rfl
    rw [hcast]
    have hpos : 0 < 2 ^ k.Bits := Nat.two_pow_pos _
    by_cases hneg : n < 0
    · have hfit : ¬ (0 ≤ n ∧ n ≤ ((2 ^ k.Bits : Nat) : Int) - 1) := by omega
      rw [if_neg hfit, if_pos hneg]
      have hnum : numeral n = 45 :: decimal n.natAbs := by simp [numeral, hneg]
      rw [hnum, parseLeaf_uint_minus h _ _ _ _ _ hu]
    · obtain ⟨u, rfl⟩ : ∃ u : Nat, n = Int.ofNat u := ⟨n.toNat, by simp; omega⟩
      rw [numeral_ofNat, if_neg hneg]
      by_cases hfit : u < 2 ^ k.Bits
      · have hf : 0 ≤ Int.ofNat u ∧ Int.ofNat u ≤ ((2 ^ k.Bits : Nat) : Int) - 1 := by
          have : Int.ofNat u = (u : Int) := rfl
          omega
        rw [if_pos hf, parseLeaf_uint h _ _ _ _ _ hu hfit]
        rfl
      · have hf : ¬ (0 ≤ Int.ofNat u ∧ Int.ofNat u ≤ ((2 ^ k.Bits : Nat) : Int) - 1) := by
          have : Int.ofNat u = (u : Int) := rfl
          omega
        rw [if_neg hf, parseLeaf_uint_over h _ _ _ _ _ hu (by omega)]

/-- Witness of C21: 128 does not fit an `int8` target and 255 fits a
`uint8` target. -/
theorem C21_integer_width_witness :
    Parse Host.bare (numeral 128) (.of (.leaf "" "int8" .Int8) (.int 5) true) []
      = (.of (.leaf "" "int8" .Int8) (.int 5) true,
          some (.error (.num ⟨"ParseInt", numeral 128, .ErrRange⟩)))
    ∧ Parse Host.bare (numeral 255) (.of (.leaf "" "uint8" .Uint8) (.uint 5) true) []
      = (.of (.leaf "" "uint8" .Uint8) (.uint 255) true, none) :=
  ⟨((C21_integer_width Host.bare "" "int8" .Int8 128 (.int 5) (by decide)).1 rfl rfl).2.trans
      (if_neg (by decide)),
    ((C21_integer_width Host.bare "" "uint8" .Uint8 255 (.uint 5) (by decide)).2 rfl).2.trans
      (if_pos (by decide))⟩

theorem strings.splitAux_ne_nil (sep s : GoString) (skip : Nat) :
    strings.splitAux sep s skip ≠ [] := by
  intro hnil
  have := strings.splitAux_length sep s skip
  rw [hnil] at this
  simp at this

theorem strings.Join_cons_cons (c : Nat) (p : GoString) (ps : List GoString) (sep : GoString) :
    strings.Join ((c :: p) :: ps) sep = c :: strings.Join (p :: ps) sep := by
  cases ps with
  | nil => simp [strings.Join]
  | cons y ys => simp [strings.Join]

/-- Joining the pieces of a split with the separator gives the string back. -/
theorem strings.Join_Split (s sep : GoString) (hsep : sep ≠ []) :
    strings.Join (strings.Split s sep) sep = s := by
  unfold strings.Split
  generalize hn : s.length = n
  induction n using Nat.strong_induction_on generalizing s with
  | _ n ih =>
    cases s with
    | nil => simp [strings.splitAux, strings.Join]
    | cons c cs =>
      by_cases hp : sep.isPrefixOf (c :: cs) = true
      · rw [strings.splitAux, if_pos hp]
        have hpre : sep <+: c :: cs := List.isPrefixOf_iff_prefix.mp hp
        obtain ⟨tail, htail⟩ := hpre
        cases sep with
        | nil => exact absurd rfl hsep
        | cons a t =>
          simp only [List.cons_append, List.cons.injEq] at htail
          obtain ⟨rfl, rfl⟩ := htail
          have hskip := strings.splitAux_skip (a :: t) t tail
          simp only [List.length_cons, Nat.add_sub_cancel]
          rw [hskip]
          have hne := strings.splitAux_ne_nil (a :: t) tail 0
          have ih' := ih tail.length (by subst hn; simp; omega) tail rfl
          cases hsp : strings.splitAux (a :: t) tail 0 with
          | nil => exact absurd hsp hne
          | cons p ps =>
            rw [hsp] at ih'
            simp only [strings.Join, List.nil_append, ih', List.cons_append]
      · rw [strings.splitAux, if_neg hp]
        have hne := strings.splitAux_ne_nil sep cs 0
        have ih' := ih cs.length (by subst hn; simp) cs rfl
        cases hsp : strings.splitAux sep cs 0 with
        | nil => exact absurd hsp hne
        | cons p ps =>
          rw [hsp] at ih'
          simp only [strings.Join_cons_cons, ih']

theorem runeToString_ne_nil (r : Int) : runeToString r ≠ [] := by
  obtain ⟨c, t, hc, -⟩ := (headFree_iff _).mp (runeToString_headFree r)
  rw [hc]
  simp

/-- C22 (Stringify undoes Parse on string slices): for every string `s` and
every element separator, `Parse` of `s` into a slice of strings succeeds and
stores the pieces of `s`, and `Stringify` of the resulting slice with the same
separator returns exactly `s`. -/
theorem C22_stringify_undoes_parse (h : Host) (ps ns : String) (r : Int) (s : GoString)
    (old : Val) (hm : h.noMethods (.leaf ps ns .String) = true)
    (hms : h.noMethods (.slice (.leaf ps ns .String)) = true) :
    Parse h s (.of (.slice (.leaf ps ns .String)) old true) [WithElementSeparator r]
      = (.of (.slice (.leaf ps ns .String))
          (.list ((strings.Split s (runeToString r)).map Val.string)) true, none)
    ∧ Stringify h (.slice (.leaf ps ns .String))
        (.list ((strings.Split s (runeToString r)).map Val.string)) [WithElementSeparator r]
      = .ok s := by
  have hsaved : (buildOptions [WithElementSeparator r]).savedErr = none := rfl
  have hf : (buildOptions [WithElementSeparator r]).funcs (.leaf ps ns .String) = none := rfl
  have hsep : (buildOptions [WithElementSeparator r]).elemSep = r := rfl
  have hbs : builtin h (buildOptions [WithElementSeparator r]) (.slice (.leaf ps ns .String))
      = true := by
    rw [builtin_iff]
    exact ⟨rfl, hms⟩
  have hu8 : (Typ.leaf ps ns .String).Kind ≠ .Uint8 := by simp [Typ.Kind, LeafKind.toKind]
  constructor
  · have hpe : parseElems
        (fun piece x => parseAt h (buildOptions [WithElementSeparator r]) (.leaf ps ns .String)
          true piece x)
        (zero (.leaf ps ns .String))
        (strings.Split s (runeToString (buildOptions [WithElementSeparator r]).elemSep))
        = .ok ((strings.Split s (runeToString r)).map Val.string) := by
      rw [hsep]
      conv_lhs => rw [← List.map_id (strings.Split s (runeToString r))]
      apply parseElems_map
      intro x _
      show parseAt h _ (.leaf ps ns .String) true x _ = _
      rw [parseAt_leaf h _ _ _ _ _ _ _ hf hm]
      rfl
    rw [Parse_of_saved _ _ _ _ _ hsaved, parseAt_slice_ok h _ _ _ _ _ _ hbs hu8 hpe]
  · have hseq := stringifySeq_ok h
      (fun x => stringifyAt h (buildOptions [WithElementSeparator r]) (.leaf ps ns .String)
        true true x)
      ((strings.Split s (runeToString r)).map Val.string) 0 (by
        intro x hx
        obtain ⟨y, -, rfl⟩ := List.mem_map.mp hx
        refine ⟨y, ?_⟩
        show stringifyAt h _ (.leaf ps ns .String) true true (.string y) = _
        rw [stringifyAt_leaf h _ _ _ _ _ _ _ hf hm]
        rfl)
    rw [Stringify_of_saved _ _ _ _ hsaved, stringifyAt_slice h _ _ _ _ _ _ hbs hu8 hseq, hsep]
    congr 1
    have hmap : ((strings.Split s (runeToString r)).map Val.string).map
        (fun x => resultString (stringifyAt h (buildOptions [WithElementSeparator r])
          (.leaf ps ns .String) true true x)) = strings.Split s (runeToString r) := by
      rw [List.map_map]
      conv_rhs => rw [← List.map_id (strings.Split s (runeToString r))]
      apply List.map_congr_left
      intro y _
      simp only [Function.comp, stringifyAt_leaf h _ _ _ _ _ _ _ hf hm, id]
      rfl
    rw [hmap]
    exact strings.Join_Split s _ (runeToString_ne_nil r)

/-- Witness of C22: the input `a,,b,` with the separator `,`, which has an
empty piece in the middle and one at the end. -/
theorem C22_stringify_undoes_parse_witness :
    Parse Host.bare (str "a,,b,") (.of (.slice Typ.string) (.list []) true)
        [WithElementSeparator 44]
      = (.of (.slice Typ.string)
          (.list [.string (str "a"), .string [], .string (str "b"), .string []]) true, none)
    ∧ Stringify Host.bare (.slice Typ.string)
        (.list [.string (str "a"), .string [], .string (str "b"), .string []])
        [WithElementSeparator 44]
      = .ok (str "a,,b,") :=
  C22_stringify_undoes_parse Host.bare "" "string" 44 (str "a,,b,") (.list []) (by decide)
    (by decide)

/-- A failed `parse` into a slice leaves the slice as it was: the elements
are parsed into a fresh slice, which is stored after the loop. -/
theorem parseAt_slice_atomic (h : Host) (opts : Options) (e : Typ) (full : Bool) (s : GoString)
    (v : Val) (hb : builtin h opts (.slice e) = true)
    (hfail : (parseAt h opts (.slice e) full s v).2.isSome = true) :
    (parseAt h opts (.slice e) full s v).1 = v := by
  have hpre := parsePre_builtin h opts (.slice e) s v hb
  by_cases hk : e.Kind = .Uint8
  · by_cases he : e = Typ.uint8
    · subst he
      have hfull : parseAt h opts (.slice Typ.uint8) full s v
          = (.list (s.map Val.uint), none) := by
        cases full
        · simp only [parseAt, hk, if_true]
          rfl
        · simp only [parseAt, hpre, hk, if_true]
      rw [hfull] at hfail
      simp at hfail
    · cases full <;> simp [parseAt, hpre, hk, he]
  · cases hp : parseElems (fun piece x => parseAt h opts e true piece x) (zero e)
        (strings.Split s (runeToString opts.elemSep)) with
    | ok xs => cases full <;> simp [parseAt, hpre, hk, hp] at hfail
    | error err => cases full <;> simp [parseAt, hpre, hk, hp]

/-- A failed `parse` into a map leaves the map as it was: the entries are
put into a fresh map, which is stored after the loop. -/
theorem parseAt_map_atomic (h : Host) (opts : Options) (kt et : Typ) (full : Bool)
    (s : GoString) (v : Val) (hb : builtin h opts (.map kt et) = true)
    (hfail : (parseAt h opts (.map kt et) full s v).2.isSome = true) :
    (parseAt h opts (.map kt et) full s v).1 = v := by
  by_cases hs : (strings.TrimSpace s).length = 0
  · rw [parseAt_map_blank h _ _ _ _ _ _ hb hs] at hfail
    simp at hfail
  · cases hp : parseEntries h opts.keySep (fun piece => parseAt h opts kt true piece (zero kt))
        (fun piece => parseAt h opts et true piece (zero et))
        (strings.Split s (runeToString opts.elemSep)) [] with
    | ok m =>
      rw [parseAt_map_ok h _ _ _ _ _ _ _ hb hs hp] at hfail
      simp at hfail
    | error err => rw [parseAt_map_fail h _ _ _ _ _ _ _ hb hs hp]

theorem Parse_saved_target (h : Host) (s : GoString) (v : Value)
    (optFns : List (Options → Options)) (err : Err)
    (hs : (buildOptions optFns).savedErr = some err) :
    Parse h s v optFns = (v, some (.error err)) := by
  simp [Parse, hs]

/-- C23 (failure atomicity for slices and maps): whenever `Parse` into a
slice target or into a map target, of a type without registered function and
without unmarshal method, returns an error, the target still holds exactly
the value it held before the call, whatever the types of the elements, keys
and values are. -/
theorem C23_failure_atomicity (h : Host) (optFns : List (Options → Options)) (e kt et : Typ)
    (s : GoString) (old : Val) :
    (builtin h (buildOptions optFns) (.slice e) = true →
      (Parse h s (.of (.slice e) old true) optFns).2.isSome = true →
      (Parse h s (.of (.slice e) old true) optFns).1 = .of (.slice e) old true)
    ∧ (builtin h (buildOptions optFns) (.map kt et) = true →
      (Parse h s (.of (.map kt et) old true) optFns).2.isSome = true →
      (Parse h s (.of (.map kt et) old true) optFns).1 = .of (.map kt et) old true) := by
  cases hsaved : (buildOptions optFns).savedErr with
  | some err =>
    constructor
    · intro _ _
      rw [Parse_saved_target _ _ _ _ err hsaved]
    · intro _ _
      rw [Parse_saved_target _ _ _ _ err hsaved]
  | none =>
    constructor
    · intro hb hfail
      rw [Parse_of_saved _ _ _ _ _ hsaved] at hfail ⊢
      simp only at hfail ⊢
      rw [parseAt_slice_atomic h _ _ _ _ _ hb hfail]
    · intro hb hfail
      rw [Parse_of_saved _ _ _ _ _ hsaved] at hfail ⊢
      simp only at hfail ⊢
      rw [parseAt_map_atomic h _ _ _ _ _ _ hb hfail]

/-- Witness of C23: the second piece of `1;x` is not a number, and the
second pair of `1:2;3:x` has a value that is not one; the slice and the map
keep what they held. -/
theorem C23_failure_atomicity_witness :
    (Parse Host.bare (str "1;x") (.of (.slice Typ.int64) (.list [.int 5]) true) []).1
      = .of (.slice Typ.int64) (.list [.int 5]) true
    ∧ (Parse Host.bare (str "1:2;3:x")
        (.of (.map Typ.int64 Typ.int64) (.map [(.int 5, .int 6)]) true) []).1
      = .of (.map Typ.int64 Typ.int64) (.map [(.int 5, .int 6)]) true :=
  ⟨(C23_failure_atomicity Host.bare [] Typ.int64 Typ.int64 Typ.int64 (str "1;x")
      (.list [.int 5])).1 (by decide) (by decide),
    (C23_failure_atomicity Host.bare [] Typ.int64 Typ.int64 Typ.int64 (str "1:2;3:x")
      (.map [(.int 5, .int 6)])).2 (by decide) (by decide)⟩

theorem strings.Split_nil (sep : GoString) : strings.Split [] sep = [[]] := by
  simp [strings.Split, strings.splitAux]

/-- What `parse` does with the empty input and a slice whose elements are
not bytes: one element, which is parsed from the empty input. -/
theorem parseAt_slice_nil (h : Host) (opts : Options) (e : Typ) (full : Bool) (v : Val)
    (hb : builtin h opts (.slice e) = true) (he : e.Kind ≠ .Uint8) :
    parseAt h opts (.slice e) full [] v
      = if (parseAt h opts e true [] (zero e)).2.isSome = true then
          (v, (parseAt h opts e true [] (zero e)).2)
        else (.list [(parseAt h opts e true [] (zero e)).1], none) := by
  have hpre := parsePre_builtin h opts (.slice e) [] v hb
  rcases hp : parseAt h opts e true [] (zero e) with ⟨x, _ | err⟩
  · cases full <;> simp [parseAt, hpre, he, strings.Split_nil, parseElems, hp]
  · cases full <;> simp [parseAt, hpre, he, strings.Split_nil, parseElems, hp]

theorem stringifyAt_slice_nil (h : Host) (opts : Options) (e : Typ) (full canAddr : Bool)
    (hb : builtin h opts (.slice e) = true) :
    stringifyAt h opts (.slice e) full canAddr (.list []) = .ok [] := by
  have hpre := stringifyPre_builtin h opts (.slice e) canAddr (.list []) hb
  by_cases he : e.Kind = .Uint8
  · cases full <;> simp [stringifyAt, hpre, he, bytesToString]
  · cases full <;> simp [stringifyAt, hpre, he, stringifySeq, strings.Join]

/-- C24 (the empty input never parses to an empty slice): for every slice
target of a type without registered function and without methods, whose
element type is not a single byte, `Stringify` renders the empty slice as the
empty string, and `Parse` of the empty string either fails, with the error of
the parse of the empty string into the element type, and leaves the target as
it was, or stores the slice of length 1 that holds the element parsed from the
empty string; for string elements the result is the one-element slice of the
empty string, and for integer elements `Parse` returns the syntax error of
`ParseInt` or `ParseUint`. -/
theorem C24_empty_input (h : Host) (optFns : List (Options → Options)) (e : Typ) (old : Val)
    (ps ns pi ni : String) (ki : LeafKind)
    (hsaved : (buildOptions optFns).savedErr = none)
    (hb : builtin h (buildOptions optFns) (.slice e) = true) (he : e.Kind ≠ .Uint8)
    (hs : builtin h (buildOptions optFns) (.leaf ps ns .String) = true)
    (hss : builtin h (buildOptions optFns) (.slice (.leaf ps ns .String)) = true)
    (hi : builtin h (buildOptions optFns) (.leaf pi ni ki) = true)
    (hsi : builtin h (buildOptions optFns) (.slice (.leaf pi ni ki)) = true)
    (hki : (isSignedKind ki = true ∨ isUnsignedKind ki = true) ∧ ki ≠ .Uint8)
    (hd : isDuration pi ni ki = false) :
    Stringify h (.slice e) (.list []) optFns = .ok []
    ∧ Parse h [] (.of (.slice e) old true) optFns
      = (if (parse h (buildOptions optFns) e [] (zero e)).2.isSome = true then
          (.of (.slice e) old true, (parse h (buildOptions optFns) e [] (zero e)).2)
        else
          (.of (.slice e) (.list [(parse h (buildOptions optFns) e [] (zero e)).1]) true, none))
    ∧ ((Parse h [] (.of (.slice e) old true) optFns).2.isSome = true
        ∨ ∃ x, (Parse h [] (.of (.slice e) old true) optFns).1 = .of (.slice e) (.list [x]) true)
    ∧ Parse h [] (.of (.slice (.leaf ps ns .String)) old true) optFns
      = (.of (.slice (.leaf ps ns .String)) (.list [.string []]) true, none)
    ∧ Parse h [] (.of (.slice (.leaf pi ni ki)) old true) optFns
      = (.of (.slice (.leaf pi ni ki)) old true,
          some (.error (.num ⟨if isSignedKind ki then "ParseInt" else "ParseUint", [],
            .ErrSyntax⟩))) := by
  have hpe : ∀ (T : Typ), builtin h (buildOptions optFns) (.slice T) = true → T.Kind ≠ .Uint8 →
      Parse h [] (.of (.slice T) old true) optFns
        = (if (parse h (buildOptions optFns) T [] (zero T)).2.isSome = true then
            (.of (.slice T) old true, (parse h (buildOptions optFns) T [] (zero T)).2)
          else
            (.of (.slice T) (.list [(parse h (buildOptions optFns) T [] (zero T)).1]) true,
              none)) := by
    intro T hbT hT
    rw [Parse_of_saved _ _ _ _ _ hsaved, parseAt_slice_nil h _ _ _ _ hbT hT]
    unfold parse
    split <;> rfl
  have hstr : parse h (buildOptions optFns) (.leaf ps ns .String) [] (zero (.leaf ps ns .String))
      = (.string [], none) := by
    rw [builtin_iff] at hs
    unfold parse
    rw [parseAt_leaf h _ _ _ _ _ _ _ hs.1 hs.2]
    rfl
  have hint : parse h (buildOptions optFns) (.leaf pi ni ki) [] (zero (.leaf pi ni ki))
      = (zero (.leaf pi ni ki),
          some (.error (.num ⟨if isSignedKind ki then "ParseInt" else "ParseUint", [],
            .ErrSyntax⟩))) := by
    rw [builtin_iff] at hi
    unfold parse
    rw [parseAt_leaf h _ _ _ _ _ _ _ hi.1 hi.2, parseLeaf_int_nil h _ _ _ _ hki.1 hd]
  have hks : (Typ.leaf ps ns .String).Kind ≠ .Uint8 := by simp [Typ.Kind, LeafKind.toKind]
  have hkk : (Typ.leaf pi ni ki).Kind ≠ .Uint8 := by
    obtain ⟨hk1, hk2⟩ := hki
    cases ki <;> simp_all [Typ.Kind, LeafKind.toKind, isSignedKind, isUnsignedKind]
  refine ⟨?_, hpe e hb he, ?_, ?_, ?_⟩
  · rw [Stringify_of_saved _ _ _ _ hsaved, stringifyAt_slice_nil h _ _ _ _ hb]
  · rw [hpe e hb he]
    by_cases hfail : (parse h (buildOptions optFns) e [] (zero e)).2.isSome = true
    · left
      rw [if_pos hfail]
      exact hfail
    · right
      rw [if_neg hfail]
      exact ⟨_, rfl⟩
  · rw [hpe _ hss hks, hstr]
    rfl
  · rw [hpe _ hsi hkk, hint]
    rfl

/-- Witness of C24: slices of strings and of 64-bit integers with the bare
host and no options. -/
theorem C24_empty_input_witness :
    Stringify Host.bare (.slice Typ.string) (.list []) [] = .ok []
    ∧ Parse Host.bare [] (.of (.slice Typ.string) (.list []) true) []
      = (.of (.slice Typ.string) (.list [.string []]) true, none)
    ∧ Parse Host.bare [] (.of (.slice Typ.int64) (.list []) true) []
      = (.of (.slice Typ.int64) (.list []) true,
          some (.error (.num ⟨"ParseInt", [], .ErrSyntax⟩))) :=
  ⟨(C24_empty_input Host.bare [] Typ.string (.list []) "" "string" "" "int64" .Int64 rfl
      (by decide) (by decide) (by decide) (by decide) (by decide) (by decide) (by decide)
      (by decide)).1,
    (C24_empty_input Host.bare [] Typ.string (.list []) "" "string" "" "int64" .Int64 rfl
      (by decide) (by decide) (by decide) (by decide) (by decide) (by decide) (by decide)
      (by decide)).2.2.2.1,
    (C24_empty_input Host.bare [] Typ.string (.list []) "" "string" "" "int64" .Int64 rfl
      (by decide) (by decide) (by decide) (by decide) (by decide) (by decide) (by decide)
      (by decide)).2.2.2.2⟩

end Strconvert
